import Mathlib

/-!
# Cherrytree PDF export: widget proxies, printables and pagination

A shallow embedding of `future/src/ct/ct_export2pdf.h`, with the link tags
that `future/tests/tests_read_write.cpp` expects.

The header defines the widget proxies (`CtPrintTableProxy`,
`CtPrintCodeboxProxy`, `CtPrintImageProxy`) and a few printable methods inline;
these are embedded from their bodies.  The printables' `setup`, `print`,
`height` and `width` and the page loop of `CtPrint` are only declared there;
their definitions below are marked "Modelled from the spec" and follow the
specification of the pagination engine.

Conventions of the embedding:

* C++ `int` values are mathematical integers (`Int`).  Signed overflow is
  undefined behaviour in C++, so the embedding describes the executions in
  which no `int` operation overflows.  Where the range of `int` decides a
  property (the start row of a table proxy), the functions are given a second
  time on 32-bit `int` with wrap-around (`remove_first_rows_int32`,
  `get_cell_int32`) and shown equal to the first within the range.  Counters
  that start at 0 and are only incremented (`_line_index`, and the
  `std::size_t` members) are `Nat`.
* C++ `double` values (heights, widths, positions) are exact rationals (`ℚ`);
  rounding is not modelled.
* A raw pointer to borrowed, immutable document data (`CtTable*`,
  `CtCodebox*`, `CtImage*`) is the value it points to.
* An iterator walk that would leave its container (undefined behaviour in
  C++) yields `none`.
-/

namespace Cherrytree

/-! ## Document data borrowed by the proxies -/

/-- A table cell.  `CtTableCell` is declared outside `ct_export2pdf.h`; the
proxy only reads its text through `get_text_content()`. -/
structure CtTableCell where
  text_content : String
  deriving DecidableEq, Repr

/-- Embeds `CtTableCell::get_text_content()`. -/
def CtTableCell.get_text_content (cell : CtTableCell) : String :=
  cell.text_content

/-- A table row: `std::list<CtTableCell*>`. -/
abbrev CtTableRow := List CtTableCell

/-- The table matrix: `std::list<CtTableRow>`; row 0 is the header. -/
abbrev CtTableMatrix := List CtTableRow

/-- A table widget.  `CtTable` is declared outside `ct_export2pdf.h`; the
proxy only reads its matrix through `get_table_matrix()`. -/
structure CtTable where
  table_matrix : CtTableMatrix
  deriving DecidableEq, Repr

/-- Embeds `CtTable::get_table_matrix()`. -/
def CtTable.get_table_matrix (table : CtTable) : CtTableMatrix :=
  table.table_matrix

/-- The iterator walk `it = xs.begin(); std::advance(it, n); *it`: the element
`n` steps after the beginning, `none` when the walk is negative or ends at or
past `xs.end()`. -/
def advance_deref {α : Type} (xs : List α) (n : Int) : Option α :=
  if n < 0 then none else xs[n.toNat]?

/-! ## `CtPrintTableProxy`: proxy to split tables -/

/-- The fields of `CtPrintTableProxy`: `_table`, `_startRow` (never starts from
the header row) and `_rowNum` (includes the header row). -/
structure CtPrintTableProxy where
  _table : CtTable
  _startRow : Int
  _rowNum : Int
  deriving DecidableEq, Repr

namespace CtPrintTableProxy

/-- Embeds `create_new_with(row_num)`:
`new CtPrintTableProxy(_table, _startRow, row_num)`. -/
def create_new_with (p : CtPrintTableProxy) (row_num : Int) : CtPrintTableProxy :=
  { _table := p._table, _startRow := p._startRow, _rowNum := row_num }

/-- Embeds `remove_first_rows(remove_row_num)`:
`_startRow += remove_row_num; _rowNum -= remove_row_num;`. -/
def remove_first_rows (p : CtPrintTableProxy) (remove_row_num : Int) : CtPrintTableProxy :=
  { p with _startRow := p._startRow + remove_row_num, _rowNum := p._rowNum - remove_row_num }

/-- Embeds `get_table()`. -/
def get_table (p : CtPrintTableProxy) : CtTable := p._table

/-- Embeds `get_row_num()`. -/
def get_row_num (p : CtPrintTableProxy) : Int := p._rowNum

/-- Embeds `get_col_num()`: `_table->get_table_matrix().begin()->size()`; `none` when
the matrix has no row (dereferencing `begin()` of an empty list). -/
def get_col_num (p : CtPrintTableProxy) : Option Nat :=
  (p._table.get_table_matrix.head?).map List.length

/-- The matrix row index that `get_cell` reads for proxy row `row`:
`(row == 0) ? 0 : row - 1 + _startRow`. -/
def matrix_row (p : CtPrintTableProxy) (row : Int) : Int :=
  if row = 0 then 0 else row - 1 + p._startRow

/-- Embeds `get_cell(row, col)`: row 0 is always the header row, row 1 starts from
`_startRow`. -/
def get_cell (p : CtPrintTableProxy) (row col : Int) : Option String :=
  match advance_deref p._table.get_table_matrix (p.matrix_row row) with
  | none => none
  | some tableRow =>
    match advance_deref tableRow col with
    | none => none
    | some tableCell => some tableCell.get_text_content

/-- The data rows a proxy exposes, in order: proxy rows `1 .. get_row_num()-1`,
each read through `get_cell` as a function of the column. -/
def data_rows (p : CtPrintTableProxy) : List (Int → Option String) :=
  (List.range (p.get_row_num - 1).toNat).map (fun (i : Nat) => fun col => p.get_cell ((i : Int) + 1) col)

end CtPrintTableProxy

/-! ## `CtPrintCodeboxProxy`: proxy to split codebox -/

/-- A code box widget.  `CtCodebox` is declared outside `ct_export2pdf.h`; the
proxy reads its frame width, its width unit and (through
`pango_from_code_buffer`) its code buffer. -/
structure CtCodebox where
  code_buffer : String
  frame_width : Int
  width_in_pixels : Bool
  deriving DecidableEq, Repr

/-- Embeds `CtCodebox::get_frame_width()`. -/
def CtCodebox.get_frame_width (codebox : CtCodebox) : Int := codebox.frame_width

/-- Embeds `CtCodebox::get_width_in_pixels()`. -/
def CtCodebox.get_width_in_pixels (codebox : CtCodebox) : Bool := codebox.width_in_pixels

/-- The fields of `CtPrintCodeboxProxy`. -/
structure CtPrintCodeboxProxy where
  _codebox : CtCodebox
  _proxy_text : String
  _use_proxy_text : Bool
  deriving DecidableEq, Repr

namespace CtPrintCodeboxProxy

/-- Embeds `CtPrintCodeboxProxy(CtCodebox* codebox)`: `_proxy_text` is default
constructed (empty), `_use_proxy_text(false)`. -/
def new (codebox : CtCodebox) : CtPrintCodeboxProxy :=
  { _codebox := codebox, _proxy_text := "", _use_proxy_text := false }

/-- Embeds `CtPrintCodeboxProxy(CtCodebox* codebox, const Glib::ustring& proxy_text)`. -/
def new_with_text (codebox : CtCodebox) (proxy_text : String) : CtPrintCodeboxProxy :=
  { _codebox := codebox, _proxy_text := proxy_text, _use_proxy_text := true }

/-- Embeds `get_codebox()`. -/
def get_codebox (p : CtPrintCodeboxProxy) : CtCodebox := p._codebox

/-- Embeds `get_width_in_pixels()`. -/
def get_width_in_pixels (p : CtPrintCodeboxProxy) : Bool := p._codebox.get_width_in_pixels

/-- Embeds `get_frame_width()`. -/
def get_frame_width (p : CtPrintCodeboxProxy) : Int := p._codebox.get_frame_width

/-- Embeds `get_text_content()`:
`_use_proxy_text ? _proxy_text : pango_from_code_buffer(_codebox)`.  The helper
`pango_from_code_buffer` is only declared in the header, so it is a parameter. -/
def get_text_content (pango_from_code_buffer : CtCodebox → String)
    (p : CtPrintCodeboxProxy) : String :=
  if p._use_proxy_text then p._proxy_text else pango_from_code_buffer p._codebox

/-- Embeds `set_proxy_content(text)`: `_proxy_text = text; _use_proxy_text = true;`. -/
def set_proxy_content (p : CtPrintCodeboxProxy) (text : String) : CtPrintCodeboxProxy :=
  { p with _proxy_text := text, _use_proxy_text := true }

end CtPrintCodeboxProxy

/-! ## `CtPrintImageProxy`: proxy to keep pixbuf -/

/-- An image widget.  `CtImage` is declared outside `ct_export2pdf.h`; only the
pixel dimensions of its pixbuf are kept. -/
structure CtImage where
  pixbuf_width : Int
  pixbuf_height : Int
  deriving DecidableEq, Repr

/-- The field of `CtPrintImageProxy`. -/
structure CtPrintImageProxy where
  _image : CtImage
  deriving DecidableEq, Repr

/-- Embeds `get_image()`. -/
def CtPrintImageProxy.get_image (p : CtPrintImageProxy) : CtImage := p._image

/-! ## Printables: the state declared in the header -/

/-- Embeds `CtPrintable::PrintInfo`, the page geometry.  The GTK print context
and the two Pango font descriptions are left out. -/
structure CtPrintable.PrintInfo where
  page_width : ℚ
  page_height : ℚ
  newline_height : ℚ
  table_line_thickness : Int
  text_window_width : Int
  deriving DecidableEq, Repr

/-- Embeds `CtPrintable::PrintPosition`. -/
structure CtPrintable.PrintPosition where
  x : ℚ
  y : ℚ
  deriving DecidableEq, Repr

/-- Embeds `CtPrintable::PrintingContext`, without the Cairo context and the
back reference to the print data. -/
structure CtPrintable.PrintingContext where
  print_info : CtPrintable.PrintInfo
  position : CtPrintable.PrintPosition
  deriving DecidableEq, Repr

open CtPrintable (PrintInfo PrintPosition PrintingContext)

/-- One visual line of a `Pango::Layout` as measured by the external
text-metrics engine: its text and its height. -/
structure LayoutLine where
  text : String
  height : ℚ
  deriving DecidableEq, Repr

/-- A `Glib::RefPtr<Pango::Layout>` once `setup` has run: the visual lines of
the laid-out text, in order (empty before `setup`). -/
abbrev PangoLayout := List LayoutLine

/-- The total height of a list of measured lines or rows. -/
def total_height (heights : List ℚ) : ℚ := heights.sum

/-- The fields of `CtTextPrintable`, with the `_done` flag inherited from
`CtPrintable` (`bool _done = false`).  The counter `_line_index` is a C++ `int`
that starts at 0 and is only ever incremented. -/
structure CtTextPrintable where
  _done : Bool := false
  _text : String
  _layout : PangoLayout := []
  _is_newline : Bool := false
  _line_index : Nat := 0
  deriving DecidableEq, Repr

namespace CtTextPrintable

/-- Embeds `explicit CtTextPrintable(Glib::ustring text) : _text(std::move(text))`. -/
def new (text : String) : CtTextPrintable := { _text := text }

/-- Embeds `done()`. -/
def done (t : CtTextPrintable) : Bool := t._done

/-- Embeds `text()`. -/
def text (t : CtTextPrintable) : String := t._text

/-- Embeds `is_newline()`. -/
def is_newline (t : CtTextPrintable) : Bool := t._is_newline

/-- Embeds `layout()`. -/
def layout (t : CtTextPrintable) : PangoLayout := t._layout

/-- The visual lines of the run that are still to be drawn: those from
`_line_index` on. -/
def pending_lines (t : CtTextPrintable) : List LayoutLine := t._layout.drop t._line_index

/-- Modelled from the spec: `CtTextPrintable::height()` is only declared in the
header.  The spec gives `measureHeight()` of a Text Run as the sum of its
per-line heights; for a run that was split it is the height of the now-shrunk
unit, the lines still to draw. -/
def height (t : CtTextPrintable) : ℚ := total_height (t.pending_lines.map LayoutLine.height)

/-- Embeds `double height_when_wrapped(double) const override { return height(); }`. -/
def height_when_wrapped (t : CtTextPrintable) (_space_left : ℚ) : ℚ := t.height

end CtTextPrintable

/-- The fields of `CtLinkPrintable`, a `CtTextPrintable` with `_url` and
`_is_internal`. -/
structure CtLinkPrintable extends CtTextPrintable where
  _url : String
  _is_internal : Bool := false
  deriving DecidableEq, Repr

/-- The constructor `CtLinkPrintable(Glib::ustring title, std::string url)` is
only declared in the header; whether it finds the target internal is a
parameter here. -/
def CtLinkPrintable.new (title url : String) (internal : Bool) : CtLinkPrintable :=
  { CtTextPrintable.new title with _url := url, _is_internal := internal }

/-- The fields of `CtDestPrintable`, a `CtTextPrintable` with `_id`. -/
structure CtDestPrintable extends CtTextPrintable where
  _id : String
  deriving DecidableEq, Repr

namespace CtDestPrintable

/-- Embeds `CtDestPrintable(Glib::ustring txt, std::string id) :
CtTextPrintable(std::move(txt)), _id(std::move(id))`. -/
def new (txt id : String) : CtDestPrintable :=
  { CtTextPrintable.new txt with _id := id }

/-- The `height()` that `CtDestPrintable` inherits from `CtTextPrintable`. -/
def height (d : CtDestPrintable) : ℚ := d.toCtTextPrintable.height

/-- The `height_when_wrapped` that `CtDestPrintable` inherits from
`CtTextPrintable`; the class does not override it. -/
def height_when_wrapped (d : CtDestPrintable) (space_left : ℚ) : ℚ :=
  d.toCtTextPrintable.height_when_wrapped space_left

end CtDestPrintable

/-- The fields of `CtPageBreakPrintable`.  The member `_p_height` has no
initializer; it reads 0 here until `setup` stores the page height. -/
structure CtPageBreakPrintable where
  _done : Bool := false
  _p_height : ℚ := 0
  deriving DecidableEq, Repr

/-- Embeds `CtPageBreakPrintable() = default`. -/
def CtPageBreakPrintable.new : CtPageBreakPrintable := {}

/-- The fields of `CtWidgetImagePrintable`. -/
structure CtWidgetImagePrintable where
  _done : Bool := false
  _widget_proxy : CtPrintImageProxy
  _last_width : ℚ := 0
  _last_height : ℚ := 0
  deriving DecidableEq, Repr

/-- Embeds the inherited constructor `CtWidgetPrintable(wrap_ptr_t widget_proxy)`. -/
def CtWidgetImagePrintable.new (widget_proxy : CtPrintImageProxy) : CtWidgetImagePrintable :=
  { _widget_proxy := widget_proxy }

/-- The fields of `CtWidgetTablePrintable`.  Of `_tbl_grid` the first vector
holds the measured height of every row of the table matrix (header first), the
second the column widths; both are computed once from the full matrix. -/
structure CtWidgetTablePrintable where
  _done : Bool := false
  _widget_proxy : CtPrintTableProxy
  _printed_rows : Nat := 0
  _tbl_layouts : List (List PangoLayout) := []
  _tbl_grid : List ℚ × List ℚ := ([], [])
  deriving DecidableEq, Repr

/-- Embeds the inherited constructor `CtWidgetPrintable(wrap_ptr_t widget_proxy)`. -/
def CtWidgetTablePrintable.new (widget_proxy : CtPrintTableProxy) : CtWidgetTablePrintable :=
  { _widget_proxy := widget_proxy }

/-- The fields of `CtWidgetCodeboxPrintable`. -/
structure CtWidgetCodeboxPrintable where
  _done : Bool := false
  _widget_proxy : CtPrintCodeboxProxy
  _layout : PangoLayout := []
  _drawn_lines : Nat := 0
  deriving DecidableEq, Repr

/-- Embeds the inherited constructor `CtWidgetPrintable(wrap_ptr_t widget_proxy)`. -/
def CtWidgetCodeboxPrintable.new (widget_proxy : CtPrintCodeboxProxy) :
    CtWidgetCodeboxPrintable :=
  { _widget_proxy := widget_proxy }

/-- What a `std::shared_ptr<CtPrintable>` of a `CtPrintableVector` points to:
one of the concrete printables of the header. -/
inductive CtPrintable where
  | text (t : CtTextPrintable)
  | link (l : CtLinkPrintable)
  | dest (d : CtDestPrintable)
  | page_break (b : CtPageBreakPrintable)
  | image (i : CtWidgetImagePrintable)
  | table (t : CtWidgetTablePrintable)
  | codebox (c : CtWidgetCodeboxPrintable)
  deriving DecidableEq, Repr

/-- Embeds `using CtPrintableVector = std::vector<std::shared_ptr<CtPrintable>>`. -/
abbrev CtPrintableVector := List CtPrintable

/-- Embeds `constexpr bool done() const { return _done; }`, dispatched on the
concrete printable. -/
def CtPrintable.done : CtPrintable → Bool
  | .text t => t._done
  | .link l => l._done
  | .dest d => d._done
  | .page_break b => b._done
  | .image i => i._done
  | .table t => t._done
  | .codebox c => c._done

/-! ## Printables: behaviour modelled from the spec

The bodies of `setup`, `print`, `height` and `width` of every printable live in
`ct_export2pdf.cc`, which is not part of the sources at hand.  They are
modelled from the spec (§3, §4.1): a printable is handed over after `setup`,
with its layout measured.  Warnings for anomalous units (§4.3, failure
semantics) and horizontal placement are outside the model. -/

/-- Modelled from the spec: the number of whole lines or rows, taken in order
from the front of `heights`, that fit within `space` ("as many whole lines/rows
as fit", §4.1).  The helper that counts them is in the missing `.cc` file. -/
def lines_that_fit : List ℚ → ℚ → Nat
  | [], _ => 0
  | h :: rest, space => if h ≤ space then lines_that_fit rest (space - h) + 1 else 0

/-- Modelled from the spec: how many pending lines or rows one call of the
missing `print` draws (§4.1 `emit`, §4.3 rules b to d).  Everything when the whole unit fits in
`space_left`; otherwise as many whole lines as fit when at least one does;
otherwise everything (the best-effort emission of rule d). -/
def lines_to_draw (height : ℚ) (pending fitting : Nat) (space_left : ℚ) : Nat :=
  if height ≤ space_left then pending else if 1 ≤ fitting then fitting else pending

/-- The content one `print` call draws: whole visual lines of a text run, link,
anchor or code box; the header and data rows of a table proxy; an image; or a
page break. -/
inductive Drawn where
  | lines (ls : List LayoutLine)
  | table (rows : CtPrintTableProxy)
  | image (image : CtImage)
  | page_break
  deriving DecidableEq, Repr

/-- The visual lines a drawn slice holds (none for a table, image or break). -/
def Drawn.get_lines : Drawn → List LayoutLine
  | .lines ls => ls
  | _ => []

/-- Modelled from the spec: the drawing part of `CtTextPrintable::print`, which
is only declared in the header.  Draws the first `n` pending lines, advances
`_line_index` past them and sets `_done` when nothing remains (§4.1 `emit`). -/
def CtTextPrintable.draw (t : CtTextPrintable) (n : Nat) : CtTextPrintable × List LayoutLine :=
  ({ t with
      _line_index := t._line_index + min n t.pending_lines.length
      _done := t._done || decide (t.pending_lines.length ≤ n) },
   t.pending_lines.take n)

/-- Modelled from the spec: `CtPageBreakPrintable::height()` is only declared
in the header; the spec calls it a caller-defined "rest of page" sentinel,
kept in `_p_height`. -/
def CtPageBreakPrintable.height (b : CtPageBreakPrintable) : ℚ := b._p_height

/-- Modelled from the spec: `CtWidgetImagePrintable::height()` is only declared
in the header; the spec gives the scaled image height, the last-measured
`_last_height`. -/
def CtWidgetImagePrintable.height (i : CtWidgetImagePrintable) : ℚ := i._last_height

namespace CtWidgetTablePrintable

/-- The measured height of row `matrix_row` of the table matrix, 0 when
`_tbl_grid` holds no such row. -/
def row_height (t : CtWidgetTablePrintable) (matrix_row : Int) : ℚ :=
  (advance_deref t._tbl_grid.1 matrix_row).getD 0

/-- The height of the header row, proxy row 0. -/
def header_height (t : CtWidgetTablePrintable) : ℚ :=
  t.row_height (t._widget_proxy.matrix_row 0)

/-- The heights of the data rows still to draw: proxy rows
`1 .. get_row_num()-1`. -/
def pending_rows (t : CtWidgetTablePrintable) : List ℚ :=
  (List.range (t._widget_proxy.get_row_num - 1).toNat).map
    (fun (i : Nat) => t.row_height (t._widget_proxy.matrix_row ((i : Int) + 1)))

/-- Modelled from the spec: `CtWidgetTablePrintable::height()` is only declared
in the header; the spec gives header height plus the sum of the data-row
heights (of the rows the proxy still holds). -/
def height (t : CtWidgetTablePrintable) : ℚ := t.header_height + total_height t.pending_rows

/-- Modelled from the spec: the drawing part of `CtWidgetTablePrintable::print`,
which is only declared in the header.  Draws the header and the first `n`
pending data rows as the proxy `create_new_with(n + 1)`, advances the unit's
own proxy with `remove_first_rows(n)`, counts the rows in `_printed_rows` and
sets `_done` when no data row remains (§4.1 `emit`, §4.2). -/
def draw (t : CtWidgetTablePrintable) (n : Nat) : CtWidgetTablePrintable × CtPrintTableProxy :=
  ({ t with
      _widget_proxy := t._widget_proxy.remove_first_rows ((min n t.pending_rows.length : Nat) : Int)
      _printed_rows := t._printed_rows + min n t.pending_rows.length
      _done := t._done || decide (t.pending_rows.length ≤ n) },
   t._widget_proxy.create_new_with (((min n t.pending_rows.length : Nat) : Int) + 1))

end CtWidgetTablePrintable

namespace CtWidgetCodeboxPrintable

/-- The visual lines of the code box that are still to be drawn: those from
`_drawn_lines` on. -/
def pending_lines (c : CtWidgetCodeboxPrintable) : List LayoutLine :=
  c._layout.drop c._drawn_lines

/-- Modelled from the spec: `CtWidgetCodeboxPrintable::height()` is only
declared in the header; the spec gives the sum of the per-line heights (of the
lines still to draw). -/
def height (c : CtWidgetCodeboxPrintable) : ℚ :=
  total_height (c.pending_lines.map LayoutLine.height)

/-- Modelled from the spec: the drawing part of
`CtWidgetCodeboxPrintable::print`, which is only declared in the header.  Draws
the first `n` pending lines, counts them in `_drawn_lines` and sets `_done`
when nothing remains (§4.1 `emit`, §4.2). -/
def draw (c : CtWidgetCodeboxPrintable) (n : Nat) :
    CtWidgetCodeboxPrintable × List LayoutLine :=
  ({ c with
      _drawn_lines := c._drawn_lines + min n c.pending_lines.length
      _done := c._done || decide (c.pending_lines.length ≤ n) },
   c.pending_lines.take n)

end CtWidgetCodeboxPrintable

namespace CtPrintable

/-- Embeds the virtual `height()`, dispatched on the concrete printable; a link
and an anchor inherit the text run's. -/
def height : CtPrintable → ℚ
  | .text t => t.height
  | .link l => l.toCtTextPrintable.height
  | .dest d => d.height
  | .page_break b => b.height
  | .image i => i.height
  | .table t => t.height
  | .codebox c => c.height

/-- Modelled from the spec: which variants can be split across pages (§3
table); the page loop that makes the distinction is missing.  Text and hyperlink runs and code blocks split at line granularity,
tables at row granularity; anchor targets, page breaks and images are atomic. -/
def splittable : CtPrintable → Bool
  | .text _ => true
  | .link _ => true
  | .dest _ => false
  | .page_break _ => false
  | .image _ => false
  | .table _ => true
  | .codebox _ => true

/-- Whether the printable is an explicit page break. -/
def is_page_break : CtPrintable → Bool
  | .page_break _ => true
  | _ => false

/-- The number of whole lines or data rows of a splittable printable that are
still to be drawn (0 for an atomic one, which is drawn in one piece). -/
def pending : CtPrintable → Nat
  | .text t => t.pending_lines.length
  | .link l => l.toCtTextPrintable.pending_lines.length
  | .dest _ => 0
  | .page_break _ => 0
  | .image _ => 0
  | .table t => t.pending_rows.length
  | .codebox c => c.pending_lines.length

/-- The visual lines of a text run, link, anchor or code box that are still to
be drawn (none for a page break, image or table). -/
def pending_lines : CtPrintable → List LayoutLine
  | .text t => t.pending_lines
  | .link l => l.toCtTextPrintable.pending_lines
  | .dest d => d.toCtTextPrintable.pending_lines
  | .page_break _ => []
  | .image _ => []
  | .table _ => []
  | .codebox c => c.pending_lines

/-- Whether the printable draws visual lines: a text run, link, anchor or code
box does, a page break, image or table does not. -/
def draws_lines : CtPrintable → Bool
  | .text _ => true
  | .link _ => true
  | .dest _ => true
  | .page_break _ => false
  | .image _ => false
  | .table _ => false
  | .codebox _ => true

/-- Modelled from the spec: how many whole lines or rows of a splittable
printable fit in `space_left`, as the missing `print` bodies count them; a
table counts its header into the check on every page (§4.3 tie-break policy).
An atomic printable has none. -/
def lines_fitting (u : CtPrintable) (space_left : ℚ) : Nat :=
  match u with
  | .text t => lines_that_fit (t.pending_lines.map LayoutLine.height) space_left
  | .link l => lines_that_fit (l.toCtTextPrintable.pending_lines.map LayoutLine.height) space_left
  | .dest _ => 0
  | .page_break _ => 0
  | .image _ => 0
  | .table t => lines_that_fit t.pending_rows (space_left - t.header_height)
  | .codebox c => lines_that_fit (c.pending_lines.map LayoutLine.height) space_left

/-- Modelled from the spec: the drawing part of the virtual `print`, whose
bodies are missing: draw the first `n` pending lines or rows of a splittable
printable, the whole of an atomic one.  Returns the printable afterwards, the
height drawn and the content drawn. -/
def draw (u : CtPrintable) (n : Nat) : CtPrintable × ℚ × Drawn :=
  match u with
  | .text t =>
    (.text (t.draw n).1, total_height ((t.draw n).2.map LayoutLine.height), .lines (t.draw n).2)
  | .link l =>
    (.link { l with toCtTextPrintable := (l.toCtTextPrintable.draw n).1 },
     total_height ((l.toCtTextPrintable.draw n).2.map LayoutLine.height),
     .lines (l.toCtTextPrintable.draw n).2)
  | .dest d =>
    (.dest { d with _done := true, _line_index := d._line_index + d.pending_lines.length },
     d.height, .lines d.pending_lines)
  | .page_break b => (.page_break { b with _done := true }, 0, .page_break)
  | .image i => (.image { i with _done := true }, i.height, .image i._widget_proxy.get_image)
  | .table t =>
    (.table (t.draw n).1, t.header_height + total_height (t.pending_rows.take n),
     .table (t.draw n).2)
  | .codebox c =>
    (.codebox (c.draw n).1, total_height ((c.draw n).2.map LayoutLine.height),
     .lines (c.draw n).2)

/-- Modelled from the spec: how many pending lines or rows the missing `print`
bodies draw in `context`, whose remaining vertical space is
`page_height - position.y`. -/
def print_count (context : PrintingContext) (u : CtPrintable) : Nat :=
  lines_to_draw u.height u.pending
    (u.lines_fitting (context.print_info.page_height - context.position.y))
    (context.print_info.page_height - context.position.y)

/-- Modelled from the spec: the virtual `print(context)`, only declared in the
header, as §4.1 `emit`: draw as much of the unit as fits in the remaining
vertical space of the page (everything when nothing fits: best effort), return
the new draw position, and set done iff nothing remains to draw. -/
def print (context : PrintingContext) (u : CtPrintable) :
    CtPrintable × PrintPosition × Drawn :=
  ((u.draw (u.print_count context)).1,
   { context.position with y := context.position.y + (u.draw (u.print_count context)).2.1 },
   (u.draw (u.print_count context)).2.2)

end CtPrintable

/-! ## The paginator, modelled from the spec (§4.3)

The functions `CtPrint::_on_begin_print_text` and `CtPrint::_on_draw_page_text`
are only declared in the header. -/

/-- One draw instruction handed to the page renderer: the page, the index of
the printable, the position it is drawn at and the content drawn. -/
structure DrawInstruction where
  page_nr : Nat
  printable_i : Nat
  position : PrintPosition
  drawn : Drawn
  deriving DecidableEq, Repr

/-- Embeds `struct CtPrintData`, the print operation data, without the GTK
print operation handle.  The member `nb_pages` is a C++ `int` without
initializer. -/
structure CtPrintData where
  printables : CtPrintableVector
  curr_printable_i : Nat := 0
  warning : String := ""
  nb_pages : Int
  deriving DecidableEq, Repr

/-- Modelled from the spec: the paginator's state per export job (§4.3): the
print data (the unit sequence with the index of the current unit, and the page
count), the current page index `page_nr`, the draw cursor on the current page,
and the draw instructions issued so far in draw order. -/
structure PaginatorState extends CtPrintData where
  page_nr : Nat
  position : PrintPosition
  instructions : List DrawInstruction
  deriving DecidableEq, Repr

namespace PaginatorState

/-- Modelled from the spec: rule 1 of the missing page loop, start a new page
and reset the vertical cursor to the top margin; the new page is counted in
`nb_pages` at once, even if it stays nearly empty (rule 3). -/
def new_page (s : PaginatorState) : PaginatorState :=
  { s with
      nb_pages := s.nb_pages + 1
      page_nr := s.page_nr + 1
      position := { x := 0, y := 0 } }

/-- Advance to the next unit. -/
def next_printable (s : PaginatorState) : PaginatorState :=
  { s with curr_printable_i := s.curr_printable_i + 1 }

/-- Modelled from the spec: the emission step of the missing page loop: call
`print` of the current unit `u` at the cursor, keep the unit's new state, move
the cursor to the returned position and record the draw instruction on the
current page. -/
def emit (print_info : PrintInfo) (s : PaginatorState) (u : CtPrintable) : PaginatorState :=
  { s with
      printables :=
        s.printables.set s.curr_printable_i
          (u.print { print_info := print_info, position := s.position }).1
      position := (u.print { print_info := print_info, position := s.position }).2.1
      instructions :=
        s.instructions ++
          [{ page_nr := s.page_nr, printable_i := s.curr_printable_i, position := s.position,
             drawn := (u.print { print_info := print_info, position := s.position }).2.2 }] }

/-- Pagination is over when no unit is left to draw. -/
def finished (s : PaginatorState) : Bool := decide (s.printables.length ≤ s.curr_printable_i)

/-- Modelled from the spec: the page loop of `CtPrint::_on_draw_page_text`,
which is only declared in the header: one visit of the current unit by the
rules of §4.3 step 2.
(a) A page break ends the page and starts a new one; next unit.
(b) A unit whose height fits in the remaining space is drawn whole; next unit,
    same page.
(c) Otherwise a splittable unit of which at least one whole line or row fits
    is drawn as far as it fits; the page ends and the same unit is retried on a
    new page.
(d) Otherwise, at the top of a fresh page the unit is drawn anyway and is done;
    elsewhere the page ends without drawing and the unit is retried. -/
def step (print_info : PrintInfo) (s : PaginatorState) : PaginatorState :=
  match s.printables[s.curr_printable_i]? with
  | none => s
  | some u =>
    if u.is_page_break then (s.emit print_info u).next_printable.new_page
    else if u.height ≤ print_info.page_height - s.position.y then
      (s.emit print_info u).next_printable
    else if u.splittable && decide (1 ≤ u.lines_fitting (print_info.page_height - s.position.y))
    then (s.emit print_info u).new_page
    else if s.position.y = 0 then (s.emit print_info u).next_printable
    else s.new_page

/-- The state a job starts in: first unit, first page (already counted),
cursor at the top, no warning and nothing drawn. -/
def start (printables : CtPrintableVector) : PaginatorState :=
  { printables := printables, curr_printable_i := 0, warning := "", nb_pages := 1,
    page_nr := 0, position := { x := 0, y := 0 }, instructions := [] }

/-- Run the paginator for at most `fuel` visits: `some` final state once every
unit has been drawn, `none` when the fuel runs out first. -/
def run (print_info : PrintInfo) : Nat → PaginatorState → Option PaginatorState
  | 0, s => if s.finished then some s else none
  | fuel + 1, s => if s.finished then some s else run print_info fuel (s.step print_info)

/-- The work still ahead of a state: two visits per pending line or row and
two per unit from the current one on, plus one when the cursor is not at the
top of the page. -/
def work (s : PaginatorState) : Nat :=
  ((s.printables.drop s.curr_printable_i).map (fun u => 2 * u.pending + 2)).sum
    + (if s.position.y = 0 then 0 else 1)

/-- The state after `n` visits of the paginator, starting a job on
`printables`. -/
def after (print_info : PrintInfo) (printables : CtPrintableVector) (n : Nat) :
    PaginatorState :=
  (step print_info)^[n] (start printables)

/-- The visual lines drawn so far for the printable of index `i`: its line
slices concatenated in draw order. -/
def lines_drawn (s : PaginatorState) (i : Nat) : List LayoutLine :=
  ((s.instructions.filter (fun d => decide (d.printable_i = i))).map
    (fun d => d.drawn.get_lines)).flatten

/-- The draw instructions issued for the printable of index `i`, in draw
order. -/
def slices_of (s : PaginatorState) (i : Nat) : List DrawInstruction :=
  s.instructions.filter (fun d => decide (d.printable_i = i))

end PaginatorState

/-- Modelled from the spec: the pagination job that `CtPrint::print_text` runs
through `_on_begin_print_text` and `_on_draw_page_text`, all only declared in
the header: paginate a content-unit sequence for a page geometry (§4.3), with
enough fuel for every visit the sequence can need. -/
def paginate (print_info : PrintInfo) (printables : CtPrintableVector) :
    Option PaginatorState :=
  PaginatorState.run print_info (PaginatorState.start printables).work
    (PaginatorState.start printables)

/-! ## Table proxies: bounds and object identity -/

/-- The in-bounds condition of a table proxy: the start row is a data row, the
proxy holds at least the header, and its last data row is a row of the
underlying matrix. -/
def CtPrintTableProxy.valid (p : CtPrintTableProxy) : Prop :=
  1 ≤ p._startRow ∧ 1 ≤ p._rowNum
    ∧ p._startRow + p._rowNum - 1 ≤ (p._table.get_table_matrix.length : Int)

instance (p : CtPrintTableProxy) : Decidable p.valid := by
  unfold CtPrintTableProxy.valid
  infer_instance

/-- A table matrix is rectangular when every row has as many cells as the
first (header) row. -/
def CtTableMatrix.rectangular (matrix : CtTableMatrix) : Prop :=
  ∀ row ∈ matrix, some row.length = (matrix.head?).map List.length

instance (matrix : CtTableMatrix) : Decidable (CtTableMatrix.rectangular matrix) := by
  unfold CtTableMatrix.rectangular
  infer_instance

/-- The proxy objects alive in a program, by address: each
`std::shared_ptr<CtPrintTableProxy>` is an index into this list.  The table a
proxy points to is borrowed and never written through the proxy. -/
abbrev ProxyHeap := List CtPrintTableProxy

namespace ProxyHeap

/-- Embeds `create_new_with(row_num)` called on the object at `addr`: a new
object is allocated and its address returned; `none` when `addr` is not a live
object. -/
def create_new_with (heap : ProxyHeap) (addr : Nat) (row_num : Int) : Option (ProxyHeap × Nat) :=
  match heap[addr]? with
  | none => none
  | some p => some (heap ++ [p.create_new_with row_num], heap.length)

/-- Embeds `remove_first_rows(remove_row_num)` called on the object at `addr`,
which it updates in place; `none` when `addr` is not a live object. -/
def remove_first_rows (heap : ProxyHeap) (addr : Nat) (remove_row_num : Int) : Option ProxyHeap :=
  match heap[addr]? with
  | none => none
  | some p => some (heap.set addr (p.remove_first_rows remove_row_num))

end ProxyHeap

/-- Modelled from the spec: the four kinds of hyperlink target (§4.1): an
internal node reference with an optional anchor name, a web URI, a folder path
and a file path.  The code that builds them is missing. -/
inductive LinkTarget where
  | node (node_id : Int) (anchor : Option String)
  | webs (uri : String)
  | fold (path : String)
  | file (path : String)
  deriving DecidableEq, Repr

/-- The 64 digits of standard Base64 (RFC 4648), value 0 first. -/
def base64_alphabet : List Char :=
  "ABCDEFGHIJKLMNOPQRSTUVWXYZabcdefghijklmnopqrstuvwxyz0123456789+/".toList

/-- The Base64 digit of a 6-bit value. -/
def base64_digit (value : Nat) : Char := base64_alphabet.getD value '='

/-- Modelled from the spec: standard Base64 of a byte sequence, the encoding
`Glib::Base64::encode` computes: every three bytes give four digits, and a
last group of one or two bytes is padded with `=`. -/
def base64_encode_bytes : List Nat → List Char
  | [] => []
  | [a] => [base64_digit (a / 4), base64_digit (a % 4 * 16), '=', '=']
  | [a, b] =>
    [base64_digit (a / 4), base64_digit (a % 4 * 16 + b / 16), base64_digit (b % 16 * 4), '=']
  | a :: b :: c :: rest =>
    base64_digit (a / 4) :: base64_digit (a % 4 * 16 + b / 16)
      :: base64_digit (b % 16 * 4 + c / 64) :: base64_digit (c % 64)
      :: base64_encode_bytes rest

/-- The bytes of a string, UTF-8 encoded as in a `std::string`. -/
def utf8_bytes (text : String) : List Nat :=
  (text.toList.flatMap String.utf8EncodeChar).map UInt8.toNat

/-- Standard Base64 of the bytes of a string. -/
def base64_encode (text : String) : String := String.mk (base64_encode_bytes (utf8_bytes text))

/-- Modelled from the spec: the text of a link target, in the format
`node <id>[ <anchor>]`, `webs <uri>`, `fold <base64 path>`,
`file <base64 path>` (§4.1); the encoder itself is missing.  The node id is
written in decimal, as `std::to_string` does. -/
def LinkTarget.encode : LinkTarget → String
  | .node node_id none => "node " ++ toString node_id
  | .node node_id (some anchor) => "node " ++ toString node_id ++ " " ++ anchor
  | .webs uri => "webs " ++ uri
  | .fold path => "fold " ++ base64_encode path
  | .file path => "file " ++ base64_encode path

/-- The 6-bit value of a Base64 digit: its place in the alphabet, `none` for a
character that is not a digit. -/
def base64_value (digit : Char) : Option Nat :=
  if base64_alphabet.indexOf digit < 64 then some (base64_alphabet.indexOf digit) else none

/-- The decoding of standard Base64 (RFC 4648 §4), against which the encoding is
checked: every four digits give three bytes, and a last group that ends in `=`
or `==` gives two bytes or one. -/
def base64_decode_chars : List Char → Option (List Nat)
  | [] => some []
  | a :: b :: c :: d :: rest =>
    if d = '=' then
      if rest = [] then
        if c = '=' then
          match base64_value a, base64_value b with
          | some x, some y => some [x * 4 + y / 16]
          | _, _ => none
        else
          match base64_value a, base64_value b, base64_value c with
          | some x, some y, some z => some [x * 4 + y / 16, y % 16 * 16 + z / 4]
          | _, _, _ => none
      else none
    else
      match base64_value a, base64_value b, base64_value c, base64_value d,
        base64_decode_chars rest with
      | some x, some y, some z, some w, some bytes =>
        some ((x * 4 + y / 16) :: (y % 16 * 16 + z / 4) :: (z % 4 * 64 + w) :: bytes)
      | _, _, _, _, _ => none
  | _ => none

/-- The eight bits of a byte, most significant first, each 0 or 1. -/
def byte_bits (byte : Nat) : List Nat :=
  [byte / 128 % 2, byte / 64 % 2, byte / 32 % 2, byte / 16 % 2,
   byte / 8 % 2, byte / 4 % 2, byte / 2 % 2, byte % 2]

/-- The number a group of bits stands for, most significant bit first. -/
def bits_value (bits : List Nat) : Nat := bits.foldl (fun value bit => 2 * value + bit) 0

/-- Cut a bit string into groups of six bits, from the left; a last group of
fewer bits is filled up with zero bits on the right. -/
def sextets : List Nat → List (List Nat)
  | [] => []
  | b0 :: b1 :: b2 :: b3 :: b4 :: b5 :: rest => [b0, b1, b2, b3, b4, b5] :: sextets rest
  | [b0, b1, b2, b3, b4] => [[b0, b1, b2, b3, b4, 0]]
  | [b0, b1, b2, b3] => [[b0, b1, b2, b3, 0, 0]]
  | [b0, b1, b2] => [[b0, b1, b2, 0, 0, 0]]
  | [b0, b1] => [[b0, b1, 0, 0, 0, 0]]
  | [b0] => [[b0, 0, 0, 0, 0, 0]]

/-- Standard Base64 in the words of RFC 4648 §4: the input bytes are taken as one
bit string, cut from the left into 6-bit groups (zero bits are added on the
right to fill the last group), each group is translated into the digit of its
value, and `=` characters fill the last block of four. -/
def base64_rfc4648 (bytes : List Nat) : List Char :=
  (sextets (bytes.flatMap byte_bits)).map (fun group => base64_digit (bits_value group))
    ++ List.replicate ((4 - (sextets (bytes.flatMap byte_bits)).length % 4) % 4) '='

/-- The five characters that open the text of a link target and name its kind. -/
def LinkTarget.tag : LinkTarget → String
  | .node _ _ => "node "
  | .webs _ => "webs "
  | .fold _ => "fold "
  | .file _ => "file "

/-! ### The link tags the read/write test expects

The values `TestCtApp::_assert_tree_data` of `tests_read_write.cpp` compares
with the `TAG_LINK` attribute of the five links of its sample document. -/

/-- Embeds `"webs http://www.ansa.it"`, expected of "link to web ansa.it". -/
def expected_link_web : String := "webs http://www.ansa.it"

/-- Embeds `std::string{"node "} + std::to_string(node_d_id)`, expected of
"link to node 'd'". -/
def expected_link_node (node_d_id : Int) : String := "node " ++ toString node_d_id

/-- Embeds `std::string{"node "} + std::to_string(node_e_id) + " йцукенгшщз"`,
expected of "link to node 'e' + anchor". -/
def expected_link_node_anchor (node_e_id : Int) : String :=
  "node " ++ toString node_e_id ++ " йцукенгшщз"

/-- Embeds `"fold L2V0Yw=="`, expected of "link to folder /etc". -/
def expected_link_fold : String := "fold L2V0Yw=="

/-- Embeds `"file L2V0Yy9mc3RhYg=="`, expected of "link to file /etc/fstab". -/
def expected_link_file : String := "file L2V0Yy9mc3RhYg=="

/-! ## The content of a unit, piece by piece -/

/-- One indivisible piece of content: a visual line, a data row of a table
(by its row in the table matrix), an image or a page break.  The header row of
a table is not a piece: it is repeated on every page of the table. -/
inductive Piece where
  | line (l : LayoutLine)
  | row (table : CtTable) (matrix_row : Int)
  | image (image : CtImage)
  | page_break
  deriving DecidableEq, Repr

/-- The data rows a table proxy exposes, as pieces, in order: proxy rows
`1 .. get_row_num()-1`. -/
def CtPrintTableProxy.row_pieces (p : CtPrintTableProxy) : List Piece :=
  (List.range (p.get_row_num - 1).toNat).map
    (fun (i : Nat) => Piece.row p.get_table (p.matrix_row ((i : Int) + 1)))

/-- The pieces a drawn slice holds. -/
def Drawn.pieces : Drawn → List Piece
  | .lines ls => ls.map Piece.line
  | .table rows => rows.row_pieces
  | .image picture => [Piece.image picture]
  | .page_break => [Piece.page_break]

/-- The pieces of a unit that are still to be drawn while the paginator has
not finished it: the pending lines or data rows of a splittable unit, the
pending lines of an anchor, the image, the page break. -/
def CtPrintable.pieces : CtPrintable → List Piece
  | .text t => t.pending_lines.map Piece.line
  | .link l => l.toCtTextPrintable.pending_lines.map Piece.line
  | .dest d => d.toCtTextPrintable.pending_lines.map Piece.line
  | .page_break _ => [Piece.page_break]
  | .image i => [Piece.image i._widget_proxy.get_image]
  | .table t => t._widget_proxy.row_pieces
  | .codebox c => c.pending_lines.map Piece.line

/-- The pieces drawn so far for the printable of index `i`: the pieces of its
slices, concatenated in draw order. -/
def PaginatorState.pieces_drawn (s : PaginatorState) (i : Nat) : List Piece :=
  ((s.slices_of i).map (fun d => d.drawn.pieces)).flatten

/-! ## Sequences of proxy calls -/

/-- The two calls of `CtPrintTableProxy` that lead from a proxy to a continuation
of the same table: `create_new_with(row_num)`, which returns a new proxy, and
`remove_first_rows(remove_row_num)`, which advances the proxy in place. -/
inductive CtPrintTableProxy.Call where
  | create_new_with (row_num : Int)
  | remove_first_rows (remove_row_num : Int)
  deriving DecidableEq, Repr

/-- The proxy a call leads to: the proxy returned by `create_new_with`, or the
proxy itself after `remove_first_rows`. -/
def CtPrintTableProxy.call (p : CtPrintTableProxy) : CtPrintTableProxy.Call → CtPrintTableProxy
  | .create_new_with row_num => p.create_new_with row_num
  | .remove_first_rows remove_row_num => p.remove_first_rows remove_row_num

/-- The proxy reached from `p` by a sequence of calls, in order. -/
def CtPrintTableProxy.calls (p : CtPrintTableProxy) (cs : List CtPrintTableProxy.Call) :
    CtPrintTableProxy :=
  cs.foldl CtPrintTableProxy.call p

/-- The public member functions of `CtPrintCodeboxProxy`, as calls on one proxy
object: the five `const` members and `set_proxy_content(text)`. -/
inductive CtPrintCodeboxProxy.Call where
  | get_codebox
  | get_width_in_pixels
  | get_frame_width
  | get_text_content
  | pango_from_code_buffer (codebox : CtCodebox)
  | set_proxy_content (proxy_text : String)
  deriving DecidableEq, Repr

/-- The proxy object after a call: `set_proxy_content` writes `_proxy_text` and
`_use_proxy_text`; the other members are `const` and leave the object as it was. -/
def CtPrintCodeboxProxy.call (p : CtPrintCodeboxProxy) : CtPrintCodeboxProxy.Call → CtPrintCodeboxProxy
  | .set_proxy_content proxy_text => p.set_proxy_content proxy_text
  | .get_codebox => p
  | .get_width_in_pixels => p
  | .get_frame_width => p
  | .get_text_content => p
  | .pango_from_code_buffer _ => p

/-- The proxy object after a sequence of calls, in order. -/
def CtPrintCodeboxProxy.calls (p : CtPrintCodeboxProxy) (cs : List CtPrintCodeboxProxy.Call) :
    CtPrintCodeboxProxy :=
  cs.foldl CtPrintCodeboxProxy.call p

/-! ## The table proxy on 32-bit `int`

The fields `_startRow` and `_rowNum` and the arguments of `get_cell` and
`remove_first_rows` are C++ `int`, 32 bits wide.  The definitions above compute
on unbounded integers; the ones below keep every result of `+=`, `-=`, `-` and
`+` within 32 bits, the way the compiled additions wrap round in two's
complement (in C++ itself a signed overflow has no defined result). -/

/-- The least value of a 32-bit `int`. -/
def INT_MIN : Int := -2147483648

/-- The greatest value of a 32-bit `int`. -/
def INT_MAX : Int := 2147483647

/-- The 32-bit `int` that holds the exact result `value`: the one integer
between `INT_MIN` and `INT_MAX` that differs from `value` by a multiple of
`2^32`. -/
def wrap_int (value : Int) : Int := (value - INT_MIN) % 4294967296 + INT_MIN

namespace CtPrintTableProxy

/-- Embeds `remove_first_rows(remove_row_num)` on 32-bit `int`:
`_startRow += remove_row_num; _rowNum -= remove_row_num;`. -/
def remove_first_rows_int32 (p : CtPrintTableProxy) (remove_row_num : Int) : CtPrintTableProxy :=
  { p with
      _startRow := wrap_int (p._startRow + remove_row_num)
      _rowNum := wrap_int (p._rowNum - remove_row_num) }

/-- The matrix row index that `get_cell` reads for proxy row `row` on 32-bit
`int`: `(row == 0) ? 0 : row - 1 + _startRow`. -/
def matrix_row_int32 (p : CtPrintTableProxy) (row : Int) : Int :=
  if row = 0 then 0 else wrap_int (wrap_int (row - 1) + p._startRow)

/-- Embeds `get_cell(row, col)` on 32-bit `int`; a walk that leaves the list it
walks has no defined result and gives `none`. -/
def get_cell_int32 (p : CtPrintTableProxy) (row col : Int) : Option String :=
  match advance_deref p._table.get_table_matrix (p.matrix_row_int32 row) with
  | none => none
  | some tableRow =>
    match advance_deref tableRow col with
    | none => none
    | some tableCell => some tableCell.get_text_content

end CtPrintTableProxy

/-! ## The rules of the page loop as a step relation (§4.3)

The function `PaginatorState.step` fixes an order in which the rules are tried.
The relation below states each rule of §4.3 step 2 on its own, with the
condition the spec gives for it, so that it can be asked whether the rules
leave a choice. -/

/-- The rules of §4.3 step 2: (a) explicit page break; (b) the unit fits;
(c) a splittable unit is split; (d) a unit that does not fit is emitted on an
empty page (best effort), or the page is ended and the unit retried. -/
inductive Rule where
  | page_break
  | fits
  | split
  | best_effort
  | retry
  deriving DecidableEq, Repr

/-- Modelled from the spec: one visit of the missing page loop as a relation:
`Visit print_info rule s t` holds when `rule` of §4.3 step 2 applies to the
current unit of `s` and leads to `t`. -/
inductive PaginatorState.Visit (print_info : PrintInfo) :
    Rule → PaginatorState → PaginatorState → Prop where
  | page_break (s : PaginatorState) (u : CtPrintable)
      (hcurrent : s.printables[s.curr_printable_i]? = some u)
      (hbreak : u.is_page_break = true) :
      Visit print_info .page_break s (s.emit print_info u).next_printable.new_page
  | fits (s : PaginatorState) (u : CtPrintable)
      (hcurrent : s.printables[s.curr_printable_i]? = some u)
      (hbreak : u.is_page_break = false)
      (hfits : u.height ≤ print_info.page_height - s.position.y) :
      Visit print_info .fits s (s.emit print_info u).next_printable
  | split (s : PaginatorState) (u : CtPrintable)
      (hcurrent : s.printables[s.curr_printable_i]? = some u)
      (hbreak : u.is_page_break = false)
      (htall : print_info.page_height - s.position.y < u.height)
      (hsplittable : u.splittable = true)
      (hline : 1 ≤ u.lines_fitting (print_info.page_height - s.position.y)) :
      Visit print_info .split s (s.emit print_info u).new_page
  | best_effort (s : PaginatorState) (u : CtPrintable)
      (hcurrent : s.printables[s.curr_printable_i]? = some u)
      (hbreak : u.is_page_break = false)
      (htall : print_info.page_height - s.position.y < u.height)
      (hwhole : u.splittable = false ∨ u.lines_fitting (print_info.page_height - s.position.y) = 0)
      (htop : s.position.y = 0) :
      Visit print_info .best_effort s (s.emit print_info u).next_printable
  | retry (s : PaginatorState) (u : CtPrintable)
      (hcurrent : s.printables[s.curr_printable_i]? = some u)
      (hbreak : u.is_page_break = false)
      (htall : print_info.page_height - s.position.y < u.height)
      (hwhole : u.splittable = false ∨ u.lines_fitting (print_info.page_height - s.position.y) = 0)
      (hbelow : s.position.y ≠ 0) :
      Visit print_info .retry s s.new_page

/-- A run of the page loop by the rules: `Trace print_info s rules t` holds when
applying `rules` one after the other leads from `s` to `t`. -/
inductive PaginatorState.Trace (print_info : PrintInfo) :
    PaginatorState → List Rule → PaginatorState → Prop where
  | stop (s : PaginatorState) : Trace print_info s [] s
  | visit (rule : Rule) (rules : List Rule) (s t v : PaginatorState)
      (hvisit : PaginatorState.Visit print_info rule s t)
      (hrest : Trace print_info t rules v) :
      Trace print_info s (rule :: rules) v

/-- The rule of §4.3 step 2 that `PaginatorState.step` takes in `s`: `none` when
no unit is left to draw. -/
def PaginatorState.rule (print_info : PrintInfo) (s : PaginatorState) : Option Rule :=
  match s.printables[s.curr_printable_i]? with
  | none => none
  | some u =>
    if u.is_page_break then some .page_break
    else if u.height ≤ print_info.page_height - s.position.y then some .fits
    else if u.splittable && decide (1 ≤ u.lines_fitting (print_info.page_height - s.position.y))
    then some .split
    else if s.position.y = 0 then some .best_effort
    else some .retry

/-! ## Sample data -/

/-- A table with a header and three data rows, one column. -/
def sample_table : CtTable :=
  { table_matrix := [[⟨"h"⟩], [⟨"a"⟩], [⟨"b"⟩], [⟨"c"⟩]] }

/-- The proxy over the whole of `sample_table`: start row 1, four rows. -/
def sample_proxy : CtPrintTableProxy :=
  { _table := sample_table, _startRow := 1, _rowNum := 4 }

/-- A code box with a two-line buffer. -/
def sample_codebox : CtCodebox :=
  { code_buffer := "x = 1\ny = 2", frame_width := 300, width_in_pixels := true }

/-- A text run laid out as twelve visual lines of height 10 each. -/
def sample_text_run : CtTextPrintable :=
  { _text := "twelve lines", _layout := List.replicate 12 { text := "line", height := 10 } }

/-- A page geometry with usable page height 100. -/
def sample_print_info : PrintInfo :=
  { page_width := 80, page_height := 100, newline_height := 10, table_line_thickness := 1,
    text_window_width := 80 }

/-- A code box laid out as twelve visual lines of height 10 each. -/
def sample_codebox_printable : CtWidgetCodeboxPrintable :=
  { _widget_proxy := CtPrintCodeboxProxy.new sample_codebox,
    _layout := List.replicate 12 { text := "code", height := 10 } }

/-- An image scaled to height 120, taller than the sample page. -/
def sample_image_printable : CtWidgetImagePrintable :=
  { _widget_proxy := { _image := { pixbuf_width := 300, pixbuf_height := 360 } },
    _last_width := 100, _last_height := 120 }

/-- A job of four units: a text run, a page break, a code box and an image,
all freshly constructed and set up. -/
def sample_printables : CtPrintableVector :=
  [.text sample_text_run, .page_break CtPageBreakPrintable.new,
   .codebox sample_codebox_printable, .image sample_image_printable]

/-- A heap with one proxy object, the sample proxy, at address 0. -/
def sample_heap : ProxyHeap := [sample_proxy]

/-- The state a job on the oversize sample image alone starts in. -/
def sample_image_start : PaginatorState :=
  PaginatorState.start [CtPrintable.image sample_image_printable]

/-- The state a job on the sample text run alone starts in. -/
def sample_text_start : PaginatorState :=
  PaginatorState.start [CtPrintable.text sample_text_run]

/-- A table with a header and six data rows, one column. -/
def sample_table_six : CtTable :=
  { table_matrix := [[⟨"head"⟩], [⟨"r1"⟩], [⟨"r2"⟩], [⟨"r3"⟩], [⟨"r4"⟩], [⟨"r5"⟩], [⟨"r6"⟩]] }

/-- The table printable of `sample_table_six`: header of height 10, every data
row of height 15, one column of width 80. -/
def sample_table_printable : CtWidgetTablePrintable :=
  { _widget_proxy := { _table := sample_table_six, _startRow := 1, _rowNum := 7 },
    _tbl_grid := ([10, 15, 15, 15, 15, 15, 15], [80]) }

/-- An image scaled to height 45, which leaves 55 of the sample page. -/
def sample_filler_printable : CtWidgetImagePrintable :=
  { _widget_proxy := { _image := { pixbuf_width := 90, pixbuf_height := 90 } },
    _last_width := 45, _last_height := 45 }

/-- A job of the filler image followed by the sample table. -/
def sample_table_job : CtPrintableVector :=
  [.image sample_filler_printable, .table sample_table_printable]

/-- The state of `sample_table_job` once the filler is drawn: the table is the
current unit and 55 of the page is left. -/
def sample_table_state : PaginatorState :=
  PaginatorState.after sample_print_info sample_table_job 1

/-- An image scaled to height 10, which leaves 90 of the sample page. -/
def sample_small_image : CtWidgetImagePrintable :=
  { _widget_proxy := { _image := { pixbuf_width := 20, pixbuf_height := 20 } },
    _last_width := 10, _last_height := 10 }

/-- A text run laid out as one visual line of height 10. -/
def sample_one_line : CtTextPrintable :=
  { _text := "one line", _layout := [{ text := "one line", height := 10 }] }

/-- A code-box proxy constructed with the substituted text `"x = 1"`. -/
def sample_codebox_slice : CtPrintCodeboxProxy :=
  CtPrintCodeboxProxy.new_with_text sample_codebox "x = 1"

/-- The live text of a code box: its buffer as it is. -/
def sample_pango (codebox : CtCodebox) : String := codebox.code_buffer

/-- A proxy over `sample_table` (four matrix rows) that claims six rows. -/
def sample_long_proxy : CtPrintTableProxy :=
  { _table := sample_table, _startRow := 1, _rowNum := 6 }

end Cherrytree

/-! # Theorems -/

namespace Cherrytree

open CtPrintable (PrintInfo PrintPosition PrintingContext)

/-! ## Table proxy -/

theorem advance_deref_nat {α : Type} (xs : List α) (n : Nat) :
    advance_deref xs (n : Int) = xs[n]? := by
  simp [advance_deref]

theorem get_cell_create_new_with (p : CtPrintTableProxy) (n row col : Int) :
    (p.create_new_with n).get_cell row col = p.get_cell row col := rfl

theorem get_cell_remove_first_rows (p : CtPrintTableProxy) (n row col : Int)
    (hrow : row ≠ 0) (hsum : row + n ≠ 0) :
    (p.remove_first_rows n).get_cell row col = p.get_cell (row + n) col := by
  have h : (p.remove_first_rows n).matrix_row row = p.matrix_row (row + n) := by
    simp only [CtPrintTableProxy.matrix_row, CtPrintTableProxy.remove_first_rows, if_neg hrow,
      if_neg hsum]
    ring
  simp only [CtPrintTableProxy.get_cell, h]
  rfl

theorem data_rows_create_new_with (p : CtPrintTableProxy) (k : Int) :
    (p.create_new_with k).data_rows
      = (List.range (k - 1).toNat).map (fun (i : Nat) => fun col => p.get_cell ((i : Int) + 1) col) := rfl

theorem data_rows_remove_first_rows (p : CtPrintTableProxy) (n : Int) (hn : 0 ≤ n) :
    (p.remove_first_rows n).data_rows
      = (List.range (p.get_row_num - n - 1).toNat).map
          (fun (i : Nat) => fun col => p.get_cell (((n.toNat + i : Nat) : Int) + 1) col) := by
  unfold CtPrintTableProxy.data_rows
  have hR : (p.remove_first_rows n).get_row_num = p.get_row_num - n := rfl
  rw [hR]
  apply List.map_congr_left
  intro i _
  funext col
  rw [get_cell_remove_first_rows p n _ col (by omega) (by omega)]
  congr 1
  have : ((n.toNat : Nat) : Int) = n := Int.toNat_of_nonneg hn
  push_cast
  omega

/-- Claim C1: splitting a table proxy conserves its data rows.  For a proxy `p`
with `R = get_row_num()` rows (header included) and `1 ≤ k ≤ R`, the data rows
of the head `p.create_new_with(k)` followed by the data rows of `p` advanced
with `remove_first_rows(k-1)` are exactly the data rows of `p` before the split,
in the original order; the head holds `k-1` of them and the advanced proxy the
other `R-k`. -/
theorem table_split_conserves_rows (p : CtPrintTableProxy) (k : Int)
    (hk1 : 1 ≤ k) (hkR : k ≤ p.get_row_num) :
    (p.create_new_with k).data_rows ++ (p.remove_first_rows (k - 1)).data_rows = p.data_rows
    ∧ ((p.create_new_with k).data_rows.length : Int) = k - 1
    ∧ ((p.remove_first_rows (k - 1)).data_rows.length : Int) = p.get_row_num - k := by
  refine ⟨?_, ?_, ?_⟩
  · rw [data_rows_create_new_with, data_rows_remove_first_rows p (k - 1) (by omega)]
    have hsplit : (p.get_row_num - 1).toNat
        = (k - 1).toNat + (p.get_row_num - (k - 1) - 1).toNat := by omega
    unfold CtPrintTableProxy.data_rows
    rw [hsplit, List.range_add, List.map_append, List.map_map]
    rfl
  · simp [data_rows_create_new_with]
    omega
  · simp [data_rows_remove_first_rows p (k - 1) (by omega)]
    omega

theorem table_split_conserves_rows_witness :
    (1 : Int) ≤ 2 ∧ (2 : Int) ≤ sample_proxy.get_row_num
    ∧ (sample_proxy.create_new_with 2).data_rows
        ++ (sample_proxy.remove_first_rows (2 - 1)).data_rows = sample_proxy.data_rows
    ∧ ((sample_proxy.create_new_with 2).data_rows.length : Int) = 2 - 1
    ∧ ((sample_proxy.remove_first_rows (2 - 1)).data_rows.length : Int)
        = sample_proxy.get_row_num - 2 :=
  ⟨by decide, by decide, table_split_conserves_rows sample_proxy 2 (by decide) (by decide)⟩

/-- Claim C2: for every table proxy, whatever its start row and row count, and
every column `col` of the table, `get_cell(0, col)` is the text of the header
cell, the cell at row 0, column `col` of the underlying table matrix. -/
theorem get_cell_row_zero_is_header (table : CtTable) (startRow rowNum : Int)
    (header : CtTableRow) (rest : CtTableMatrix) (col : Nat)
    (hmatrix : table.get_table_matrix = header :: rest) (hcol : col < header.length) :
    CtPrintTableProxy.get_cell { _table := table, _startRow := startRow, _rowNum := rowNum }
        0 (col : Int)
      = some (header.get ⟨col, hcol⟩).get_text_content := by
  simp only [CtPrintTableProxy.get_cell, CtPrintTableProxy.matrix_row, if_true, hmatrix]
  have h0 : advance_deref (header :: rest) 0 = some header := by
    simp [advance_deref]
  rw [h0]
  simp only [advance_deref_nat, List.getElem?_eq_getElem hcol]
  rfl

theorem get_cell_row_zero_is_header_witness :
    CtPrintTableProxy.get_cell { _table := sample_table, _startRow := 3, _rowNum := 2 }
        0 ((0 : Nat) : Int)
      = some (CtTableCell.get_text_content
          (List.get [(⟨"h"⟩ : CtTableCell)] ⟨0, by decide⟩)) :=
  get_cell_row_zero_is_header sample_table 3 2 [⟨"h"⟩] [[⟨"a"⟩], [⟨"b"⟩], [⟨"c"⟩]] 0 rfl
    (by decide)

/-- Claim C3 as stated fails: on the sample proxy (start row 1),
`create_new_with(2)` returns a proxy whose start row is still 1, not greater,
and whose first data row is the same matrix row as that of the original. -/
theorem create_new_with_does_not_advance :
    ¬ (sample_proxy._startRow < (sample_proxy.create_new_with 2)._startRow)
    ∧ (sample_proxy.create_new_with 2).matrix_row 1 = sample_proxy.matrix_row 1 := by
  decide

/-- Claim C3, amended: for every table proxy `p` and every row count `n`,
`create_new_with(n)` returns a proxy over the same table with the same start
row as `p` and row count `n`; every `get_cell` of the new proxy, the first data
row included, reads the same matrix cell as on `p`. -/
theorem create_new_with_same_start (p : CtPrintTableProxy) (n : Int) :
    (p.create_new_with n).get_table = p.get_table
    ∧ (p.create_new_with n)._startRow = p._startRow
    ∧ (p.create_new_with n).get_row_num = n
    ∧ (∀ row, (p.create_new_with n).matrix_row row = p.matrix_row row)
    ∧ (∀ row col, (p.create_new_with n).get_cell row col = p.get_cell row col) :=
  ⟨rfl, rfl, rfl, fun _ => rfl, fun _ _ => rfl⟩

/-- Claim C4: `remove_first_rows(n)` advances the proxy in place by exactly `n`
data rows.  For every proxy `p`, `n ≥ 0`, data row index `r ≥ 1` and column
`c`: `get_cell(r, c)` after the call equals `get_cell(r + n, c)` before it,
`get_row_num()` drops by `n`, and the header `get_cell(0, c)` is unchanged. -/
theorem remove_first_rows_advances (p : CtPrintTableProxy) (n r c : Int)
    (hn : 0 ≤ n) (hr : 1 ≤ r) :
    (p.remove_first_rows n).get_cell r c = p.get_cell (r + n) c
    ∧ (p.remove_first_rows n).get_row_num = p.get_row_num - n
    ∧ (p.remove_first_rows n).get_cell 0 c = p.get_cell 0 c :=
  ⟨get_cell_remove_first_rows p n r c (by omega) (by omega), rfl, rfl⟩

theorem remove_first_rows_advances_witness :
    (0 : Int) ≤ 2 ∧ (1 : Int) ≤ 1
    ∧ (sample_proxy.remove_first_rows 2).get_cell 1 0 = sample_proxy.get_cell (1 + 2) 0
    ∧ (sample_proxy.remove_first_rows 2).get_row_num = sample_proxy.get_row_num - 2
    ∧ (sample_proxy.remove_first_rows 2).get_cell 0 0 = sample_proxy.get_cell 0 0 :=
  ⟨by decide, by decide, remove_first_rows_advances sample_proxy 2 1 0 (by decide) (by decide)⟩

/-! ## Code box proxy -/

theorem get_text_content_foldl_set (pango : CtCodebox → String) (ts : List String) :
    ∀ p : CtPrintCodeboxProxy,
      CtPrintCodeboxProxy.get_text_content pango (ts.foldl CtPrintCodeboxProxy.set_proxy_content p)
        = (ts.getLast?).getD (CtPrintCodeboxProxy.get_text_content pango p) := by
  induction ts with
  | nil => intro p; rfl
  | cons t rest ih =>
    intro p
    rw [List.foldl_cons, ih]
    cases rest with
    | nil => rfl
    | cons t2 rest2 =>
      have h2 : (t2 :: rest2).getLast? = some ((t2 :: rest2).getLast (List.cons_ne_nil _ _)) :=
        List.getLast?_eq_getLast _ _
      rw [List.getLast?_cons_cons, h2]
      rfl

/-- Claim C7: `get_text_content()` of a code box proxy is the live text
`pango_from_code_buffer(_codebox)` when the proxy was built by the one-argument
constructor and no text was ever substituted, and otherwise the most recently
substituted text: the constructor's text, or the argument of the last
`set_proxy_content` call of any sequence `ts` of such calls. -/
theorem get_text_content_live_or_last (pango_from_code_buffer : CtCodebox → String)
    (codebox : CtCodebox) (text a b : String) (ts : List String) :
    CtPrintCodeboxProxy.get_text_content pango_from_code_buffer (CtPrintCodeboxProxy.new codebox)
        = pango_from_code_buffer codebox
    ∧ CtPrintCodeboxProxy.get_text_content pango_from_code_buffer
        (CtPrintCodeboxProxy.new_with_text codebox text) = text
    ∧ CtPrintCodeboxProxy.get_text_content pango_from_code_buffer
        (ts.foldl CtPrintCodeboxProxy.set_proxy_content (CtPrintCodeboxProxy.new codebox))
        = (ts.getLast?).getD (pango_from_code_buffer codebox)
    ∧ CtPrintCodeboxProxy.get_text_content pango_from_code_buffer
        (ts.foldl CtPrintCodeboxProxy.set_proxy_content
          (CtPrintCodeboxProxy.new_with_text codebox text))
        = (ts.getLast?).getD text
    ∧ (∀ p : CtPrintCodeboxProxy,
        CtPrintCodeboxProxy.get_text_content pango_from_code_buffer
          ((p.set_proxy_content a).set_proxy_content b) = b) := by
  refine ⟨rfl, rfl, ?_, ?_, fun _ => rfl⟩
  · rw [get_text_content_foldl_set]; rfl
  · rw [get_text_content_foldl_set]; rfl

/-! ## Text runs and anchor targets -/

/-- Claim C5 as stated fails: the sample text run has twelve lines of height
10, so with `space_left = 100` ten whole lines fit (height 100), yet
`height_when_wrapped(100)` returns the full height 120, which exceeds the
space left. -/
theorem text_height_when_wrapped_exceeds_space :
    lines_that_fit (sample_text_run.pending_lines.map LayoutLine.height) 100 = 10
    ∧ total_height ((sample_text_run.pending_lines.map LayoutLine.height).take 10) = 100
    ∧ sample_text_run.height_when_wrapped 100 = 120
    ∧ ¬ (sample_text_run.height_when_wrapped 100 ≤ 100) := by
  simp only [sample_text_run, CtTextPrintable.height_when_wrapped, CtTextPrintable.height,
    CtTextPrintable.pending_lines, total_height, List.replicate, List.drop, List.map,
    List.take, List.sum_cons, List.sum_nil, lines_that_fit]
  norm_num

/-- Claim C5, amended: for every Text Run and every `space_left`,
`height_when_wrapped(space_left)` returns the full `height()` of the run,
whatever `space_left` is; it is the same for any two values of the space left
and is not bounded by it. -/
theorem text_height_when_wrapped_is_height (t : CtTextPrintable) (space_left other : ℚ) :
    t.height_when_wrapped space_left = t.height
    ∧ t.height_when_wrapped space_left = t.height_when_wrapped other :=
  ⟨rfl, rfl⟩

/-- Claim C6: an Anchor Target (`CtDestPrintable`) is atomic: for every anchor
target and every `space_left`, `height_when_wrapped(space_left)` equals
`height()`, independent of `space_left`. -/
theorem dest_height_when_wrapped_is_height (d : CtDestPrintable) (space_left other : ℚ) :
    d.height_when_wrapped space_left = d.height
    ∧ d.height_when_wrapped space_left = d.height_when_wrapped other :=
  ⟨rfl, rfl⟩


/-! ## Drawing a printable -/

theorem lines_that_fit_le_length (heights : List ℚ) :
    ∀ space, lines_that_fit heights space ≤ heights.length := by
  induction heights with
  | nil => intro space; simp [lines_that_fit]
  | cons h rest ih =>
    intro space
    simp only [lines_that_fit, List.length_cons]
    split
    · exact Nat.succ_le_succ (ih _)
    · exact Nat.zero_le _

theorem lines_that_fit_all (heights : List ℚ) :
    ∀ space, heights ≠ [] → lines_that_fit heights space = heights.length →
      total_height heights ≤ space := by
  induction heights with
  | nil => intro space h; exact absurd rfl h
  | cons h rest ih =>
    intro space _ hall
    simp only [lines_that_fit, List.length_cons] at hall
    split at hall
    · rename_i hfit
      have hrest : lines_that_fit rest (space - h) = rest.length := Nat.succ_injective hall
      cases rest with
      | nil => simpa [total_height] using hfit
      | cons h2 rest2 =>
        have := ih (space - h) (List.cons_ne_nil _ _) hrest
        simp only [total_height, List.sum_cons] at this ⊢
        linarith
    · exact absurd hall (Nat.succ_ne_zero _).symm

theorem text_draw_pending (t : CtTextPrintable) (n : Nat) :
    (t.draw n).1.pending_lines = t.pending_lines.drop n := by
  simp only [CtTextPrintable.draw, CtTextPrintable.pending_lines, List.drop_drop, List.length_drop]
  by_cases h : n ≤ t._layout.length - t._line_index
  · rw [Nat.min_eq_left h, Nat.add_comm]
  · have h2 : t._layout.length - t._line_index ≤ n := Nat.le_of_not_le h
    rw [Nat.min_eq_right h2, List.drop_of_length_le (by omega), List.drop_of_length_le (by omega)]

theorem codebox_draw_pending (c : CtWidgetCodeboxPrintable) (n : Nat) :
    (c.draw n).1.pending_lines = c.pending_lines.drop n := by
  simp only [CtWidgetCodeboxPrintable.draw, CtWidgetCodeboxPrintable.pending_lines,
    List.drop_drop, List.length_drop]
  by_cases h : n ≤ c._layout.length - c._drawn_lines
  · rw [Nat.min_eq_left h, Nat.add_comm]
  · have h2 : c._layout.length - c._drawn_lines ≤ n := Nat.le_of_not_le h
    rw [Nat.min_eq_right h2, List.drop_of_length_le (by omega), List.drop_of_length_le (by omega)]

theorem table_pending_rows_length (t : CtWidgetTablePrintable) :
    t.pending_rows.length = (t._widget_proxy.get_row_num - 1).toNat := by
  simp [CtWidgetTablePrintable.pending_rows]

theorem table_draw_pending_length (t : CtWidgetTablePrintable) (n : Nat) :
    (t.draw n).1.pending_rows.length = t.pending_rows.length - n := by
  rw [table_pending_rows_length, table_pending_rows_length]
  simp only [CtWidgetTablePrintable.draw, CtPrintTableProxy.remove_first_rows,
    CtPrintTableProxy.get_row_num, table_pending_rows_length]
  omega

theorem draw_pending (u : CtPrintable) (n : Nat) : (u.draw n).1.pending = u.pending - n := by
  cases u with
  | text t => simp [CtPrintable.draw, CtPrintable.pending, text_draw_pending]
  | link l => simp [CtPrintable.draw, CtPrintable.pending, text_draw_pending]
  | dest d => simp [CtPrintable.draw, CtPrintable.pending]
  | page_break b => simp [CtPrintable.draw, CtPrintable.pending]
  | image i => simp [CtPrintable.draw, CtPrintable.pending]
  | table t => simp [CtPrintable.draw, CtPrintable.pending, table_draw_pending_length]
  | codebox c => simp [CtPrintable.draw, CtPrintable.pending, codebox_draw_pending]

theorem draw_done (u : CtPrintable) (n : Nat) :
    (u.draw n).1.done = (u.done || decide (u.pending ≤ n)) := by
  cases u <;> simp [CtPrintable.draw, CtPrintable.pending, CtPrintable.done,
    CtTextPrintable.draw, CtWidgetTablePrintable.draw, CtWidgetCodeboxPrintable.draw]

theorem draw_lines (u : CtPrintable) (n : Nat) :
    (u.draw n).2.2.get_lines ++ (u.draw n).1.pending_lines = u.pending_lines := by
  cases u with
  | text t =>
    simp only [CtPrintable.draw, CtPrintable.pending_lines, Drawn.get_lines, text_draw_pending]
    exact List.take_append_drop n _
  | link l =>
    simp only [CtPrintable.draw, CtPrintable.pending_lines, Drawn.get_lines, text_draw_pending]
    exact List.take_append_drop n _
  | dest d =>
    simp only [CtPrintable.draw, CtPrintable.pending_lines, Drawn.get_lines,
      CtTextPrintable.pending_lines, List.length_drop]
    have hrest : List.drop (d._line_index + (d._layout.length - d._line_index)) d._layout = [] :=
      List.drop_of_length_le (by omega)
    rw [hrest, List.append_nil]
  | page_break b => rfl
  | image i => rfl
  | table t => rfl
  | codebox c =>
    simp only [CtPrintable.draw, CtPrintable.pending_lines, Drawn.get_lines,
      codebox_draw_pending]
    exact List.take_append_drop n _

theorem draw_all_lines (u : CtPrintable) (n : Nat) (h : u.pending ≤ n) :
    (u.draw n).1.pending_lines = [] := by
  cases u with
  | text t =>
    simp only [CtPrintable.draw, CtPrintable.pending_lines, text_draw_pending]
    exact List.drop_of_length_le h
  | link l =>
    simp only [CtPrintable.draw, CtPrintable.pending_lines, text_draw_pending]
    exact List.drop_of_length_le h
  | dest d =>
    simp only [CtPrintable.draw, CtPrintable.pending_lines, CtTextPrintable.pending_lines,
      List.length_drop]
    exact List.drop_of_length_le (by omega)
  | page_break b => rfl
  | image i => rfl
  | table t => rfl
  | codebox c =>
    simp only [CtPrintable.draw, CtPrintable.pending_lines, codebox_draw_pending]
    exact List.drop_of_length_le h


/-! ## One visit of the paginator -/

theorem lines_fitting_lt_pending (u : CtPrintable) (space : ℚ)
    (hfit : 1 ≤ u.lines_fitting space) (hwhole : ¬ u.height ≤ space) :
    u.lines_fitting space < u.pending := by
  have key : ∀ (heights : List ℚ) (room : ℚ), 1 ≤ lines_that_fit heights room →
      ¬ total_height heights ≤ room → lines_that_fit heights room < heights.length := by
    intro heights room h1 hno
    rcases Nat.lt_or_ge (lines_that_fit heights room) heights.length with h | h
    · exact h
    · have heq := Nat.le_antisymm (lines_that_fit_le_length heights room) h
      have hne : heights ≠ [] := by
        intro hnil
        rw [hnil] at h1
        simp [lines_that_fit] at h1
      exact absurd (lines_that_fit_all heights room hne heq) hno
  cases u with
  | text t =>
    have := key _ _ hfit hwhole
    simpa [CtPrintable.lines_fitting, CtPrintable.pending] using this
  | link l =>
    have := key _ _ hfit hwhole
    simpa [CtPrintable.lines_fitting, CtPrintable.pending] using this
  | dest d => simp [CtPrintable.lines_fitting] at hfit
  | page_break b => simp [CtPrintable.lines_fitting] at hfit
  | image i => simp [CtPrintable.lines_fitting] at hfit
  | table t =>
    have hno : ¬ total_height t.pending_rows ≤ space - t.header_height := by
      intro hle
      apply hwhole
      simp only [CtPrintable.height, CtWidgetTablePrintable.height]
      linarith
    exact key _ _ hfit hno
  | codebox c =>
    have := key _ _ hfit hwhole
    simpa [CtPrintable.lines_fitting, CtPrintable.pending] using this

theorem atomic_pending (u : CtPrintable) (h : u.splittable = false) : u.pending = 0 := by
  cases u <;> simp_all [CtPrintable.splittable, CtPrintable.pending]

/-- The three kinds of visit: the unit is drawn whole and the paginator moves
on; a splittable unit is drawn in part and retried on a new page; or the page
is ended without drawing. -/
theorem step_cases (print_info : PrintInfo) (s : PaginatorState) (u : CtPrintable)
    (hu : s.printables[s.curr_printable_i]? = some u) :
    (u.pending ≤ u.print_count { print_info := print_info, position := s.position }
      ∧ (s.step print_info = (s.emit print_info u).next_printable.new_page
        ∨ s.step print_info = (s.emit print_info u).next_printable))
    ∨ (1 ≤ u.print_count { print_info := print_info, position := s.position }
      ∧ u.print_count { print_info := print_info, position := s.position } < u.pending
      ∧ s.step print_info = (s.emit print_info u).new_page)
    ∨ (s.position.y ≠ 0 ∧ s.step print_info = s.new_page) := by
  unfold PaginatorState.step
  rw [hu]
  simp only []
  by_cases hbreak : u.is_page_break = true
  · left
    rw [if_pos hbreak]
    refine ⟨?_, Or.inl rfl⟩
    cases u <;> simp_all [CtPrintable.is_page_break, CtPrintable.pending]
  · rw [if_neg hbreak]
    by_cases hwhole : u.height ≤ print_info.page_height - s.position.y
    · left
      rw [if_pos hwhole]
      refine ⟨?_, Or.inr rfl⟩
      simp [CtPrintable.print_count, lines_to_draw, hwhole]
    · rw [if_neg hwhole]
      by_cases hsplit : (u.splittable
          && decide (1 ≤ u.lines_fitting (print_info.page_height - s.position.y))) = true
      · right; left
        rw [if_pos hsplit]
        simp only [Bool.and_eq_true, decide_eq_true_eq] at hsplit
        have hcount : u.print_count { print_info := print_info, position := s.position }
            = u.lines_fitting (print_info.page_height - s.position.y) := by
          simp [CtPrintable.print_count, lines_to_draw, hwhole, hsplit.2]
        rw [hcount]
        exact ⟨hsplit.2, lines_fitting_lt_pending u _ hsplit.2 hwhole, rfl⟩
      · rw [if_neg hsplit]
        by_cases htop : s.position.y = 0
        · left
          rw [if_pos htop]
          refine ⟨?_, Or.inr rfl⟩
          simp only [Bool.and_eq_true, decide_eq_true_eq, not_and] at hsplit
          cases hs : u.splittable with
          | false => rw [atomic_pending u hs]; exact Nat.zero_le _
          | true =>
            have hnone := hsplit hs
            simp [CtPrintable.print_count, lines_to_draw, hwhole, hnone]
        · right; right
          rw [if_neg htop]
          exact ⟨htop, rfl⟩

theorem step_finished (print_info : PrintInfo) (s : PaginatorState)
    (h : s.finished = true) : s.step print_info = s := by
  unfold PaginatorState.step
  have : s.printables[s.curr_printable_i]? = none := by
    apply List.getElem?_eq_none
    simpa [PaginatorState.finished] using h
  rw [this]

theorem current_of_not_finished (s : PaginatorState) (h : ¬ s.finished = true) :
    ∃ u, s.printables[s.curr_printable_i]? = some u := by
  have hlt : s.curr_printable_i < s.printables.length := by
    simpa [PaginatorState.finished] using h
  exact ⟨s.printables[s.curr_printable_i], List.getElem?_eq_getElem hlt⟩

/-! ## Progress -/

theorem work_drop (s : PaginatorState) (u : CtPrintable)
    (hu : s.printables[s.curr_printable_i]? = some u) :
    s.work = 2 * u.pending + 2
      + ((s.printables.drop (s.curr_printable_i + 1)).map (fun v => 2 * v.pending + 2)).sum
      + (if s.position.y = 0 then 0 else 1) := by
  obtain ⟨hlt, hget⟩ := List.getElem?_eq_some.mp hu
  unfold PaginatorState.work
  rw [List.drop_eq_getElem_cons hlt, hget, List.map_cons, List.sum_cons]

theorem work_step_lt (print_info : PrintInfo) (s : PaginatorState)
    (h : ¬ s.finished = true) : (s.step print_info).work < s.work := by
  obtain ⟨u, hu⟩ := current_of_not_finished s h
  obtain ⟨hlt, _⟩ := List.getElem?_eq_some.mp hu
  rw [work_drop s u hu]
  have hflag : ∀ y : ℚ, (if y = 0 then 0 else 1) ≤ 1 := by
    intro y; split <;> omega
  rcases step_cases print_info s u hu with ⟨_, hst | hst⟩ | ⟨h1, h2, hst⟩ | ⟨htop, hst⟩
  · rw [hst]
    simp only [PaginatorState.work, PaginatorState.new_page, PaginatorState.next_printable,
      PaginatorState.emit, List.drop_set_of_lt _ _ (Nat.lt_add_one _), if_true]
    omega
  · rw [hst]
    simp only [PaginatorState.work, PaginatorState.next_printable,
      PaginatorState.emit, List.drop_set_of_lt _ _ (Nat.lt_add_one _)]
    have := hflag (CtPrintable.print { print_info := print_info, position := s.position } u).2.1.y
    omega
  · rw [hst]
    have hset : (s.printables.set s.curr_printable_i
          (CtPrintable.print { print_info := print_info, position := s.position } u).1)[
            s.curr_printable_i]?
        = some (CtPrintable.print { print_info := print_info, position := s.position } u).1 := by
      rw [List.getElem?_set, if_pos rfl, if_pos hlt]
    have hw := work_drop ((s.emit print_info u).new_page)
      (CtPrintable.print { print_info := print_info, position := s.position } u).1 hset
    rw [hw]
    simp only [PaginatorState.new_page, PaginatorState.emit,
      List.drop_set_of_lt _ _ (Nat.lt_add_one _), if_true, CtPrintable.print, draw_pending]
    omega
  · rw [hst]
    have hw := work_drop s.new_page u hu
    rw [hw]
    simp only [PaginatorState.new_page, if_true, if_neg htop]
    omega

theorem run_terminates (print_info : PrintInfo) :
    ∀ (fuel : Nat) (s : PaginatorState), s.work ≤ fuel →
      ∃ s', PaginatorState.run print_info fuel s = some s' := by
  intro fuel
  induction fuel with
  | zero =>
    intro s hw
    by_cases hf : s.finished = true
    · exact ⟨s, by simp [PaginatorState.run, hf]⟩
    · have := work_step_lt print_info s hf
      omega
  | succ fuel ih =>
    intro s hw
    by_cases hf : s.finished = true
    · exact ⟨s, by simp [PaginatorState.run, hf]⟩
    · have hlt := work_step_lt print_info s hf
      obtain ⟨s', hs'⟩ := ih (s.step print_info) (by omega)
      exact ⟨s', by simp [PaginatorState.run, hf, hs']⟩

/-- A property that holds of the state a run starts in and is kept by every
visit holds of the state the run ends in, which is finished. -/
theorem run_invariant (print_info : PrintInfo) (P : PaginatorState → Prop)
    (hstep : ∀ s, ¬ s.finished = true → P s → P (s.step print_info)) :
    ∀ (fuel : Nat) (s s' : PaginatorState),
      PaginatorState.run print_info fuel s = some s' → P s → P s' ∧ s'.finished = true := by
  intro fuel
  induction fuel with
  | zero =>
    intro s s' hrun hP
    by_cases hf : s.finished = true
    · simp [PaginatorState.run, hf] at hrun
      subst hrun
      exact ⟨hP, hf⟩
    · simp [PaginatorState.run, hf] at hrun
  | succ fuel ih =>
    intro s s' hrun hP
    by_cases hf : s.finished = true
    · simp [PaginatorState.run, hf] at hrun
      subst hrun
      exact ⟨hP, hf⟩
    · simp only [PaginatorState.run, hf] at hrun
      exact ih _ _ hrun (hstep s hf hP)


/-! ## The effect of one visit on the state -/

/-- What one visit of an unfinished state does: the current unit is drawn whole
and the paginator moves to the next unit (on the same page or, after a page
break, a new one); or a splittable unit is drawn in part, at least one line but
not all, and the page ends; or the page ends with nothing drawn. -/
theorem step_effect (print_info : PrintInfo) (s : PaginatorState)
    (h : ¬ s.finished = true) :
    ∃ u, s.printables[s.curr_printable_i]? = some u
      ∧ s.curr_printable_i < s.printables.length
      ∧ ((∃ n, u.pending ≤ n
            ∧ (s.step print_info).printables = s.printables.set s.curr_printable_i (u.draw n).1
            ∧ (s.step print_info).curr_printable_i = s.curr_printable_i + 1
            ∧ (s.step print_info).instructions = s.instructions ++
                [{ page_nr := s.page_nr, printable_i := s.curr_printable_i,
                   position := s.position, drawn := (u.draw n).2.2 }]
            ∧ s.page_nr ≤ (s.step print_info).page_nr
            ∧ (s.step print_info).page_nr ≤ s.page_nr + 1)
        ∨ (∃ n, 1 ≤ n ∧ n < u.pending
            ∧ (s.step print_info).printables = s.printables.set s.curr_printable_i (u.draw n).1
            ∧ (s.step print_info).curr_printable_i = s.curr_printable_i
            ∧ (s.step print_info).instructions = s.instructions ++
                [{ page_nr := s.page_nr, printable_i := s.curr_printable_i,
                   position := s.position, drawn := (u.draw n).2.2 }]
            ∧ (s.step print_info).page_nr = s.page_nr + 1)
        ∨ ((s.step print_info).printables = s.printables
            ∧ (s.step print_info).curr_printable_i = s.curr_printable_i
            ∧ (s.step print_info).instructions = s.instructions
            ∧ (s.step print_info).page_nr = s.page_nr + 1)) := by
  obtain ⟨u, hu⟩ := current_of_not_finished s h
  obtain ⟨hlt, _⟩ := List.getElem?_eq_some.mp hu
  refine ⟨u, hu, hlt, ?_⟩
  rcases step_cases print_info s u hu with ⟨hall, hst | hst⟩ | ⟨h1, h2, hst⟩ | ⟨_, hst⟩
  · left
    refine ⟨_, hall, ?_⟩
    rw [hst]
    exact ⟨rfl, rfl, rfl, Nat.le_succ _, Nat.le_refl _⟩
  · left
    refine ⟨_, hall, ?_⟩
    rw [hst]
    exact ⟨rfl, rfl, rfl, Nat.le_refl _, Nat.le_succ _⟩
  · right; left
    refine ⟨_, h1, h2, ?_⟩
    rw [hst]
    exact ⟨rfl, rfl, rfl, rfl⟩
  · right; right
    rw [hst]
    exact ⟨rfl, rfl, rfl, rfl⟩

theorem step_length (print_info : PrintInfo) (s : PaginatorState) :
    (s.step print_info).printables.length = s.printables.length := by
  by_cases h : s.finished = true
  · rw [step_finished print_info s h]
  · obtain ⟨u, _, _, hcase⟩ := step_effect print_info s h
    rcases hcase with ⟨n, _, hp, _⟩ | ⟨n, _, _, hp, _⟩ | ⟨hp, _⟩
    · rw [hp, List.length_set]
    · rw [hp, List.length_set]
    · rw [hp]

/-- Every unit before the current one is done, and stays so. -/
theorem step_done_before (print_info : PrintInfo) (s : PaginatorState)
    (hinv : ∀ j v, j < s.curr_printable_i → s.printables[j]? = some v → v.done = true) :
    ∀ j v, j < (s.step print_info).curr_printable_i →
      (s.step print_info).printables[j]? = some v → v.done = true := by
  by_cases h : s.finished = true
  · rw [step_finished print_info s h]; exact hinv
  · obtain ⟨u, hu, hlt, hcase⟩ := step_effect print_info s h
    intro j v hj hv
    rcases hcase with ⟨n, hall, hp, hc, _⟩ | ⟨n, _, _, hp, hc, _⟩ | ⟨hp, hc, _⟩
    · rw [hp] at hv
      rw [hc] at hj
      by_cases hjc : s.curr_printable_i = j
      · subst hjc
        rw [List.getElem?_set, if_pos rfl, if_pos hlt] at hv
        have hv' : (u.draw n).1 = v := Option.some.inj hv
        rw [← hv', draw_done]
        simp [hall]
      · rw [List.getElem?_set_ne hjc] at hv
        exact hinv j v (by omega) hv
    · rw [hp] at hv
      rw [hc] at hj
      rw [List.getElem?_set_ne (by omega)] at hv
      exact hinv j v hj hv
    · rw [hp] at hv
      rw [hc] at hj
      exact hinv j v hj hv

theorem step_pages_work (print_info : PrintInfo) (s : PaginatorState) :
    (s.step print_info).page_nr + (s.step print_info).work ≤ s.page_nr + s.work := by
  by_cases h : s.finished = true
  · rw [step_finished print_info s h]
  · have hw := work_step_lt print_info s h
    obtain ⟨u, _, _, hcase⟩ := step_effect print_info s h
    rcases hcase with ⟨n, _, _, _, _, _, hp⟩ | ⟨n, _, _, _, _, _, hp⟩ | ⟨_, _, _, hp⟩ <;> omega

theorem step_nb_pages (print_info : PrintInfo) (s : PaginatorState)
    (hinv : s.nb_pages = (s.page_nr : Int) + 1) :
    (s.step print_info).nb_pages = ((s.step print_info).page_nr : Int) + 1 := by
  by_cases h : s.finished = true
  · rw [step_finished print_info s h]; exact hinv
  · obtain ⟨u, hu⟩ := current_of_not_finished s h
    rcases step_cases print_info s u hu with ⟨_, hst | hst⟩ | ⟨_, _, hst⟩ | ⟨_, hst⟩
    · rw [hst]
      simp only [PaginatorState.new_page, PaginatorState.next_printable, PaginatorState.emit]
      rw [hinv]; push_cast; ring
    · rw [hst]
      exact hinv
    · rw [hst]
      simp only [PaginatorState.new_page, PaginatorState.emit]
      rw [hinv]; push_cast; ring
    · rw [hst]
      simp only [PaginatorState.new_page]
      rw [hinv]; push_cast; ring

/-- The paginator's result on any sequence of units: it stops, with every
unit done, the sequence as long as before and the page count, one more than
the index of the last page, bounded by the work the sequence starts with. -/
theorem paginate_result (print_info : PrintInfo) (printables : CtPrintableVector) :
    ∃ s, paginate print_info printables = some s
      ∧ s.finished = true
      ∧ s.printables.length = printables.length
      ∧ (∀ u ∈ s.printables, u.done = true)
      ∧ s.nb_pages = (s.page_nr : Int) + 1
      ∧ s.nb_pages ≤ ((PaginatorState.start printables).work : Int) + 1 := by
  obtain ⟨s, hs⟩ := run_terminates print_info (PaginatorState.start printables).work
    (PaginatorState.start printables) (Nat.le_refl _)
  have hinv := run_invariant print_info
    (fun s => s.printables.length = printables.length
      ∧ (∀ j v, j < s.curr_printable_i → s.printables[j]? = some v → v.done = true)
      ∧ s.page_nr + s.work ≤ (PaginatorState.start printables).work
      ∧ s.nb_pages = (s.page_nr : Int) + 1)
    (fun s _ hP =>
      ⟨(step_length print_info s).trans hP.1, step_done_before print_info s hP.2.1,
        (step_pages_work print_info s).trans hP.2.2.1, step_nb_pages print_info s hP.2.2.2⟩)
    _ _ s hs
    ⟨rfl, fun j v hj _ => absurd hj (Nat.not_lt_zero _), by simp [PaginatorState.start], rfl⟩
  obtain ⟨⟨hlen, hdone, hpages, hnb⟩, hfin⟩ := hinv
  refine ⟨s, hs, hfin, hlen, ?_, hnb, ?_⟩
  · intro u hu
    obtain ⟨j, hj, hget⟩ := List.getElem_of_mem hu
    have hcur : s.printables.length ≤ s.curr_printable_i := by
      simpa [PaginatorState.finished] using hfin
    exact hdone j u (by omega) (by rw [List.getElem?_eq_getElem hj, hget])
  · rw [hnb]
    omega

/-- An atomic unit taller than the page, alone in its job, is drawn on the
first page, at the top, and is done; the job has that one page. -/
theorem paginate_oversize_atomic (print_info : PrintInfo) (u : CtPrintable)
    (hatomic : u.splittable = false) (hbreak : u.is_page_break = false)
    (htall : print_info.page_height < u.height) :
    ∃ s, paginate print_info [u] = some s
      ∧ s.nb_pages = 1
      ∧ (∀ v ∈ s.printables, v.done = true)
      ∧ s.instructions.map (fun d => (d.page_nr, d.printable_i, d.position))
          = [(0, 0, { x := 0, y := 0 })] := by
  have hw : (PaginatorState.start [u]).work = 2 := by
    simp [PaginatorState.work, PaginatorState.start, atomic_pending u hatomic]
  have hnot : ¬ u.height ≤ print_info.page_height - 0 := by
    rw [sub_zero]; exact not_le.mpr htall
  have hstep : (PaginatorState.start [u]).step print_info
      = ((PaginatorState.start [u]).emit print_info u).next_printable := by
    simp [PaginatorState.step, PaginatorState.start, hbreak, hatomic, hnot]
  refine ⟨((PaginatorState.start [u]).emit print_info u).next_printable, ?_, rfl, ?_, rfl⟩
  · unfold paginate
    rw [hw]
    simp [PaginatorState.run, hstep]
    simp [PaginatorState.finished, PaginatorState.start, PaginatorState.emit,
      PaginatorState.next_printable]
  · intro v hv
    simp only [PaginatorState.next_printable, PaginatorState.emit, PaginatorState.start,
      List.set_cons_zero, List.mem_singleton] at hv
    rw [hv]
    simp only [CtPrintable.print, draw_done, atomic_pending u hatomic]
    simp

/-- Claim C8 (progress): for every finite content-unit sequence and every page
geometry with positive page height, pagination stops after finitely many visits
and pages with every unit reporting `done() == true`; the number of pages is at
most the work of the sequence plus one.  In particular a single atomic unit
taller than the page is drawn on its own page, the only one, and is done. -/
theorem pagination_terminates (print_info : PrintInfo) (printables : CtPrintableVector)
    (hheight : 0 < print_info.page_height) :
    (∃ s, paginate print_info printables = some s
      ∧ s.finished = true
      ∧ s.printables.length = printables.length
      ∧ (∀ u ∈ s.printables, u.done = true)
      ∧ s.nb_pages = (s.page_nr : Int) + 1
      ∧ s.nb_pages ≤ ((PaginatorState.start printables).work : Int) + 1)
    ∧ (∀ u : CtPrintable, u.splittable = false → u.is_page_break = false →
        print_info.page_height < u.height →
        ∃ s, paginate print_info [u] = some s
          ∧ s.nb_pages = 1
          ∧ (∀ v ∈ s.printables, v.done = true)
          ∧ s.instructions.map (fun d => (d.page_nr, d.printable_i, d.position))
              = [(0, 0, { x := 0, y := 0 })]) := by
  have _ := hheight
  exact ⟨paginate_result print_info printables,
    fun u h1 h2 h3 => paginate_oversize_atomic print_info u h1 h2 h3⟩

theorem pagination_terminates_witness :
    0 < sample_print_info.page_height
    ∧ (∃ s, paginate sample_print_info sample_printables = some s
      ∧ s.finished = true
      ∧ s.printables.length = sample_printables.length
      ∧ (∀ u ∈ s.printables, u.done = true)
      ∧ s.nb_pages = (s.page_nr : Int) + 1
      ∧ s.nb_pages ≤ ((PaginatorState.start sample_printables).work : Int) + 1)
    ∧ (∀ u : CtPrintable, u.splittable = false → u.is_page_break = false →
        sample_print_info.page_height < u.height →
        ∃ s, paginate sample_print_info [u] = some s
          ∧ s.nb_pages = 1
          ∧ (∀ v ∈ s.printables, v.done = true)
          ∧ s.instructions.map (fun d => (d.page_nr, d.printable_i, d.position))
              = [(0, 0, { x := 0, y := 0 })]) :=
  ⟨by norm_num [sample_print_info],
    pagination_terminates sample_print_info sample_printables
      (by norm_num [sample_print_info])⟩


/-! ## The done flag along a job -/

theorem print_keeps_done (context : PrintingContext) (u : CtPrintable)
    (h : u.done = true) : (u.print context).1.done = true := by
  simp only [CtPrintable.print, draw_done, h, Bool.true_or]

theorem after_succ (print_info : PrintInfo) (printables : CtPrintableVector) (n : Nat) :
    PaginatorState.after print_info printables (n + 1)
      = (PaginatorState.after print_info printables n).step print_info := by
  simp only [PaginatorState.after]
  exact Function.iterate_succ_apply' _ _ _

theorem after_length (print_info : PrintInfo) (printables : CtPrintableVector) (n : Nat) :
    (PaginatorState.after print_info printables n).printables.length = printables.length := by
  induction n with
  | zero => rfl
  | succ n ih => rw [after_succ, step_length, ih]

theorem step_curr (print_info : PrintInfo) (s : PaginatorState) :
    (s.step print_info).curr_printable_i = s.curr_printable_i
    ∨ ((s.step print_info).curr_printable_i = s.curr_printable_i + 1
      ∧ ∃ d, (s.step print_info).instructions = s.instructions ++ [d]
          ∧ d.printable_i = s.curr_printable_i) := by
  by_cases h : s.finished = true
  · rw [step_finished print_info s h]; exact Or.inl rfl
  · obtain ⟨u, _, _, hcase⟩ := step_effect print_info s h
    rcases hcase with ⟨n, _, _, hc, hi, _⟩ | ⟨n, _, _, _, hc, _⟩ | ⟨_, hc, _⟩
    · exact Or.inr ⟨hc, _, hi, rfl⟩
    · exact Or.inl hc
    · exact Or.inl hc

theorem after_curr_mono (print_info : PrintInfo) (printables : CtPrintableVector)
    (n m : Nat) (h : n ≤ m) :
    (PaginatorState.after print_info printables n).curr_printable_i
      ≤ (PaginatorState.after print_info printables m).curr_printable_i := by
  induction m with
  | zero =>
    have : n = 0 := Nat.le_zero.mp h
    rw [this]
  | succ m ih =>
    rcases Nat.lt_or_ge n (m + 1) with hlt | hge
    · have hle := ih (Nat.lt_succ_iff.mp hlt)
      rw [after_succ]
      rcases step_curr print_info (PaginatorState.after print_info printables m) with hc | ⟨hc, _⟩
        <;> omega
    · have : n = m + 1 := Nat.le_antisymm h hge
      rw [this]

theorem iterate_finished (print_info : PrintInfo) :
    ∀ (n : Nat) (s : PaginatorState), s.work ≤ n →
      ((PaginatorState.step print_info)^[n] s).finished = true := by
  intro n
  induction n with
  | zero =>
    intro s hw
    by_contra hf
    have := work_step_lt print_info s hf
    omega
  | succ n ih =>
    intro s hw
    rw [Function.iterate_succ_apply]
    by_cases hf : s.finished = true
    · rw [step_finished print_info s hf]
      have hfix : ∀ k, (PaginatorState.step print_info)^[k] s = s := by
        intro k
        induction k with
        | zero => rfl
        | succ k ihk => rw [Function.iterate_succ_apply, step_finished print_info s hf, ihk]
      rw [hfix]
      exact hf
    · have := work_step_lt print_info s hf
      exact ih _ (by omega)

theorem run_eq_after (print_info : PrintInfo) :
    ∀ (fuel : Nat) (s s' : PaginatorState), PaginatorState.run print_info fuel s = some s' →
      ∃ n, s' = (PaginatorState.step print_info)^[n] s := by
  intro fuel
  induction fuel with
  | zero =>
    intro s s' hrun
    by_cases hf : s.finished = true
    · simp [PaginatorState.run, hf] at hrun
      exact ⟨0, hrun.symm⟩
    · simp [PaginatorState.run, hf] at hrun
  | succ fuel ih =>
    intro s s' hrun
    by_cases hf : s.finished = true
    · simp [PaginatorState.run, hf] at hrun
      exact ⟨0, hrun.symm⟩
    · simp only [PaginatorState.run, hf] at hrun
      obtain ⟨n, hn⟩ := ih _ _ hrun
      exact ⟨n + 1, by rw [Function.iterate_succ_apply]; exact hn⟩

/-- Along a job on fresh units, a unit is done exactly when the paginator has
moved past it. -/
theorem step_done_iff (print_info : PrintInfo) (s : PaginatorState)
    (hinv : ∀ j v, s.printables[j]? = some v → (v.done = true ↔ j < s.curr_printable_i)) :
    ∀ j v, (s.step print_info).printables[j]? = some v →
      (v.done = true ↔ j < (s.step print_info).curr_printable_i) := by
  by_cases h : s.finished = true
  · rw [step_finished print_info s h]; exact hinv
  · obtain ⟨u, hu, hlt, hcase⟩ := step_effect print_info s h
    have hu_not : ¬ u.done = true := fun hd => absurd ((hinv _ u hu).mp hd) (Nat.lt_irrefl _)
    intro j v hv
    rcases hcase with ⟨n, hall, hp, hc, _⟩ | ⟨n, _, hpart, hp, hc, _⟩ | ⟨hp, hc, _⟩
    · rw [hp] at hv
      rw [hc]
      by_cases hjc : s.curr_printable_i = j
      · subst hjc
        rw [List.getElem?_set, if_pos rfl, if_pos hlt] at hv
        have hv' : (u.draw n).1 = v := Option.some.inj hv
        rw [← hv', draw_done]
        simp [hall]
      · rw [List.getElem?_set_ne hjc] at hv
        rw [hinv j v hv]
        omega
    · rw [hp] at hv
      rw [hc]
      by_cases hjc : s.curr_printable_i = j
      · subst hjc
        rw [List.getElem?_set, if_pos rfl, if_pos hlt] at hv
        have hv' : (u.draw n).1 = v := Option.some.inj hv
        rw [← hv', draw_done]
        have : ¬ u.pending ≤ n := Nat.not_le.mpr hpart
        simp [hu_not, this]
      · rw [List.getElem?_set_ne hjc] at hv
        exact hinv j v hv
    · rw [hp] at hv
      rw [hc]
      exact hinv j v hv

theorem after_done_iff (print_info : PrintInfo) (printables : CtPrintableVector)
    (hfresh : ∀ u ∈ printables, u.done = false) (n : Nat) :
    ∀ j v, (PaginatorState.after print_info printables n).printables[j]? = some v →
      (v.done = true ↔ j < (PaginatorState.after print_info printables n).curr_printable_i) := by
  induction n with
  | zero =>
    intro j v hv
    have hmem : v ∈ printables := List.getElem?_mem hv
    have := hfresh v hmem
    simp [PaginatorState.after, PaginatorState.start, this]
  | succ n ih =>
    rw [after_succ]
    exact step_done_iff print_info _ ih

theorem step_slices_of (print_info : PrintInfo) (s : PaginatorState) (i : Nat)
    (hi : i < s.curr_printable_i) :
    (s.step print_info).slices_of i = s.slices_of i := by
  by_cases h : s.finished = true
  · rw [step_finished print_info s h]
  · obtain ⟨u, _, _, hcase⟩ := step_effect print_info s h
    have hne : ¬ s.curr_printable_i = i := by omega
    rcases hcase with ⟨n, _, _, _, hins, _⟩ | ⟨n, _, _, _, _, hins, _⟩ | ⟨_, _, hins, _⟩
    · simp [PaginatorState.slices_of, hins, List.filter_append, hne]
    · simp [PaginatorState.slices_of, hins, List.filter_append, hne]
    · simp [PaginatorState.slices_of, hins]


theorem paginate_eq_after (print_info : PrintInfo) (printables : CtPrintableVector) :
    ∃ N, paginate print_info printables
      = some (PaginatorState.after print_info printables N) := by
  obtain ⟨s, hs⟩ := run_terminates print_info (PaginatorState.start printables).work
    (PaginatorState.start printables) (Nat.le_refl _)
  obtain ⟨n, hn⟩ := run_eq_after print_info _ _ _ hs
  exact ⟨n, by rw [paginate, hs, hn]; rfl⟩

theorem after_slices_of (print_info : PrintInfo) (printables : CtPrintableVector)
    (i t : Nat)
    (ht : i < (PaginatorState.after print_info printables (t + 1)).curr_printable_i) :
    ∀ n, t < n → (PaginatorState.after print_info printables n).slices_of i
      = (PaginatorState.after print_info printables (t + 1)).slices_of i := by
  intro n hn
  induction n with
  | zero => exact absurd hn (Nat.not_lt_zero _)
  | succ n ih =>
    rcases Nat.lt_or_ge t n with hlt | hge
    · rw [after_succ, step_slices_of print_info _ i, ih hlt]
      exact Nat.lt_of_lt_of_le ht (after_curr_mono print_info printables (t + 1) n hlt)
    · have : n = t := Nat.le_antisymm hge (Nat.lt_succ_iff.mp hn)
      rw [this]

/-- Claim C9: the done flag of a content unit.  Every constructor of the header
leaves `done()` false; `print`, the one operation that writes the flag, never
sets it back to false.  Along a pagination job on fresh units, each unit `i`
has one visit `t` such that the unit is not done up to the state before that
visit and done in every state after it; that visit draws a slice of the unit
(its last), and no later visit draws the unit again. -/
theorem done_flag_set_once (print_info : PrintInfo) (printables : CtPrintableVector)
    (i : Nat) (hi : i < printables.length) (hfresh : ∀ u ∈ printables, u.done = false) :
    ((∀ text, (CtPrintable.text (CtTextPrintable.new text)).done = false)
      ∧ (∀ title url internal,
          (CtPrintable.link (CtLinkPrintable.new title url internal)).done = false)
      ∧ (∀ txt id, (CtPrintable.dest (CtDestPrintable.new txt id)).done = false)
      ∧ (CtPrintable.page_break CtPageBreakPrintable.new).done = false
      ∧ (∀ proxy, (CtPrintable.image (CtWidgetImagePrintable.new proxy)).done = false)
      ∧ (∀ proxy, (CtPrintable.table (CtWidgetTablePrintable.new proxy)).done = false)
      ∧ (∀ proxy, (CtPrintable.codebox (CtWidgetCodeboxPrintable.new proxy)).done = false))
    ∧ (∀ (context : PrintingContext) (v : CtPrintable),
        v.done = true → (v.print context).1.done = true)
    ∧ (∃ N, paginate print_info printables
        = some (PaginatorState.after print_info printables N))
    ∧ ∃ t,
        (∀ n, ∃ v, (PaginatorState.after print_info printables n).printables[i]? = some v
          ∧ (v.done = true ↔ t < n))
        ∧ (∃ d, (PaginatorState.after print_info printables (t + 1)).instructions
              = (PaginatorState.after print_info printables t).instructions ++ [d]
            ∧ d.printable_i = i)
        ∧ (∀ n, t < n → (PaginatorState.after print_info printables n).slices_of i
            = (PaginatorState.after print_info printables (t + 1)).slices_of i) := by
  refine ⟨⟨fun _ => rfl, fun _ _ _ => rfl, fun _ _ => rfl, rfl, fun _ => rfl, fun _ => rfl,
    fun _ => rfl⟩, print_keeps_done, paginate_eq_after print_info printables, ?_⟩
  -- the paginator gets past unit `i` at some visit
  have hpast : ∃ n, i < (PaginatorState.after print_info printables n).curr_printable_i := by
    refine ⟨(PaginatorState.start printables).work, ?_⟩
    have hfin := iterate_finished print_info _ (PaginatorState.start printables) (Nat.le_refl _)
    have hlen := after_length print_info printables (PaginatorState.start printables).work
    simp only [PaginatorState.after] at hlen ⊢
    simp only [PaginatorState.finished, decide_eq_true_eq] at hfin
    omega
  have hfirst := Nat.find_spec hpast
  have hmin := fun m => Nat.find_min (H := hpast) (m := m)
  have hpos : 0 < Nat.find hpast := by
    rcases Nat.eq_zero_or_pos (Nat.find hpast) with h0 | h0
    · rw [h0] at hfirst
      exact absurd hfirst (Nat.not_lt_zero _)
    · exact h0
  obtain ⟨t, ht⟩ : ∃ t, Nat.find hpast = t + 1 := ⟨Nat.find hpast - 1, by omega⟩
  rw [ht] at hfirst
  have hbefore : ¬ i < (PaginatorState.after print_info printables t).curr_printable_i :=
    hmin t (by omega)
  have hstep := step_curr print_info (PaginatorState.after print_info printables t)
  rw [← after_succ] at hstep
  refine ⟨t, ?_, ?_, after_slices_of print_info printables i t hfirst⟩
  · intro n
    have hlt : i < (PaginatorState.after print_info printables n).printables.length := by
      rw [after_length]; exact hi
    refine ⟨_, List.getElem?_eq_getElem hlt, ?_⟩
    rw [after_done_iff print_info printables hfresh n i _ (List.getElem?_eq_getElem hlt)]
    constructor
    · intro hcur
      by_contra hn
      exact hmin n (by omega) hcur
    · intro hn
      exact Nat.lt_of_lt_of_le hfirst (after_curr_mono print_info printables (t + 1) n hn)
  · rcases hstep with hc | ⟨hc, d, hd, hdi⟩
    · rw [hc] at hfirst
      exact absurd hfirst hbefore
    · exact ⟨d, hd, by rw [hdi]; omega⟩

theorem done_flag_set_once_witness :
    (0 < sample_printables.length ∧ ∀ u ∈ sample_printables, u.done = false)
    ∧ ((∀ text, (CtPrintable.text (CtTextPrintable.new text)).done = false)
      ∧ (∀ title url internal,
          (CtPrintable.link (CtLinkPrintable.new title url internal)).done = false)
      ∧ (∀ txt id, (CtPrintable.dest (CtDestPrintable.new txt id)).done = false)
      ∧ (CtPrintable.page_break CtPageBreakPrintable.new).done = false
      ∧ (∀ proxy, (CtPrintable.image (CtWidgetImagePrintable.new proxy)).done = false)
      ∧ (∀ proxy, (CtPrintable.table (CtWidgetTablePrintable.new proxy)).done = false)
      ∧ (∀ proxy, (CtPrintable.codebox (CtWidgetCodeboxPrintable.new proxy)).done = false))
    ∧ (∀ (context : PrintingContext) (v : CtPrintable),
        v.done = true → (v.print context).1.done = true)
    ∧ (∃ N, paginate sample_print_info sample_printables
        = some (PaginatorState.after sample_print_info sample_printables N))
    ∧ ∃ t,
        (∀ n, ∃ v,
          (PaginatorState.after sample_print_info sample_printables n).printables[0]? = some v
          ∧ (v.done = true ↔ t < n))
        ∧ (∃ d, (PaginatorState.after sample_print_info sample_printables (t + 1)).instructions
              = (PaginatorState.after sample_print_info sample_printables t).instructions ++ [d]
            ∧ d.printable_i = 0)
        ∧ (∀ n, t < n → (PaginatorState.after sample_print_info sample_printables n).slices_of 0
            = (PaginatorState.after sample_print_info sample_printables (t + 1)).slices_of 0) :=
  ⟨⟨by decide, by decide⟩,
    done_flag_set_once sample_print_info sample_printables 0 (by decide) (by decide)⟩


/-! ## Conservation of the lines drawn -/

theorem draw_draws_lines (u : CtPrintable) (n : Nat) :
    (u.draw n).1.draws_lines = u.draws_lines := by
  cases u <;> rfl

theorem draw_drawn_lines (u : CtPrintable) (n : Nat) (h : u.draws_lines = true) :
    ∃ ls, (u.draw n).2.2 = Drawn.lines ls := by
  cases u with
  | text t => exact ⟨_, rfl⟩
  | link l => exact ⟨_, rfl⟩
  | dest d => exact ⟨_, rfl⟩
  | page_break b => simp [CtPrintable.draws_lines] at h
  | image i => simp [CtPrintable.draws_lines] at h
  | table t => simp [CtPrintable.draws_lines] at h
  | codebox c => exact ⟨_, rfl⟩

theorem lines_drawn_append (s s' : PaginatorState) (d : DrawInstruction)
    (h : s'.instructions = s.instructions ++ [d]) (j : Nat) :
    s'.lines_drawn j
      = s.lines_drawn j ++ (if d.printable_i = j then d.drawn.get_lines else []) := by
  simp only [PaginatorState.lines_drawn, h, List.filter_append, List.map_append,
    List.flatten_append]
  by_cases hj : d.printable_i = j
  · simp [hj]
  · simp [hj]

theorem slices_of_append (s s' : PaginatorState) (d : DrawInstruction)
    (h : s'.instructions = s.instructions ++ [d]) (j : Nat) :
    s'.slices_of j = s.slices_of j ++ (if d.printable_i = j then [d] else []) := by
  simp only [PaginatorState.slices_of, h, List.filter_append]
  by_cases hj : d.printable_i = j
  · simp [hj]
  · simp [hj]

/-- One visit keeps, for every unit `j`, the lines drawn so far followed by the
lines still pending equal to the same list; the slices of a unit that draws
lines are lists of whole lines. -/
theorem step_lines_conserved (print_info : PrintInfo) (s : PaginatorState) (j : Nat)
    (kind : Bool) (original : List LayoutLine)
    (hinv : (∃ v, s.printables[j]? = some v ∧ v.draws_lines = kind
        ∧ s.lines_drawn j ++ v.pending_lines = original)
      ∧ (kind = true → ∀ d ∈ s.slices_of j, ∃ ls, d.drawn = Drawn.lines ls)) :
    (∃ v, (s.step print_info).printables[j]? = some v ∧ v.draws_lines = kind
        ∧ (s.step print_info).lines_drawn j ++ v.pending_lines = original)
      ∧ (kind = true → ∀ d ∈ (s.step print_info).slices_of j, ∃ ls, d.drawn = Drawn.lines ls) := by
  by_cases h : s.finished = true
  · rw [step_finished print_info s h]; exact hinv
  · obtain ⟨⟨v, hv, hkind, hlines⟩, hslices⟩ := hinv
    obtain ⟨u, hu, hlt, hcase⟩ := step_effect print_info s h
    have hdrawn : ∀ n, (s.step print_info).printables
          = s.printables.set s.curr_printable_i (u.draw n).1 →
        (s.step print_info).instructions = s.instructions ++
          [{ page_nr := s.page_nr, printable_i := s.curr_printable_i,
             position := s.position, drawn := (u.draw n).2.2 }] →
        (∃ v, (s.step print_info).printables[j]? = some v ∧ v.draws_lines = kind
          ∧ (s.step print_info).lines_drawn j ++ v.pending_lines = original)
        ∧ (kind = true →
            ∀ d ∈ (s.step print_info).slices_of j, ∃ ls, d.drawn = Drawn.lines ls) := by
      intro n hp hins
      by_cases hjc : s.curr_printable_i = j
      · subst hjc
        have huv : u = v := Option.some.inj (hu.symm.trans hv)
        subst huv
        refine ⟨⟨(u.draw n).1, ?_, ?_, ?_⟩, ?_⟩
        · rw [hp, List.getElem?_set, if_pos rfl, if_pos hlt]
        · rw [draw_draws_lines, hkind]
        · rw [lines_drawn_append s _ _ hins, if_pos rfl, List.append_assoc]
          simp only []
          rw [draw_lines, hlines]
        · intro hk d hd
          rw [slices_of_append s _ _ hins, if_pos rfl, List.mem_append,
            List.mem_singleton] at hd
          rcases hd with hd | hd
          · exact hslices hk d hd
          · rw [hd]
            exact draw_drawn_lines u n (hkind.trans hk)
      · refine ⟨⟨v, ?_, hkind, ?_⟩, ?_⟩
        · rw [hp, List.getElem?_set_ne hjc]; exact hv
        · rw [lines_drawn_append s _ _ hins, if_neg hjc, List.append_nil]; exact hlines
        · intro hk d hd
          rw [slices_of_append s _ _ hins, if_neg hjc, List.append_nil] at hd
          exact hslices hk d hd
    rcases hcase with ⟨n, _, hp, _, hins, _⟩ | ⟨n, _, _, hp, _, hins, _⟩ | ⟨hp, _, hins, _⟩
    · exact hdrawn n hp hins
    · exact hdrawn n hp hins
    · refine ⟨⟨v, by rw [hp]; exact hv, hkind, ?_⟩, ?_⟩
      · simp only [PaginatorState.lines_drawn, hins]
        exact hlines
      · intro hk d hd
        simp only [PaginatorState.slices_of, hins] at hd
        exact hslices hk d hd

/-- Every unit before the current one has no line left to draw. -/
theorem step_lines_exhausted (print_info : PrintInfo) (s : PaginatorState)
    (hinv : ∀ j v, j < s.curr_printable_i → s.printables[j]? = some v → v.pending_lines = []) :
    ∀ j v, j < (s.step print_info).curr_printable_i →
      (s.step print_info).printables[j]? = some v → v.pending_lines = [] := by
  by_cases h : s.finished = true
  · rw [step_finished print_info s h]; exact hinv
  · obtain ⟨u, hu, hlt, hcase⟩ := step_effect print_info s h
    intro j v hj hv
    rcases hcase with ⟨n, hall, hp, hc, _⟩ | ⟨n, _, _, hp, hc, _⟩ | ⟨hp, hc, _⟩
    · rw [hp] at hv
      rw [hc] at hj
      by_cases hjc : s.curr_printable_i = j
      · subst hjc
        rw [List.getElem?_set, if_pos rfl, if_pos hlt] at hv
        have hv' : (u.draw n).1 = v := Option.some.inj hv
        rw [← hv']
        exact draw_all_lines u n hall
      · rw [List.getElem?_set_ne hjc] at hv
        exact hinv j v (by omega) hv
    · rw [hp] at hv
      rw [hc] at hj
      rw [List.getElem?_set_ne (by omega)] at hv
      exact hinv j v hj hv
    · rw [hp] at hv
      rw [hc] at hj
      exact hinv j v hj hv

/-- The draw instructions are issued in page order, and two slices of the same
unit never share a page. -/
theorem step_page_order (print_info : PrintInfo) (s : PaginatorState)
    (hinv : (∀ d ∈ s.instructions, d.page_nr ≤ s.page_nr ∧ d.printable_i ≤ s.curr_printable_i
          ∧ (d.printable_i = s.curr_printable_i → d.page_nr < s.page_nr))
      ∧ s.instructions.Pairwise (fun a b => a.page_nr ≤ b.page_nr
          ∧ (a.printable_i = b.printable_i → a.page_nr < b.page_nr))) :
    (∀ d ∈ (s.step print_info).instructions,
        d.page_nr ≤ (s.step print_info).page_nr
        ∧ d.printable_i ≤ (s.step print_info).curr_printable_i
        ∧ (d.printable_i = (s.step print_info).curr_printable_i
            → d.page_nr < (s.step print_info).page_nr))
      ∧ (s.step print_info).instructions.Pairwise (fun a b => a.page_nr ≤ b.page_nr
          ∧ (a.printable_i = b.printable_i → a.page_nr < b.page_nr)) := by
  by_cases h : s.finished = true
  · rw [step_finished print_info s h]; exact hinv
  · obtain ⟨hall, hpair⟩ := hinv
    obtain ⟨u, hu, hlt, hcase⟩ := step_effect print_info s h
    have hpair' : ∀ drawn, List.Pairwise
          (fun (a b : DrawInstruction) => a.page_nr ≤ b.page_nr
            ∧ (a.printable_i = b.printable_i → a.page_nr < b.page_nr))
          (s.instructions ++
            [({ page_nr := s.page_nr, printable_i := s.curr_printable_i,
                position := s.position, drawn := drawn } : DrawInstruction)]) := by
      intro drawn
      rw [List.pairwise_append]
      refine ⟨hpair, List.pairwise_singleton _ _, ?_⟩
      intro a ha b hb
      rw [List.mem_singleton] at hb
      rw [hb]
      exact ⟨(hall a ha).1, fun heq => (hall a ha).2.2 heq⟩
    rcases hcase with ⟨n, _, _, hc, hins, hp1, hp2⟩ | ⟨n, _, _, _, hc, hins, hp⟩
      | ⟨_, hc, hins, hp⟩
    · rw [hins, hc]
      refine ⟨?_, hpair' _⟩
      intro d hd
      rw [List.mem_append, List.mem_singleton] at hd
      rcases hd with hd | hd
      · have := hall d hd
        exact ⟨by omega, by omega, fun heq => by omega⟩
      · rw [hd]
        exact ⟨hp1, Nat.le_succ _, fun heq => absurd heq (Nat.ne_of_lt (Nat.lt_succ_self _))⟩
    · rw [hins, hc, hp]
      refine ⟨?_, hpair' _⟩
      intro d hd
      rw [List.mem_append, List.mem_singleton] at hd
      rcases hd with hd | hd
      · have := hall d hd
        exact ⟨by omega, this.2.1, fun _ => by omega⟩
      · rw [hd]
        exact ⟨Nat.le_succ _, Nat.le_refl _, fun _ => Nat.lt_succ_self _⟩
    · rw [hins, hc, hp]
      refine ⟨?_, hpair⟩
      intro d hd
      have := hall d hd
      exact ⟨by omega, this.2.1, fun _ => by omega⟩

/-- The paginator's result conserves the lines of every unit: the line slices
drawn for unit `j`, concatenated in draw order, are the lines the unit had
pending at the start; a unit that draws lines is drawn in slices of whole
lines, each on a later page than the one before. -/
theorem paginate_lines_conserved (print_info : PrintInfo) (printables : CtPrintableVector)
    (j : Nat) (u0 : CtPrintable) (hj : printables[j]? = some u0) :
    ∃ s, paginate print_info printables = some s
      ∧ s.lines_drawn j = u0.pending_lines
      ∧ (u0.draws_lines = true → ∀ d ∈ s.slices_of j, ∃ ls, d.drawn = Drawn.lines ls)
      ∧ (s.slices_of j).Pairwise (fun a b => a.page_nr < b.page_nr) := by
  obtain ⟨s, hs⟩ := run_terminates print_info (PaginatorState.start printables).work
    (PaginatorState.start printables) (Nat.le_refl _)
  have hinv := run_invariant print_info
    (fun s => s.printables.length = printables.length
      ∧ ((∃ v, s.printables[j]? = some v ∧ v.draws_lines = u0.draws_lines
          ∧ s.lines_drawn j ++ v.pending_lines = u0.pending_lines)
        ∧ (u0.draws_lines = true → ∀ d ∈ s.slices_of j, ∃ ls, d.drawn = Drawn.lines ls))
      ∧ (∀ k v, k < s.curr_printable_i → s.printables[k]? = some v → v.pending_lines = [])
      ∧ ((∀ d ∈ s.instructions, d.page_nr ≤ s.page_nr ∧ d.printable_i ≤ s.curr_printable_i
            ∧ (d.printable_i = s.curr_printable_i → d.page_nr < s.page_nr))
        ∧ s.instructions.Pairwise (fun a b => a.page_nr ≤ b.page_nr
            ∧ (a.printable_i = b.printable_i → a.page_nr < b.page_nr))))
    (fun s _ hP =>
      ⟨(step_length print_info s).trans hP.1,
        step_lines_conserved print_info s j _ _ hP.2.1,
        step_lines_exhausted print_info s hP.2.2.1,
        step_page_order print_info s hP.2.2.2⟩)
    _ _ s hs
    ⟨rfl,
      ⟨⟨u0, hj, rfl, by simp [PaginatorState.lines_drawn, PaginatorState.start]⟩,
        fun _ d hd => by simp [PaginatorState.slices_of, PaginatorState.start] at hd⟩,
      fun k v hk _ => absurd hk (Nat.not_lt_zero _),
      fun d hd => by simp [PaginatorState.start] at hd,
      by simp [PaginatorState.start]⟩
  obtain ⟨⟨hlen, ⟨⟨v, hv, _, hlines⟩, hkinds⟩, hexh, _, hpair⟩, hfin⟩ := hinv
  have hcur : s.printables.length ≤ s.curr_printable_i := by
    simpa [PaginatorState.finished] using hfin
  have hjlt : j < printables.length := (List.getElem?_eq_some.mp hj).1
  have hempty : v.pending_lines = [] := hexh j v (by omega) hv
  rw [hempty, List.append_nil] at hlines
  refine ⟨s, hs, hlines, hkinds, ?_⟩
  have hsub : (s.slices_of j).Pairwise (fun a b => a.page_nr ≤ b.page_nr
      ∧ (a.printable_i = b.printable_i → a.page_nr < b.page_nr)) :=
    List.Pairwise.sublist (List.filter_sublist _) hpair
  refine (List.Pairwise.and_mem.mp hsub).imp ?_
  intro a b hab
  obtain ⟨ha, hb, _, hlt⟩ := hab
  have ha' : a.printable_i = j := by
    simpa [PaginatorState.slices_of] using (List.mem_filter.mp ha).2
  have hb' : b.printable_i = j := by
    simpa [PaginatorState.slices_of] using (List.mem_filter.mp hb).2
  exact hlt (ha'.trans hb'.symm)


/-- Claim C10 (code block conservation): for every code block of a job and
every page geometry, pagination ends and the line slices drawn for the block,
concatenated in draw order, are exactly the lines the block had to draw: for a
fresh block its whole laid-out text `_layout`, hence the same text.  Every
slice is a list of whole visual lines, and successive slices of the block lie
on strictly later pages, so draw order is page order. -/
theorem codebox_lines_conserved (print_info : PrintInfo) (printables : CtPrintableVector)
    (i : Nat) (c : CtWidgetCodeboxPrintable)
    (hi : printables[i]? = some (CtPrintable.codebox c)) :
    ∃ s, paginate print_info printables = some s
      ∧ s.lines_drawn i = c.pending_lines
      ∧ (c._drawn_lines = 0 →
          s.lines_drawn i = c._layout
          ∧ String.join ((s.lines_drawn i).map LayoutLine.text)
              = String.join (c._layout.map LayoutLine.text))
      ∧ (∀ d ∈ s.slices_of i, ∃ ls, d.drawn = Drawn.lines ls)
      ∧ (s.slices_of i).Pairwise (fun a b => a.page_nr < b.page_nr) := by
  obtain ⟨s, hs, hlines, hkind, hpages⟩ :=
    paginate_lines_conserved print_info printables i (CtPrintable.codebox c) hi
  have hall : s.lines_drawn i = c.pending_lines := hlines
  refine ⟨s, hs, hall, ?_, hkind rfl, hpages⟩
  intro hfresh
  have hlayout : c.pending_lines = c._layout := by
    simp [CtWidgetCodeboxPrintable.pending_lines, hfresh]
  rw [hall, hlayout]
  exact ⟨rfl, rfl⟩

theorem codebox_lines_conserved_witness :
    sample_printables[2]? = some (CtPrintable.codebox sample_codebox_printable)
    ∧ ∃ s, paginate sample_print_info sample_printables = some s
      ∧ s.lines_drawn 2 = sample_codebox_printable.pending_lines
      ∧ (sample_codebox_printable._drawn_lines = 0 →
          s.lines_drawn 2 = sample_codebox_printable._layout
          ∧ String.join ((s.lines_drawn 2).map LayoutLine.text)
              = String.join (sample_codebox_printable._layout.map LayoutLine.text))
      ∧ (∀ d ∈ s.slices_of 2, ∃ ls, d.drawn = Drawn.lines ls)
      ∧ (s.slices_of 2).Pairwise (fun a b => a.page_nr < b.page_nr) :=
  ⟨rfl, codebox_lines_conserved sample_print_info sample_printables 2 sample_codebox_printable
    rfl⟩

/-! ## Table proxy: header row, bounds and independence -/

theorem get_cell_eq_lookup (p : CtPrintTableProxy) (row col : Int) :
    p.get_cell row col
      = (advance_deref p._table.get_table_matrix (p.matrix_row row)).bind
          (fun tableRow => (advance_deref tableRow col).map CtTableCell.get_text_content) := by
  unfold CtPrintTableProxy.get_cell
  cases advance_deref p._table.get_table_matrix (p.matrix_row row) with
  | none => rfl
  | some tableRow =>
    cases h : advance_deref tableRow col with
    | none => simp [h]
    | some cell => simp [h]

theorem wrap_int_of_range (value : Int) (hmin : INT_MIN ≤ value) (hmax : value ≤ INT_MAX) :
    wrap_int value = value := by
  simp only [INT_MIN, INT_MAX] at hmin hmax
  simp only [wrap_int, INT_MIN]
  omega

theorem wrap_int_range (value : Int) : INT_MIN ≤ wrap_int value ∧ wrap_int value ≤ INT_MAX := by
  simp only [wrap_int, INT_MIN, INT_MAX]
  omega

theorem get_cell_int32_eq_lookup (p : CtPrintTableProxy) (row col : Int) :
    p.get_cell_int32 row col
      = (advance_deref p._table.get_table_matrix (p.matrix_row_int32 row)).bind
          (fun tableRow => (advance_deref tableRow col).map CtTableCell.get_text_content) := by
  unfold CtPrintTableProxy.get_cell_int32
  cases advance_deref p._table.get_table_matrix (p.matrix_row_int32 row) with
  | none => rfl
  | some tableRow =>
    cases h : advance_deref tableRow col with
    | none => simp [h]
    | some cell => simp [h]

/-- On a data row whose index sum stays within `int`, the 32-bit row index is
the exact one. -/
theorem matrix_row_int32_of_range (p : CtPrintTableProxy) (row : Int)
    (hstart : 1 ≤ p._startRow) (hrow : 1 ≤ row) (hsum : row - 1 + p._startRow ≤ INT_MAX) :
    p.matrix_row_int32 row = row - 1 + p._startRow := by
  have hne : row ≠ 0 := by omega
  have h1 : wrap_int (row - 1) = row - 1 :=
    wrap_int_of_range _ (by simp only [INT_MIN]; omega) (by omega)
  simp only [CtPrintTableProxy.matrix_row_int32, if_neg hne, h1]
  exact wrap_int_of_range _ (by simp only [INT_MIN]; omega) hsum

/-- Claim C18, amended: the header row is never served as a data row, as long as
the `int` sums do not overflow and the row read exists.  For every table proxy
whose start row is at least 1, every data row index `row ≥ 1` with
`row - 1 + _startRow ≤ INT_MAX` and every column, `get_cell(row, col)` on 32-bit
`int` reads matrix row `row - 1 + _startRow`, which is at least 1 and so not the
header row 0; when that row exists it is the row of that index after the
header, and every column inside it gives that cell's text.  A start row of at
least 1 is kept by `remove_first_rows(n)` for every `n ≥ 0` with
`_startRow + n ≤ INT_MAX`, and is inherited by the proxy that `create_new_with`
returns. -/
theorem header_never_data_row (p : CtPrintTableProxy) (hstart : 1 ≤ p._startRow) :
    (∀ row : Int, 1 ≤ row → row - 1 + p._startRow ≤ INT_MAX →
        p.matrix_row_int32 row = row - 1 + p._startRow
        ∧ 1 ≤ p.matrix_row_int32 row
        ∧ p.matrix_row_int32 row ≠ 0
        ∧ p.matrix_row_int32 row = p.matrix_row row
        ∧ (∀ col : Int, p.get_cell_int32 row col = p.get_cell row col)
        ∧ (row - 1 + p._startRow < (p._table.get_table_matrix.length : Int) →
            ∃ tableRow : CtTableRow,
              advance_deref p._table.get_table_matrix (p.matrix_row_int32 row) = some tableRow
              ∧ p._table.get_table_matrix.tail[(row - 2 + p._startRow).toNat]? = some tableRow
              ∧ (∀ col : Int, 0 ≤ col → col < (tableRow.length : Int) →
                  ∃ cell : CtTableCell, tableRow[col.toNat]? = some cell
                    ∧ p.get_cell_int32 row col = some cell.get_text_content)))
    ∧ (∀ n : Int, 0 ≤ n → p._startRow + n ≤ INT_MAX →
        1 ≤ (p.remove_first_rows_int32 n)._startRow
        ∧ (p.remove_first_rows_int32 n)._startRow = p._startRow + n
        ∧ (p.remove_first_rows_int32 n)._startRow = (p.remove_first_rows n)._startRow)
    ∧ (∀ n : Int, (p.create_new_with n)._startRow = p._startRow
        ∧ 1 ≤ (p.create_new_with n)._startRow) := by
  refine ⟨?_, ?_, ?_⟩
  · intro row hrow hsum
    have hne : row ≠ 0 := by omega
    have hidx := matrix_row_int32_of_range p row hstart hrow hsum
    have hidx0 : p.matrix_row row = row - 1 + p._startRow := by
      simp only [CtPrintTableProxy.matrix_row, if_neg hne]
    have hsame : p.matrix_row_int32 row = p.matrix_row row := by rw [hidx, hidx0]
    refine ⟨hidx, by omega, by omega, hsame, ?_, ?_⟩
    · intro col
      rw [get_cell_int32_eq_lookup, get_cell_eq_lookup, hsame]
    · intro hlt
      have hnonneg : ¬ row - 1 + p._startRow < 0 := by omega
      have hnat : (row - 1 + p._startRow).toNat < p._table.get_table_matrix.length := by omega
      have hread : advance_deref p._table.get_table_matrix (row - 1 + p._startRow)
          = some (p._table.get_table_matrix[(row - 1 + p._startRow).toNat]) := by
        simp only [advance_deref, if_neg hnonneg]
        exact List.getElem?_eq_getElem hnat
      refine ⟨p._table.get_table_matrix[(row - 1 + p._startRow).toNat], ?_, ?_, ?_⟩
      · rw [hidx]; exact hread
      · have hsucc : (row - 1 + p._startRow).toNat = (row - 2 + p._startRow).toNat + 1 := by omega
        rw [List.getElem?_tail, ← hsucc]
        exact List.getElem?_eq_getElem hnat
      · intro col hcol0 hcol
        have hcnat : col.toNat
            < (p._table.get_table_matrix[(row - 1 + p._startRow).toNat]).length := by omega
        refine ⟨(p._table.get_table_matrix[(row - 1 + p._startRow).toNat])[col.toNat],
          List.getElem?_eq_getElem hcnat, ?_⟩
        rw [get_cell_int32_eq_lookup, hidx, hread]
        simp only [Option.some_bind, advance_deref, if_neg (not_lt.mpr hcol0)]
        rw [List.getElem?_eq_getElem hcnat]
        rfl
  · intro n hn hsum
    have hwrap : wrap_int (p._startRow + n) = p._startRow + n :=
      wrap_int_of_range _ (by simp only [INT_MIN]; omega) hsum
    have hnew : (p.remove_first_rows_int32 n)._startRow = p._startRow + n := hwrap
    exact ⟨by omega, hnew, hnew⟩
  · intro n
    exact ⟨rfl, hstart⟩

/-- The whole-table proxy of the sample: start row 1, data row 2 reads matrix
row 2, the cell `b`; advancing by 2 keeps the start row at least 1. -/
theorem header_never_data_row_witness :
    (1 : Int) ≤ sample_proxy._startRow
    ∧ sample_proxy.matrix_row_int32 2 = 2 - 1 + sample_proxy._startRow
    ∧ (2 - 1 + sample_proxy._startRow
          < (sample_proxy._table.get_table_matrix.length : Int) →
        ∃ tableRow : CtTableRow,
          advance_deref sample_proxy._table.get_table_matrix (sample_proxy.matrix_row_int32 2)
            = some tableRow
          ∧ sample_proxy._table.get_table_matrix.tail[(2 - 2 + sample_proxy._startRow).toNat]?
            = some tableRow
          ∧ (∀ col : Int, 0 ≤ col → col < (tableRow.length : Int) →
              ∃ cell : CtTableCell, tableRow[col.toNat]? = some cell
                ∧ sample_proxy.get_cell_int32 2 col = some cell.get_text_content))
    ∧ sample_proxy.get_cell_int32 2 0 = some "b"
    ∧ 1 ≤ (sample_proxy.remove_first_rows_int32 2)._startRow
    ∧ 1 ≤ (sample_proxy.create_new_with 2)._startRow :=
  ⟨by decide,
   ((header_never_data_row sample_proxy (by decide)).1 2 (by decide) (by decide)).1,
   ((header_never_data_row sample_proxy (by decide)).1 2 (by decide) (by decide)).2.2.2.2.2,
   by decide,
   ((header_never_data_row sample_proxy (by decide)).2.1 2 (by decide) (by decide)).1,
   ((header_never_data_row sample_proxy (by decide)).2.2 2).2⟩

/-- Claim C18 as written fails where `int` overflows or the row read does not
exist.  On the whole-table proxy of the sample (start row 1),
`remove_first_rows(INT_MAX)` with `INT_MAX ≥ 0` leaves the start row `INT_MIN`,
below 1; after `remove_first_rows` of `INT_MAX`, `INT_MAX` and `1` the start row
is 0 and data row 1 reads the header cell `h`.  On a proxy of start row 1 over
the same four matrix rows, data row 5 would read matrix row 5, which does not
exist. -/
theorem remove_first_rows_overflow_serves_header :
    (1 : Int) ≤ sample_proxy._startRow
    ∧ (0 : Int) ≤ INT_MAX
    ∧ (sample_proxy.remove_first_rows_int32 INT_MAX)._startRow = INT_MIN
    ∧ ¬ (1 : Int) ≤ (sample_proxy.remove_first_rows_int32 INT_MAX)._startRow
    ∧ (((sample_proxy.remove_first_rows_int32 INT_MAX).remove_first_rows_int32
          INT_MAX).remove_first_rows_int32 1)._startRow = 0
    ∧ (((sample_proxy.remove_first_rows_int32 INT_MAX).remove_first_rows_int32
          INT_MAX).remove_first_rows_int32 1).get_cell_int32 1 0 = some "h"
    ∧ sample_proxy.get_cell_int32 0 0 = some "h"
    ∧ (1 : Int) ≤ sample_long_proxy._startRow
    ∧ sample_long_proxy.matrix_row_int32 5 = 5
    ∧ sample_long_proxy._table.get_table_matrix.length = 4
    ∧ sample_long_proxy.get_cell_int32 5 0 = none := by
  decide

theorem advance_deref_in_range {α : Type} (xs : List α) (n : Int)
    (h0 : 0 ≤ n) (hlt : n < (xs.length : Int)) :
    ∃ x, advance_deref xs n = some x := by
  have hnat : n.toNat < xs.length := by omega
  refine ⟨xs[n.toNat], ?_⟩
  simp only [advance_deref, if_neg (not_lt.mpr h0)]
  exact List.getElem?_eq_getElem hnat

/-- Claim C19: the in-bounds invariant of the table proxy.  For a valid proxy
(`1 ≤ _startRow`, `1 ≤ _rowNum`, `_startRow + _rowNum - 1` at most the number
of matrix rows) every proxy row `0 ≤ row < get_row_num()` reads a matrix row
that exists, and over a rectangular matrix `get_cell` returns a cell for every
column below `get_col_num()`.  Validity is kept by `remove_first_rows(n)` for
`0 ≤ n ≤ _rowNum - 1` and holds of `create_new_with(k)` for `1 ≤ k ≤ _rowNum`. -/
theorem valid_proxy_in_bounds (p : CtPrintTableProxy) (hvalid : p.valid) :
    (∀ row : Int, 0 ≤ row → row < p.get_row_num →
        ∃ tableRow, advance_deref p._table.get_table_matrix (p.matrix_row row) = some tableRow)
    ∧ (CtTableMatrix.rectangular p._table.get_table_matrix →
        ∀ (row col : Int) (cols : Nat), 0 ≤ row → row < p.get_row_num →
          p.get_col_num = some cols → 0 ≤ col → col < (cols : Int) →
          ∃ text, p.get_cell row col = some text)
    ∧ (∀ n : Int, 0 ≤ n → n ≤ p.get_row_num - 1 → (p.remove_first_rows n).valid)
    ∧ (∀ k : Int, 1 ≤ k → k ≤ p.get_row_num → (p.create_new_with k).valid) := by
  obtain ⟨hstart, hnum, hlast⟩ := hvalid
  have hrow : ∀ row : Int, 0 ≤ row → row < p.get_row_num →
      ∃ tableRow, advance_deref p._table.get_table_matrix (p.matrix_row row) = some tableRow := by
    intro row h0 hlt
    simp only [CtPrintTableProxy.get_row_num] at hlt
    apply advance_deref_in_range
    · simp only [CtPrintTableProxy.matrix_row]
      split <;> omega
    · simp only [CtPrintTableProxy.matrix_row]
      split <;> omega
  refine ⟨hrow, ?_, ?_, ?_⟩
  · intro hrect row col cols h0 hlt hcols hc0 hclt
    obtain ⟨tableRow, htr⟩ := hrow row h0 hlt
    have hmem : tableRow ∈ p._table.get_table_matrix := by
      simp only [advance_deref] at htr
      split at htr
      · exact absurd htr (by simp)
      · exact List.getElem?_mem htr
    have hlen : some tableRow.length = some cols := by
      rw [hrect tableRow hmem]
      exact hcols
    have hlen' : tableRow.length = cols := Option.some.inj hlen
    obtain ⟨cell, hcell⟩ := advance_deref_in_range tableRow col hc0 (by omega)
    exact ⟨cell.get_text_content, by simp [CtPrintTableProxy.get_cell, htr, hcell]⟩
  · intro n hn0 hn
    simp only [CtPrintTableProxy.get_row_num] at hn
    simp only [CtPrintTableProxy.valid, CtPrintTableProxy.remove_first_rows]
    refine ⟨by omega, by omega, by omega⟩
  · intro k hk1 hk
    simp only [CtPrintTableProxy.get_row_num] at hk
    simp only [CtPrintTableProxy.valid, CtPrintTableProxy.create_new_with]
    refine ⟨hstart, hk1, by omega⟩

theorem valid_proxy_in_bounds_witness :
    sample_proxy.valid
    ∧ (∀ row : Int, 0 ≤ row → row < sample_proxy.get_row_num →
        ∃ tableRow, advance_deref sample_proxy._table.get_table_matrix
          (sample_proxy.matrix_row row) = some tableRow)
    ∧ (CtTableMatrix.rectangular sample_proxy._table.get_table_matrix →
        ∀ (row col : Int) (cols : Nat), 0 ≤ row → row < sample_proxy.get_row_num →
          sample_proxy.get_col_num = some cols → 0 ≤ col → col < (cols : Int) →
          ∃ text, sample_proxy.get_cell row col = some text)
    ∧ (∀ n : Int, 0 ≤ n → n ≤ sample_proxy.get_row_num - 1 →
        (sample_proxy.remove_first_rows n).valid)
    ∧ (∀ k : Int, 1 ≤ k → k ≤ sample_proxy.get_row_num →
        (sample_proxy.create_new_with k).valid) :=
  ⟨by decide, valid_proxy_in_bounds sample_proxy (by decide)⟩

/-- Claim C20: continuations are independent views.  `create_new_with(n)`
called on the proxy object at `addr` allocates a new object and leaves the one
it is called on unchanged; a later `remove_first_rows(m)` on either of the two
objects changes neither the other object (so neither its start row, its row
count nor any of its `get_cell` results) nor the table either of them points
to. -/
theorem continuations_independent (heap : ProxyHeap) (addr : Nat) (p : CtPrintTableProxy)
    (n m : Int) (hp : heap[addr]? = some p) :
    ∃ heap1 fresh, heap.create_new_with addr n = some (heap1, fresh)
      ∧ fresh ≠ addr
      ∧ heap1[addr]? = some p
      ∧ heap1[fresh]? = some (p.create_new_with n)
      ∧ (∃ heap2, heap1.remove_first_rows addr m = some heap2
          ∧ heap2[fresh]? = some (p.create_new_with n)
          ∧ heap2[addr]? = some (p.remove_first_rows m)
          ∧ (∀ row col, (p.create_new_with n).get_cell row col = p.get_cell row col)
          ∧ (p.remove_first_rows m).get_table = p.get_table)
      ∧ (∃ heap2, heap1.remove_first_rows fresh m = some heap2
          ∧ heap2[addr]? = some p
          ∧ heap2[fresh]? = some ((p.create_new_with n).remove_first_rows m)
          ∧ ((p.create_new_with n).remove_first_rows m).get_table = p.get_table) := by
  obtain ⟨hlt, _⟩ := List.getElem?_eq_some.mp hp
  have hne : heap.length ≠ addr := by omega
  have h1a : (heap ++ [p.create_new_with n])[addr]? = some p := by
    rw [List.getElem?_append_left hlt]; exact hp
  have h1f : (heap ++ [p.create_new_with n])[heap.length]? = some (p.create_new_with n) := by
    simp
  refine ⟨heap ++ [p.create_new_with n], heap.length, ?_, hne, h1a, h1f, ?_, ?_⟩
  · simp [ProxyHeap.create_new_with, hp]
  · refine ⟨(heap ++ [p.create_new_with n]).set addr (p.remove_first_rows m), ?_, ?_, ?_,
      fun _ _ => rfl, rfl⟩
    · simp only [ProxyHeap.remove_first_rows, h1a]
    · rw [List.getElem?_set_ne (Ne.symm hne)]; exact h1f
    · rw [List.getElem?_set, if_pos rfl, if_pos (by simp; omega)]
  · refine ⟨(heap ++ [p.create_new_with n]).set heap.length
        ((p.create_new_with n).remove_first_rows m), ?_, ?_, ?_, rfl⟩
    · simp only [ProxyHeap.remove_first_rows, h1f]
    · rw [List.getElem?_set_ne hne]; exact h1a
    · rw [List.getElem?_set, if_pos rfl, if_pos (by simp)]

theorem continuations_independent_witness :
    sample_heap[0]? = some sample_proxy
    ∧ ∃ heap1 fresh, sample_heap.create_new_with 0 2 = some (heap1, fresh)
      ∧ fresh ≠ 0
      ∧ heap1[0]? = some sample_proxy
      ∧ heap1[fresh]? = some (sample_proxy.create_new_with 2)
      ∧ (∃ heap2, heap1.remove_first_rows 0 1 = some heap2
          ∧ heap2[fresh]? = some (sample_proxy.create_new_with 2)
          ∧ heap2[0]? = some (sample_proxy.remove_first_rows 1)
          ∧ (∀ row col, (sample_proxy.create_new_with 2).get_cell row col
              = sample_proxy.get_cell row col)
          ∧ (sample_proxy.remove_first_rows 1).get_table = sample_proxy.get_table)
      ∧ (∃ heap2, heap1.remove_first_rows fresh 1 = some heap2
          ∧ heap2[0]? = some sample_proxy
          ∧ heap2[fresh]? = some ((sample_proxy.create_new_with 2).remove_first_rows 1)
          ∧ ((sample_proxy.create_new_with 2).remove_first_rows 1).get_table
              = sample_proxy.get_table) :=
  ⟨rfl, continuations_independent sample_heap 0 sample_proxy 2 1 rfl⟩

/-! ## Determinism -/

/-- In a state with a unit left to draw, the rule `step` takes applies. -/
theorem visit_of_rule (print_info : PrintInfo) (rule : Rule) (s : PaginatorState)
    (h : s.rule print_info = some rule) :
    PaginatorState.Visit print_info rule s (s.step print_info) := by
  unfold PaginatorState.rule at h
  unfold PaginatorState.step
  cases hcurrent : s.printables[s.curr_printable_i]? with
  | none => rw [hcurrent] at h; exact Option.noConfusion h
  | some u =>
    rw [hcurrent] at h
    simp only [] at h ⊢
    by_cases hbreak : u.is_page_break = true
    · rw [if_pos hbreak] at h ⊢
      cases Option.some.inj h
      exact PaginatorState.Visit.page_break s u hcurrent hbreak
    · rw [if_neg hbreak] at h ⊢
      have hbreak0 : u.is_page_break = false := Bool.eq_false_iff.mpr hbreak
      by_cases hfits : u.height ≤ print_info.page_height - s.position.y
      · rw [if_pos hfits] at h ⊢
        cases Option.some.inj h
        exact PaginatorState.Visit.fits s u hcurrent hbreak0 hfits
      · rw [if_neg hfits] at h ⊢
        have htall : print_info.page_height - s.position.y < u.height := not_le.mp hfits
        by_cases hsplit : (u.splittable
            && decide (1 ≤ u.lines_fitting (print_info.page_height - s.position.y))) = true
        · rw [if_pos hsplit] at h ⊢
          cases Option.some.inj h
          have hboth := Bool.and_eq_true_iff.mp hsplit
          exact PaginatorState.Visit.split s u hcurrent hbreak0 htall hboth.1
            (of_decide_eq_true hboth.2)
        · rw [if_neg hsplit] at h ⊢
          have hwhole : u.splittable = false
              ∨ u.lines_fitting (print_info.page_height - s.position.y) = 0 := by
            cases hs : u.splittable with
            | false => exact Or.inl rfl
            | true =>
              right
              by_contra hne
              apply hsplit
              rw [hs, Bool.true_and]
              exact decide_eq_true (by omega)
          by_cases htop : s.position.y = 0
          · rw [if_pos htop] at h ⊢
            cases Option.some.inj h
            exact PaginatorState.Visit.best_effort s u hcurrent hbreak0 htall hwhole htop
          · rw [if_neg htop] at h ⊢
            cases Option.some.inj h
            exact PaginatorState.Visit.retry s u hcurrent hbreak0 htall hwhole htop

/-- A rule applies exactly when a unit is left to draw. -/
theorem rule_isSome_iff (print_info : PrintInfo) (s : PaginatorState) :
    (∃ rule, s.rule print_info = some rule) ↔ s.finished = false := by
  constructor
  · rintro ⟨rule, h⟩
    cases hf : s.finished with
    | false => rfl
    | true =>
      exfalso
      have hnone : s.printables[s.curr_printable_i]? = none := by
        apply List.getElem?_eq_none
        simpa [PaginatorState.finished] using hf
      simp [PaginatorState.rule, hnone] at h
  · intro hf
    obtain ⟨u, hu⟩ := current_of_not_finished s (by rw [hf]; exact Bool.noConfusion)
    unfold PaginatorState.rule
    rw [hu]
    simp only []
    split_ifs <;> exact ⟨_, rfl⟩

/-- A run of `run` is a run by the rules. -/
theorem run_trace (print_info : PrintInfo) :
    ∀ (fuel : Nat) (s t : PaginatorState), PaginatorState.run print_info fuel s = some t →
      ∃ rules : List Rule, PaginatorState.Trace print_info s rules t ∧ t.finished = true := by
  intro fuel
  induction fuel with
  | zero =>
    intro s t h
    by_cases hf : s.finished = true
    · simp only [PaginatorState.run, hf, if_true] at h
      cases Option.some.inj h
      exact ⟨[], PaginatorState.Trace.stop s, hf⟩
    · simp [PaginatorState.run, hf] at h
  | succ fuel ih =>
    intro s t h
    by_cases hf : s.finished = true
    · simp only [PaginatorState.run, hf, if_true] at h
      cases Option.some.inj h
      exact ⟨[], PaginatorState.Trace.stop s, hf⟩
    · simp only [PaginatorState.run, hf, if_false] at h
      obtain ⟨rules, htrace, hend⟩ := ih _ _ h
      obtain ⟨rule, hrule⟩ := (rule_isSome_iff print_info s).mpr (Bool.eq_false_iff.mpr hf)
      exact ⟨rule :: rules,
        PaginatorState.Trace.visit rule rules s _ t (visit_of_rule print_info rule s hrule) htrace,
        hend⟩

theorem atomic_draw (u : CtPrintable) (n : Nat)
    (hatomic : u.splittable = false) (hbreak : u.is_page_break = false) :
    (u.draw n).1.done = true ∧ (u.draw n).2.1 = u.height := by
  cases u with
  | text t => simp [CtPrintable.splittable] at hatomic
  | link l => simp [CtPrintable.splittable] at hatomic
  | dest d => exact ⟨rfl, rfl⟩
  | page_break b => simp [CtPrintable.is_page_break] at hbreak
  | image i => exact ⟨rfl, rfl⟩
  | table t => simp [CtPrintable.splittable] at hatomic
  | codebox c => simp [CtPrintable.splittable] at hatomic

theorem step_oversize_atomic_top (print_info : PrintInfo) (s : PaginatorState)
    (u : CtPrintable) (hu : s.printables[s.curr_printable_i]? = some u)
    (hatomic : u.splittable = false) (hbreak : u.is_page_break = false)
    (htall : print_info.page_height < u.height) (htop : s.position.y = 0) :
    s.step print_info = (s.emit print_info u).next_printable := by
  have hnot : ¬ u.height ≤ print_info.page_height - s.position.y := by
    rw [htop, sub_zero]; exact not_le.mpr htall
  simp [PaginatorState.step, hu, hbreak, hatomic, hnot, htop]

theorem step_oversize_atomic_below (print_info : PrintInfo) (s : PaginatorState)
    (u : CtPrintable) (hu : s.printables[s.curr_printable_i]? = some u)
    (hatomic : u.splittable = false) (hbreak : u.is_page_break = false)
    (htall : print_info.page_height < u.height) (hbelow : 0 < s.position.y) :
    s.step print_info = s.new_page := by
  have hnot : ¬ u.height ≤ print_info.page_height - s.position.y := by
    intro hle; linarith
  have hne : ¬ s.position.y = 0 := ne_of_gt hbelow
  simp [PaginatorState.step, hu, hbreak, hatomic, hnot, hne]

/-- Claim C13 (best-effort emission of an oversize atomic unit): let the
current unit be atomic and taller than the full page height.  With the cursor
at the top of a fresh page the unit is drawn anyway on that page and is done at
once; the page index and page count do not move and the cursor ends below the
page, so the unit takes that one page.  With the cursor below the top, the
visit ends the page without drawing anything and the next visit draws the unit
at the top of the new page, where it is done.  For an image of height 120
alone on pages of height 100 the job is one page holding the image. -/
theorem oversize_atomic_best_effort (print_info : PrintInfo) (s : PaginatorState)
    (u : CtPrintable) (hu : s.printables[s.curr_printable_i]? = some u)
    (hatomic : u.splittable = false) (hbreak : u.is_page_break = false)
    (htall : print_info.page_height < u.height) :
    (s.position.y = 0 →
        ∃ v drawn, (s.step print_info).printables[s.curr_printable_i]? = some v
          ∧ v.done = true
          ∧ (s.step print_info).instructions = s.instructions ++
              [{ page_nr := s.page_nr, printable_i := s.curr_printable_i,
                 position := s.position, drawn := drawn }]
          ∧ (s.step print_info).curr_printable_i = s.curr_printable_i + 1
          ∧ (s.step print_info).page_nr = s.page_nr
          ∧ (s.step print_info).nb_pages = s.nb_pages
          ∧ (s.step print_info).position.y = u.height
          ∧ print_info.page_height - (s.step print_info).position.y < 0)
    ∧ (0 < s.position.y →
        (s.step print_info).printables = s.printables
          ∧ (s.step print_info).instructions = s.instructions
          ∧ (s.step print_info).curr_printable_i = s.curr_printable_i
          ∧ (s.step print_info).page_nr = s.page_nr + 1
          ∧ (s.step print_info).nb_pages = s.nb_pages + 1
          ∧ (s.step print_info).position = { x := 0, y := 0 }
          ∧ ∃ v drawn,
              ((s.step print_info).step print_info).printables[s.curr_printable_i]? = some v
              ∧ v.done = true
              ∧ ((s.step print_info).step print_info).instructions = s.instructions ++
                  [{ page_nr := s.page_nr + 1, printable_i := s.curr_printable_i,
                     position := { x := 0, y := 0 }, drawn := drawn }]
              ∧ ((s.step print_info).step print_info).curr_printable_i
                  = s.curr_printable_i + 1
              ∧ ((s.step print_info).step print_info).page_nr = s.page_nr + 1)
    ∧ (paginate sample_print_info [CtPrintable.image sample_image_printable]).map
        (fun r => (r.nb_pages,
          r.instructions.map (fun d => (d.page_nr, d.printable_i, d.position.y)),
          r.printables.map CtPrintable.done))
        = some (1, [(0, 0, 0)], [true]) := by
  obtain ⟨hlt, _⟩ := List.getElem?_eq_some.mp hu
  refine ⟨?_, ?_, by decide!⟩
  · intro htop
    rw [step_oversize_atomic_top print_info s u hu hatomic hbreak htall htop]
    refine ⟨(u.print { print_info := print_info, position := s.position }).1,
      (u.print { print_info := print_info, position := s.position }).2.2,
      ?_, ?_, rfl, rfl, rfl, rfl, ?_, ?_⟩
    · simp only [PaginatorState.next_printable, PaginatorState.emit]
      rw [List.getElem?_set, if_pos rfl, if_pos hlt]
    · exact (atomic_draw u _ hatomic hbreak).1
    · simp only [PaginatorState.next_printable, PaginatorState.emit, CtPrintable.print,
        (atomic_draw u _ hatomic hbreak).2, htop, zero_add]
    · simp only [PaginatorState.next_printable, PaginatorState.emit, CtPrintable.print,
        (atomic_draw u _ hatomic hbreak).2, htop, zero_add]
      linarith
  · intro hbelow
    rw [step_oversize_atomic_below print_info s u hu hatomic hbreak htall hbelow]
    refine ⟨rfl, rfl, rfl, rfl, rfl, rfl, ?_⟩
    rw [step_oversize_atomic_top print_info s.new_page u hu hatomic hbreak htall rfl]
    refine ⟨(u.print { print_info := print_info, position := { x := 0, y := 0 } }).1,
      (u.print { print_info := print_info, position := { x := 0, y := 0 } }).2.2,
      ?_, ?_, rfl, rfl, rfl⟩
    · simp only [PaginatorState.next_printable, PaginatorState.emit, PaginatorState.new_page]
      rw [List.getElem?_set, if_pos rfl, if_pos hlt]
    · exact (atomic_draw u _ hatomic hbreak).1

theorem oversize_atomic_best_effort_witness :
    (sample_image_start.printables[sample_image_start.curr_printable_i]?
        = some (CtPrintable.image sample_image_printable)
      ∧ (CtPrintable.image sample_image_printable).splittable = false
      ∧ (CtPrintable.image sample_image_printable).is_page_break = false
      ∧ sample_print_info.page_height < (CtPrintable.image sample_image_printable).height)
    ∧ ((sample_image_start.position.y = 0 →
        ∃ v drawn, (sample_image_start.step sample_print_info).printables[sample_image_start.curr_printable_i]? = some v
          ∧ v.done = true
          ∧ (sample_image_start.step sample_print_info).instructions = sample_image_start.instructions ++
              [{ page_nr := sample_image_start.page_nr, printable_i := sample_image_start.curr_printable_i,
                 position := sample_image_start.position, drawn := drawn }]
          ∧ (sample_image_start.step sample_print_info).curr_printable_i = sample_image_start.curr_printable_i + 1
          ∧ (sample_image_start.step sample_print_info).page_nr = sample_image_start.page_nr
          ∧ (sample_image_start.step sample_print_info).nb_pages = sample_image_start.nb_pages
          ∧ (sample_image_start.step sample_print_info).position.y = (CtPrintable.image sample_image_printable).height
          ∧ sample_print_info.page_height - (sample_image_start.step sample_print_info).position.y < 0)
    ∧ (0 < sample_image_start.position.y →
        (sample_image_start.step sample_print_info).printables = sample_image_start.printables
          ∧ (sample_image_start.step sample_print_info).instructions = sample_image_start.instructions
          ∧ (sample_image_start.step sample_print_info).curr_printable_i = sample_image_start.curr_printable_i
          ∧ (sample_image_start.step sample_print_info).page_nr = sample_image_start.page_nr + 1
          ∧ (sample_image_start.step sample_print_info).nb_pages = sample_image_start.nb_pages + 1
          ∧ (sample_image_start.step sample_print_info).position = { x := 0, y := 0 }
          ∧ ∃ v drawn,
              ((sample_image_start.step sample_print_info).step sample_print_info).printables[sample_image_start.curr_printable_i]? = some v
              ∧ v.done = true
              ∧ ((sample_image_start.step sample_print_info).step sample_print_info).instructions = sample_image_start.instructions ++
                  [{ page_nr := sample_image_start.page_nr + 1, printable_i := sample_image_start.curr_printable_i,
                     position := { x := 0, y := 0 }, drawn := drawn }]
              ∧ ((sample_image_start.step sample_print_info).step sample_print_info).curr_printable_i
                  = sample_image_start.curr_printable_i + 1
              ∧ ((sample_image_start.step sample_print_info).step sample_print_info).page_nr = sample_image_start.page_nr + 1)
    ∧ (paginate sample_print_info [CtPrintable.image sample_image_printable]).map
        (fun r => (r.nb_pages,
          r.instructions.map (fun d => (d.page_nr, d.printable_i, d.position.y)),
          r.printables.map CtPrintable.done))
        = some (1, [(0, 0, 0)], [true])) :=
  ⟨⟨rfl, rfl, rfl, by decide!⟩,
    oversize_atomic_best_effort sample_print_info sample_image_start
      (CtPrintable.image sample_image_printable) rfl rfl rfl (by decide!)⟩

/-! ## Splitting by whole lines and rows -/

theorem lines_that_fit_uniform (h : ℚ) (hpos : 0 < h) :
    ∀ (n k : Nat) (space : ℚ), (k : ℚ) * h ≤ space → space < ((k : ℚ) + 1) * h → k ≤ n →
      lines_that_fit (List.replicate n h) space = k := by
  intro n
  induction n with
  | zero =>
    intro k space _ _ hk
    have : k = 0 := Nat.le_zero.mp hk
    simp [this, lines_that_fit]
  | succ n ih =>
    intro k space hlow hhigh hk
    rw [List.replicate_succ]
    cases k with
    | zero =>
      have hno : ¬ h ≤ space := by
        simp only [Nat.cast_zero, zero_add, one_mul] at hhigh
        exact not_le.mpr hhigh
      simp [lines_that_fit, hno]
    | succ k =>
      push_cast at hlow hhigh
      have hk0 : (0 : ℚ) ≤ (k : ℚ) * h := mul_nonneg (Nat.cast_nonneg k) (le_of_lt hpos)
      have hyes : h ≤ space := by linarith
      have hrest := ih k (space - h) (by linarith) (by linarith) (Nat.le_of_succ_le_succ hk)
      simp [lines_that_fit, hyes, hrest]

theorem floor_bounds (h space : ℚ) (hpos : 0 < h) (hspace : 0 ≤ space) :
    ((⌊space / h⌋₊ : Nat) : ℚ) * h ≤ space
    ∧ space < (((⌊space / h⌋₊ : Nat) : ℚ) + 1) * h := by
  have hq : 0 ≤ space / h := div_nonneg hspace (le_of_lt hpos)
  have h1 : ((⌊space / h⌋₊ : Nat) : ℚ) ≤ space / h := Nat.floor_le hq
  have h2 : space / h < ((⌊space / h⌋₊ : Nat) : ℚ) + 1 := Nat.lt_floor_add_one _
  constructor
  · exact (le_div_iff₀ hpos).mp h1
  · exact (div_lt_iff₀ hpos).mp h2

theorem total_height_replicate (n : Nat) (h : ℚ) :
    total_height (List.replicate n h) = (n : ℚ) * h := by
  simp [total_height, List.sum_replicate]

theorem step_split (print_info : PrintInfo) (s : PaginatorState) (u : CtPrintable)
    (hu : s.printables[s.curr_printable_i]? = some u) (hsplit : u.splittable = true)
    (hover : ¬ u.height ≤ print_info.page_height - s.position.y)
    (hfit : 1 ≤ u.lines_fitting (print_info.page_height - s.position.y)) :
    s.step print_info = (s.emit print_info u).new_page
    ∧ u.print_count { print_info := print_info, position := s.position }
        = u.lines_fitting (print_info.page_height - s.position.y) := by
  have hbreak : u.is_page_break = false := by
    cases u <;> simp_all [CtPrintable.splittable, CtPrintable.is_page_break]
  constructor
  · simp [PaginatorState.step, hu, hbreak, hsplit, hover, hfit]
  · simp [CtPrintable.print_count, lines_to_draw, hover, hfit]

theorem step_at_top_draws (print_info : PrintInfo) (s : PaginatorState) (u : CtPrintable)
    (hu : s.printables[s.curr_printable_i]? = some u) (htop : s.position.y = 0)
    (hpending : 1 ≤ u.pending) :
    ∃ count, 1 ≤ count
      ∧ (s.step print_info).instructions = s.instructions ++
          [{ page_nr := s.page_nr, printable_i := s.curr_printable_i,
             position := s.position, drawn := (u.draw count).2.2 }] := by
  rcases step_cases print_info s u hu with ⟨hall, hst | hst⟩ | ⟨h1, _, hst⟩ | ⟨hne, _⟩
  · exact ⟨_, Nat.le_trans hpending hall, by rw [hst]; rfl⟩
  · exact ⟨_, Nat.le_trans hpending hall, by rw [hst]; rfl⟩
  · exact ⟨_, h1, by rw [hst]; rfl⟩
  · exact absurd htop hne

/-- Claim C14 (text run splitting at line granularity): when the current unit
is a Text Run of `n` pending lines of height `h` each and the remaining space
`s` of the page satisfies `h ≤ s < n * h`, the page receives the first
`⌊s / h⌋` lines, the largest number of whole lines that fit, and the page ends;
the run keeps the other lines, is not marked done, and the next visit draws
from them at the top of the next page.  For page height 100 and a run of 12
lines of height 10, page 1 holds 10 lines, page 2 the other 2, and the job has
2 pages. -/
theorem text_run_split_by_lines (print_info : PrintInfo) (s : PaginatorState)
    (t : CtTextPrintable) (n : Nat) (h : ℚ)
    (hu : s.printables[s.curr_printable_i]? = some (CtPrintable.text t))
    (hlines : t.pending_lines.map LayoutLine.height = List.replicate n h)
    (hpos : 0 < h)
    (hfit : h ≤ print_info.page_height - s.position.y)
    (hover : print_info.page_height - s.position.y < (n : ℚ) * h) :
    1 ≤ ⌊(print_info.page_height - s.position.y) / h⌋₊
    ∧ ⌊(print_info.page_height - s.position.y) / h⌋₊ < n
    ∧ (⌊(print_info.page_height - s.position.y) / h⌋₊ : ℚ) * h
        ≤ print_info.page_height - s.position.y
    ∧ print_info.page_height - s.position.y
        < ((⌊(print_info.page_height - s.position.y) / h⌋₊ : ℚ) + 1) * h
    ∧ (s.step print_info).instructions = s.instructions ++
        [{ page_nr := s.page_nr, printable_i := s.curr_printable_i, position := s.position,
           drawn := Drawn.lines
            (t.pending_lines.take ⌊(print_info.page_height - s.position.y) / h⌋₊) }]
    ∧ (∃ t', (s.step print_info).printables[s.curr_printable_i]? = some (CtPrintable.text t')
        ∧ t'.pending_lines
            = t.pending_lines.drop ⌊(print_info.page_height - s.position.y) / h⌋₊
        ∧ t'._done = t._done)
    ∧ (s.step print_info).curr_printable_i = s.curr_printable_i
    ∧ (s.step print_info).page_nr = s.page_nr + 1
    ∧ (s.step print_info).position = { x := 0, y := 0 }
    ∧ (∃ m, 1 ≤ m
        ∧ ((s.step print_info).step print_info).instructions = s.instructions ++
            [{ page_nr := s.page_nr, printable_i := s.curr_printable_i, position := s.position,
               drawn := Drawn.lines
                (t.pending_lines.take ⌊(print_info.page_height - s.position.y) / h⌋₊) },
             { page_nr := s.page_nr + 1, printable_i := s.curr_printable_i,
               position := { x := 0, y := 0 },
               drawn := Drawn.lines
                ((t.pending_lines.drop
                  ⌊(print_info.page_height - s.position.y) / h⌋₊).take m) }])
    ∧ (paginate sample_print_info [CtPrintable.text sample_text_run]).map
        (fun r => (r.nb_pages,
          r.instructions.map (fun d => (d.page_nr, d.position.y, d.drawn.get_lines.length)),
          r.printables.map CtPrintable.done))
        = some (2, [(0, 0, 10), (1, 0, 2)], [true]) := by
  obtain ⟨hlt, _⟩ := List.getElem?_eq_some.mp hu
  have hspace : 0 ≤ print_info.page_height - s.position.y := le_trans (le_of_lt hpos) hfit
  obtain ⟨hlow, hhigh⟩ := floor_bounds h _ hpos hspace
  generalize hk : ⌊(print_info.page_height - s.position.y) / h⌋₊ = k at hlow hhigh ⊢
  have hlen : t.pending_lines.length = n := by
    have := congrArg List.length hlines
    simpa using this
  have hk1 : 1 ≤ k := by
    rcases Nat.eq_zero_or_pos k with h0 | h0
    · rw [h0] at hhigh
      simp only [Nat.cast_zero, zero_add, one_mul] at hhigh
      exact absurd hfit (not_le.mpr hhigh)
    · exact h0
  have hkn : k < n := by
    have hlt' : (k : ℚ) * h < (n : ℚ) * h := lt_of_le_of_lt hlow hover
    have : (k : ℚ) < (n : ℚ) := lt_of_mul_lt_mul_right hlt' (le_of_lt hpos)
    exact_mod_cast this
  have hfitting : (CtPrintable.text t).lines_fitting (print_info.page_height - s.position.y)
      = k := by
    simp only [CtPrintable.lines_fitting, hlines]
    exact lines_that_fit_uniform h hpos n k _ hlow hhigh (Nat.le_of_lt hkn)
  have hheight : ¬ (CtPrintable.text t).height ≤ print_info.page_height - s.position.y := by
    simp only [CtPrintable.height, CtTextPrintable.height, hlines, total_height_replicate]
    exact not_le.mpr hover
  obtain ⟨hstep, hcount⟩ := step_split print_info s (CtPrintable.text t) hu rfl hheight
    (by rw [hfitting]; exact hk1)
  rw [hfitting] at hcount
  have hins : (s.step print_info).instructions = s.instructions ++
      [{ page_nr := s.page_nr, printable_i := s.curr_printable_i, position := s.position,
         drawn := Drawn.lines (t.pending_lines.take k) }] := by
    rw [hstep]
    simp only [PaginatorState.new_page, PaginatorState.emit, CtPrintable.print, hcount,
      CtPrintable.draw, CtTextPrintable.draw]
  have hunit : (s.step print_info).printables[s.curr_printable_i]?
      = some (CtPrintable.text (t.draw k).1) := by
    rw [hstep]
    simp only [PaginatorState.new_page, PaginatorState.emit, CtPrintable.print, hcount,
      CtPrintable.draw]
    rw [List.getElem?_set, if_pos rfl, if_pos hlt]
  have hdone : (t.draw k).1._done = t._done := by
    have : ¬ t.pending_lines.length ≤ k := by omega
    simp [CtTextPrintable.draw, this]
  have hcurr : (s.step print_info).curr_printable_i = s.curr_printable_i := by rw [hstep]; rfl
  have hpage : (s.step print_info).page_nr = s.page_nr + 1 := by rw [hstep]; rfl
  have hposn : (s.step print_info).position = { x := 0, y := 0 } := by rw [hstep]; rfl
  refine ⟨hk1, hkn, hlow, hhigh, hins, ⟨_, hunit, text_draw_pending t k, hdone⟩, hcurr, hpage,
    hposn, ?_, by decide!⟩
  have hunit' : (s.step print_info).printables[(s.step print_info).curr_printable_i]?
      = some (CtPrintable.text (t.draw k).1) := by rw [hcurr]; exact hunit
  have hpend : 1 ≤ (CtPrintable.text (t.draw k).1).pending := by
    simp only [CtPrintable.pending, text_draw_pending, List.length_drop]
    omega
  obtain ⟨m, hm, hins2⟩ := step_at_top_draws print_info (s.step print_info) _ hunit'
    (by rw [hposn]) hpend
  refine ⟨m, hm, ?_⟩
  have hdraw2 : ((CtPrintable.text (t.draw k).1).draw m).2.2
      = Drawn.lines ((t.pending_lines.drop k).take m) := by
    show Drawn.lines ((t.draw k).1.pending_lines.take m) = _
    rw [text_draw_pending]
  rw [hins2, hins, hcurr, hpage, hposn, List.append_assoc, hdraw2]
  rfl

theorem text_run_split_by_lines_witness :
    (sample_text_start.printables[sample_text_start.curr_printable_i]?
        = some (CtPrintable.text sample_text_run)
      ∧ sample_text_run.pending_lines.map LayoutLine.height = List.replicate 12 (10 : ℚ)
      ∧ (0 : ℚ) < 10
      ∧ (10 : ℚ) ≤ sample_print_info.page_height - sample_text_start.position.y
      ∧ sample_print_info.page_height - sample_text_start.position.y < ((12 : Nat) : ℚ) * 10)
    ∧ (1 ≤ ⌊(sample_print_info.page_height - sample_text_start.position.y) / (10 : ℚ)⌋₊
    ∧ ⌊(sample_print_info.page_height - sample_text_start.position.y) / (10 : ℚ)⌋₊ < 12
    ∧ (⌊(sample_print_info.page_height - sample_text_start.position.y) / (10 : ℚ)⌋₊ : ℚ) * (10 : ℚ)
        ≤ sample_print_info.page_height - sample_text_start.position.y
    ∧ sample_print_info.page_height - sample_text_start.position.y
        < ((⌊(sample_print_info.page_height - sample_text_start.position.y) / (10 : ℚ)⌋₊ : ℚ) + 1) * (10 : ℚ)
    ∧ (sample_text_start.step sample_print_info).instructions = sample_text_start.instructions ++
        [{ page_nr := sample_text_start.page_nr, printable_i := sample_text_start.curr_printable_i, position := sample_text_start.position,
           drawn := Drawn.lines
            (sample_text_run.pending_lines.take ⌊(sample_print_info.page_height - sample_text_start.position.y) / (10 : ℚ)⌋₊) }]
    ∧ (∃ t', (sample_text_start.step sample_print_info).printables[sample_text_start.curr_printable_i]? = some (CtPrintable.text t')
        ∧ t'.pending_lines
            = sample_text_run.pending_lines.drop ⌊(sample_print_info.page_height - sample_text_start.position.y) / (10 : ℚ)⌋₊
        ∧ t'._done = sample_text_run._done)
    ∧ (sample_text_start.step sample_print_info).curr_printable_i = sample_text_start.curr_printable_i
    ∧ (sample_text_start.step sample_print_info).page_nr = sample_text_start.page_nr + 1
    ∧ (sample_text_start.step sample_print_info).position = { x := 0, y := 0 }
    ∧ (∃ m, 1 ≤ m
        ∧ ((sample_text_start.step sample_print_info).step sample_print_info).instructions = sample_text_start.instructions ++
            [{ page_nr := sample_text_start.page_nr, printable_i := sample_text_start.curr_printable_i, position := sample_text_start.position,
               drawn := Drawn.lines
                (sample_text_run.pending_lines.take ⌊(sample_print_info.page_height - sample_text_start.position.y) / (10 : ℚ)⌋₊) },
             { page_nr := sample_text_start.page_nr + 1, printable_i := sample_text_start.curr_printable_i,
               position := { x := 0, y := 0 },
               drawn := Drawn.lines
                ((sample_text_run.pending_lines.drop
                  ⌊(sample_print_info.page_height - sample_text_start.position.y) / (10 : ℚ)⌋₊).take m) }])
    ∧ (paginate sample_print_info [CtPrintable.text sample_text_run]).map
        (fun r => (r.nb_pages,
          r.instructions.map (fun d => (d.page_nr, d.position.y, d.drawn.get_lines.length)),
          r.printables.map CtPrintable.done))
        = some (2, [(0, 0, 10), (1, 0, 2)], [true])) :=
  ⟨⟨rfl, by decide!, by decide!, by decide!, by decide!⟩,
    text_run_split_by_lines sample_print_info sample_text_start sample_text_run 12 10
      rfl (by decide!) (by decide!) (by decide!) (by decide!)⟩

theorem data_rows_split (p : CtPrintTableProxy) (k : Nat)
    (hk : (k : Int) + 1 ≤ p.get_row_num) :
    (p.create_new_with ((k : Int) + 1)).data_rows
        ++ (p.remove_first_rows (k : Int)).data_rows = p.data_rows
    ∧ (p.create_new_with ((k : Int) + 1)).data_rows.length = k := by
  constructor
  · rw [data_rows_create_new_with, data_rows_remove_first_rows p k (by omega)]
    have hsplit : (p.get_row_num - 1).toNat
        = ((k : Int) + 1 - 1).toNat + (p.get_row_num - (k : Int) - 1).toNat := by omega
    unfold CtPrintTableProxy.data_rows
    rw [hsplit, List.range_add, List.map_append, List.map_map]
    have hkk : ((k : Int) + 1 - 1).toNat = (k : Int).toNat := by omega
    rw [hkk]
    rfl
  · simp [data_rows_create_new_with]

/-- Claim C15 (table splitting with repeated header): when the current unit is
a Table with header height `hh` and `n` pending data rows of height `r` each,
and the remaining space `s` is too small for the whole table but at least
`hh + r`, the page receives the header and the first `k = ⌊(s - hh) / r⌋` data
rows, the largest `k` with `hh + k * r ≤ s`, drawn as the proxy
`create_new_with(k + 1)`; the unit keeps the proxy advanced by `k` rows, which
carries exactly the remaining data rows, and is not done; the page ends, and
the next visit draws, at the top of the next page, a proxy whose row 0 is the
header again, followed by the next remaining rows.  For a header of 10 and six
rows of 15, 55 of space gives header and rows 1-3 on the page and header and
rows 4-6 on the next, then done; 100 of space takes the whole table in one
slice. -/
theorem table_split_by_rows (print_info : PrintInfo) (s : PaginatorState)
    (t : CtWidgetTablePrintable) (n : Nat) (hh r : ℚ)
    (hu : s.printables[s.curr_printable_i]? = some (CtPrintable.table t))
    (hheader : t.header_height = hh)
    (hrows : t.pending_rows = List.replicate n r)
    (hpos : 0 < r)
    (hfit : hh + r ≤ print_info.page_height - s.position.y)
    (hover : print_info.page_height - s.position.y < hh + (n : ℚ) * r) :
    1 ≤ ⌊(print_info.page_height - s.position.y - hh) / r⌋₊
    ∧ ⌊(print_info.page_height - s.position.y - hh) / r⌋₊ < n
    ∧ hh + (⌊(print_info.page_height - s.position.y - hh) / r⌋₊ : ℚ) * r
        ≤ print_info.page_height - s.position.y
    ∧ print_info.page_height - s.position.y
        < hh + ((⌊(print_info.page_height - s.position.y - hh) / r⌋₊ : ℚ) + 1) * r
    ∧ (s.step print_info).instructions = s.instructions ++
        [{ page_nr := s.page_nr, printable_i := s.curr_printable_i, position := s.position,
           drawn := Drawn.table (t._widget_proxy.create_new_with
            ((⌊(print_info.page_height - s.position.y - hh) / r⌋₊ : Int) + 1)) }]
    ∧ (s.emit print_info (CtPrintable.table t)).position.y
        = s.position.y
          + (hh + (⌊(print_info.page_height - s.position.y - hh) / r⌋₊ : ℚ) * r)
    ∧ (∃ t', (s.step print_info).printables[s.curr_printable_i]?
          = some (CtPrintable.table t')
        ∧ t'._widget_proxy = t._widget_proxy.remove_first_rows
            (⌊(print_info.page_height - s.position.y - hh) / r⌋₊ : Int)
        ∧ t'._done = t._done)
    ∧ ((t._widget_proxy.create_new_with
            ((⌊(print_info.page_height - s.position.y - hh) / r⌋₊ : Int) + 1)).data_rows
          ++ (t._widget_proxy.remove_first_rows
            (⌊(print_info.page_height - s.position.y - hh) / r⌋₊ : Int)).data_rows
        = t._widget_proxy.data_rows)
    ∧ (t._widget_proxy.create_new_with
          ((⌊(print_info.page_height - s.position.y - hh) / r⌋₊ : Int) + 1)).data_rows.length
        = ⌊(print_info.page_height - s.position.y - hh) / r⌋₊
    ∧ (s.step print_info).curr_printable_i = s.curr_printable_i
    ∧ (s.step print_info).page_nr = s.page_nr + 1
    ∧ (s.step print_info).position = { x := 0, y := 0 }
    ∧ (∃ (m : Nat) (head : CtPrintTableProxy), 1 ≤ m
        ∧ ((s.step print_info).step print_info).instructions = (s.step print_info).instructions ++
            [{ page_nr := s.page_nr + 1, printable_i := s.curr_printable_i,
               position := { x := 0, y := 0 }, drawn := Drawn.table head }]
        ∧ head = (t._widget_proxy.remove_first_rows
              (⌊(print_info.page_height - s.position.y - hh) / r⌋₊ : Int)).create_new_with
                ((min m (n - ⌊(print_info.page_height - s.position.y - hh) / r⌋₊) : Nat) + 1)
        ∧ (∀ col, head.get_cell 0 col = t._widget_proxy.get_cell 0 col))
    ∧ (paginate sample_print_info sample_table_job).map
        (fun res => (res.nb_pages, res.instructions, res.printables.map CtPrintable.done,
          res.position.y))
        = some (2,
            [{ page_nr := 0, printable_i := 0, position := { x := 0, y := 0 },
               drawn := Drawn.image sample_filler_printable._widget_proxy.get_image },
             { page_nr := 0, printable_i := 1, position := { x := 0, y := 45 },
               drawn := Drawn.table { _table := sample_table_six, _startRow := 1, _rowNum := 4 } },
             { page_nr := 1, printable_i := 1, position := { x := 0, y := 0 },
               drawn := Drawn.table { _table := sample_table_six, _startRow := 4, _rowNum := 4 } }],
            [true, true], 55)
    ∧ (paginate sample_print_info [CtPrintable.table sample_table_printable]).map
        (fun res => (res.nb_pages, res.instructions, res.printables.map CtPrintable.done,
          res.position.y))
        = some (1,
            [{ page_nr := 0, printable_i := 0, position := { x := 0, y := 0 },
               drawn := Drawn.table { _table := sample_table_six, _startRow := 1, _rowNum := 7 } }],
            [true], 100) := by
  obtain ⟨hlt, _⟩ := List.getElem?_eq_some.mp hu
  have hspace : 0 ≤ print_info.page_height - s.position.y - hh := by linarith
  obtain ⟨hlow, hhigh⟩ := floor_bounds r _ hpos hspace
  generalize hk : ⌊(print_info.page_height - s.position.y - hh) / r⌋₊ = k at hlow hhigh ⊢
  have hlen : t.pending_rows.length = n := by rw [hrows, List.length_replicate]
  have hk1 : 1 ≤ k := by
    rcases Nat.eq_zero_or_pos k with h0 | h0
    · rw [h0] at hhigh
      simp only [Nat.cast_zero, zero_add, one_mul] at hhigh
      linarith
    · exact h0
  have hkn : k < n := by
    have hlt' : (k : ℚ) * r < (n : ℚ) * r := by linarith
    have : (k : ℚ) < (n : ℚ) := lt_of_mul_lt_mul_right hlt' (le_of_lt hpos)
    exact_mod_cast this
  have hrownum : (k : Int) + 1 ≤ t._widget_proxy.get_row_num := by
    have := table_pending_rows_length t
    rw [hlen] at this
    omega
  have hfitting : (CtPrintable.table t).lines_fitting (print_info.page_height - s.position.y)
      = k := by
    simp only [CtPrintable.lines_fitting, hrows, hheader]
    exact lines_that_fit_uniform r hpos n k _ hlow hhigh (Nat.le_of_lt hkn)
  have hheight : ¬ (CtPrintable.table t).height ≤ print_info.page_height - s.position.y := by
    simp only [CtPrintable.height, CtWidgetTablePrintable.height, hrows, hheader,
      total_height_replicate]
    exact not_le.mpr hover
  obtain ⟨hstep, hcount⟩ := step_split print_info s (CtPrintable.table t) hu rfl hheight
    (by rw [hfitting]; exact hk1)
  rw [hfitting] at hcount
  have hmin : min k t.pending_rows.length = k := by rw [hlen]; exact Nat.min_eq_left (Nat.le_of_lt hkn)
  have hins : (s.step print_info).instructions = s.instructions ++
      [{ page_nr := s.page_nr, printable_i := s.curr_printable_i, position := s.position,
         drawn := Drawn.table (t._widget_proxy.create_new_with ((k : Int) + 1)) }] := by
    rw [hstep]
    simp only [PaginatorState.new_page, PaginatorState.emit, CtPrintable.print, hcount,
      CtPrintable.draw, CtWidgetTablePrintable.draw, hmin]
  have hemit : (s.emit print_info (CtPrintable.table t)).position.y
      = s.position.y + (hh + (k : ℚ) * r) := by
    simp only [PaginatorState.emit, CtPrintable.print, hcount, CtPrintable.draw, hheader, hrows,
      List.take_replicate, Nat.min_eq_left (Nat.le_of_lt hkn), total_height_replicate]
  have hunit : (s.step print_info).printables[s.curr_printable_i]?
      = some (CtPrintable.table (t.draw k).1) := by
    rw [hstep]
    simp only [PaginatorState.new_page, PaginatorState.emit, CtPrintable.print, hcount,
      CtPrintable.draw]
    rw [List.getElem?_set, if_pos rfl, if_pos hlt]
  have hproxy : (t.draw k).1._widget_proxy = t._widget_proxy.remove_first_rows (k : Int) := by
    simp only [CtWidgetTablePrintable.draw, hmin]
  have hdone : (t.draw k).1._done = t._done := by
    have : ¬ t.pending_rows.length ≤ k := by omega
    simp [CtWidgetTablePrintable.draw, this]
  have hcurr : (s.step print_info).curr_printable_i = s.curr_printable_i := by rw [hstep]; rfl
  have hpage : (s.step print_info).page_nr = s.page_nr + 1 := by rw [hstep]; rfl
  have hposn : (s.step print_info).position = { x := 0, y := 0 } := by rw [hstep]; rfl
  obtain ⟨hsplit, hheadlen⟩ := data_rows_split t._widget_proxy k hrownum
  refine ⟨hk1, hkn, by linarith, by linarith, hins, hemit, ⟨_, hunit, hproxy, hdone⟩, hsplit,
    hheadlen, hcurr, hpage, hposn, ?_, by decide!, by decide!⟩
  have hunit' : (s.step print_info).printables[(s.step print_info).curr_printable_i]?
      = some (CtPrintable.table (t.draw k).1) := by rw [hcurr]; exact hunit
  have hpendlen : (t.draw k).1.pending_rows.length = n - k := by
    rw [table_draw_pending_length, hlen]
  have hpend : 1 ≤ (CtPrintable.table (t.draw k).1).pending := by
    simp only [CtPrintable.pending, hpendlen]
    omega
  obtain ⟨m, hm, hins2⟩ := step_at_top_draws print_info (s.step print_info) _ hunit'
    (by rw [hposn]) hpend
  refine ⟨m, _, hm, ?_, rfl, fun _ => rfl⟩
  rw [hins2, hcurr, hpage, hposn]
  simp only [CtPrintable.draw]
  have : ((t.draw k).1.draw m).2
      = (t._widget_proxy.remove_first_rows (k : Int)).create_new_with
          ((min m (n - k) : Nat) + 1) := by
    simp only [CtWidgetTablePrintable.draw, hpendlen, hmin]
    rw [← hpendlen]
    simp only [CtWidgetTablePrintable.draw, hmin]
  rw [this]

theorem table_split_by_rows_witness :
    (sample_table_state.printables[sample_table_state.curr_printable_i]?
        = some (CtPrintable.table sample_table_printable)
      ∧ sample_table_printable.header_height = (10 : ℚ)
      ∧ sample_table_printable.pending_rows = List.replicate 6 (15 : ℚ)
      ∧ (0 : ℚ) < 15
      ∧ (10 : ℚ) + 15 ≤ sample_print_info.page_height - sample_table_state.position.y
      ∧ sample_print_info.page_height - sample_table_state.position.y
          < (10 : ℚ) + ((6 : Nat) : ℚ) * 15)
    ∧ (1 ≤ ⌊(sample_print_info.page_height - sample_table_state.position.y - (10 : ℚ)) / (15 : ℚ)⌋₊
    ∧ ⌊(sample_print_info.page_height - sample_table_state.position.y - (10 : ℚ)) / (15 : ℚ)⌋₊ < 6
    ∧ (10 : ℚ) + (⌊(sample_print_info.page_height - sample_table_state.position.y - (10 : ℚ)) / (15 : ℚ)⌋₊ : ℚ) * (15 : ℚ)
        ≤ sample_print_info.page_height - sample_table_state.position.y
    ∧ sample_print_info.page_height - sample_table_state.position.y
        < (10 : ℚ) + ((⌊(sample_print_info.page_height - sample_table_state.position.y - (10 : ℚ)) / (15 : ℚ)⌋₊ : ℚ) + 1) * (15 : ℚ)
    ∧ (sample_table_state.step sample_print_info).instructions = sample_table_state.instructions ++
        [{ page_nr := sample_table_state.page_nr, printable_i := sample_table_state.curr_printable_i, position := sample_table_state.position,
           drawn := Drawn.table (sample_table_printable._widget_proxy.create_new_with
            ((⌊(sample_print_info.page_height - sample_table_state.position.y - (10 : ℚ)) / (15 : ℚ)⌋₊ : Int) + 1)) }]
    ∧ (sample_table_state.emit sample_print_info (CtPrintable.table sample_table_printable)).position.y
        = sample_table_state.position.y
          + ((10 : ℚ) + (⌊(sample_print_info.page_height - sample_table_state.position.y - (10 : ℚ)) / (15 : ℚ)⌋₊ : ℚ) * (15 : ℚ))
    ∧ (∃ t', (sample_table_state.step sample_print_info).printables[sample_table_state.curr_printable_i]?
          = some (CtPrintable.table t')
        ∧ t'._widget_proxy = sample_table_printable._widget_proxy.remove_first_rows
            (⌊(sample_print_info.page_height - sample_table_state.position.y - (10 : ℚ)) / (15 : ℚ)⌋₊ : Int)
        ∧ t'._done = sample_table_printable._done)
    ∧ ((sample_table_printable._widget_proxy.create_new_with
            ((⌊(sample_print_info.page_height - sample_table_state.position.y - (10 : ℚ)) / (15 : ℚ)⌋₊ : Int) + 1)).data_rows
          ++ (sample_table_printable._widget_proxy.remove_first_rows
            (⌊(sample_print_info.page_height - sample_table_state.position.y - (10 : ℚ)) / (15 : ℚ)⌋₊ : Int)).data_rows
        = sample_table_printable._widget_proxy.data_rows)
    ∧ (sample_table_printable._widget_proxy.create_new_with
          ((⌊(sample_print_info.page_height - sample_table_state.position.y - (10 : ℚ)) / (15 : ℚ)⌋₊ : Int) + 1)).data_rows.length
        = ⌊(sample_print_info.page_height - sample_table_state.position.y - (10 : ℚ)) / (15 : ℚ)⌋₊
    ∧ (sample_table_state.step sample_print_info).curr_printable_i = sample_table_state.curr_printable_i
    ∧ (sample_table_state.step sample_print_info).page_nr = sample_table_state.page_nr + 1
    ∧ (sample_table_state.step sample_print_info).position = { x := 0, y := 0 }
    ∧ (∃ (m : Nat) (head : CtPrintTableProxy), 1 ≤ m
        ∧ ((sample_table_state.step sample_print_info).step sample_print_info).instructions = (sample_table_state.step sample_print_info).instructions ++
            [{ page_nr := sample_table_state.page_nr + 1, printable_i := sample_table_state.curr_printable_i,
               position := { x := 0, y := 0 }, drawn := Drawn.table head }]
        ∧ head = (sample_table_printable._widget_proxy.remove_first_rows
              (⌊(sample_print_info.page_height - sample_table_state.position.y - (10 : ℚ)) / (15 : ℚ)⌋₊ : Int)).create_new_with
                ((min m (6 - ⌊(sample_print_info.page_height - sample_table_state.position.y - (10 : ℚ)) / (15 : ℚ)⌋₊) : Nat) + 1)
        ∧ (∀ col, head.get_cell 0 col = sample_table_printable._widget_proxy.get_cell 0 col))
    ∧ (paginate sample_print_info sample_table_job).map
        (fun res => (res.nb_pages, res.instructions, res.printables.map CtPrintable.done,
          res.position.y))
        = some (2,
            [{ page_nr := 0, printable_i := 0, position := { x := 0, y := 0 },
               drawn := Drawn.image sample_filler_printable._widget_proxy.get_image },
             { page_nr := 0, printable_i := 1, position := { x := 0, y := 45 },
               drawn := Drawn.table { _table := sample_table_six, _startRow := 1, _rowNum := 4 } },
             { page_nr := 1, printable_i := 1, position := { x := 0, y := 0 },
               drawn := Drawn.table { _table := sample_table_six, _startRow := 4, _rowNum := 4 } }],
            [true, true], 55)
    ∧ (paginate sample_print_info [CtPrintable.table sample_table_printable]).map
        (fun res => (res.nb_pages, res.instructions, res.printables.map CtPrintable.done,
          res.position.y))
        = some (1,
            [{ page_nr := 0, printable_i := 0, position := { x := 0, y := 0 },
               drawn := Drawn.table { _table := sample_table_six, _startRow := 1, _rowNum := 7 } }],
            [true], 100)) :=
  ⟨⟨by decide!, by decide!, by decide!, by decide!, by decide!, by decide!⟩,
    table_split_by_rows sample_print_info sample_table_state sample_table_printable 6 10 15
      (by decide!) (by decide!) (by decide!) (by decide!) (by decide!) (by decide!)⟩

/-! ## Link targets -/

theorem base64_digit_value : ∀ n : Nat, n < 64 → base64_value (base64_digit n) = some n := by
  decide

theorem base64_digit_ne_pad : ∀ n : Nat, n < 64 → base64_digit n ≠ '=' := by
  decide

theorem base64_digit_mem : ∀ n : Nat, n < 64 → base64_digit n ∈ base64_alphabet := by
  decide

/-- Decoding undoes encoding: the Base64 text of a byte sequence decodes to that
sequence. -/
theorem base64_decode_encode (bytes : List Nat) (hbytes : ∀ x ∈ bytes, x < 256) :
    base64_decode_chars (base64_encode_bytes bytes) = some bytes := by
  induction bytes using base64_encode_bytes.induct with
  | case1 => rfl
  | case2 a =>
    have ha : a < 256 := hbytes a (by simp)
    have h0 := base64_digit_value (a / 4) (by omega)
    have h1 := base64_digit_value (a % 4 * 16) (by omega)
    simp only [base64_encode_bytes, base64_decode_chars, if_true, h0, h1]
    congr 2
    omega
  | case3 a b =>
    have ha : a < 256 := hbytes a (by simp)
    have hb : b < 256 := hbytes b (by simp)
    have h0 := base64_digit_value (a / 4) (by omega)
    have h1 := base64_digit_value (a % 4 * 16 + b / 16) (by omega)
    have h2 := base64_digit_value (b % 16 * 4) (by omega)
    have hpad := base64_digit_ne_pad (b % 16 * 4) (by omega)
    simp only [base64_encode_bytes, base64_decode_chars, if_true, if_neg hpad, h0, h1, h2]
    congr 2
    · omega
    · congr 1
      omega
  | case4 a b c rest ih =>
    have ha : a < 256 := hbytes a (by simp)
    have hb : b < 256 := hbytes b (by simp)
    have hc : c < 256 := hbytes c (by simp)
    have hrest := ih (fun x hx => hbytes x (by simp [hx]))
    have h0 := base64_digit_value (a / 4) (by omega)
    have h1 := base64_digit_value (a % 4 * 16 + b / 16) (by omega)
    have h2 := base64_digit_value (b % 16 * 4 + c / 64) (by omega)
    have h3 := base64_digit_value (c % 64) (by omega)
    have hpad := base64_digit_ne_pad (c % 64) (by omega)
    simp only [base64_encode_bytes, base64_decode_chars, if_neg hpad, h0, h1, h2, h3, hrest]
    congr 2
    · omega
    · congr 1
      · omega
      · congr 1
        omega

/-- The value of a group of six bits. -/
theorem bits_value_six (b0 b1 b2 b3 b4 b5 : Nat) :
    bits_value [b0, b1, b2, b3, b4, b5] = 32 * b0 + 16 * b1 + 8 * b2 + 4 * b3 + 2 * b4 + b5 := by
  simp only [bits_value, List.foldl_cons, List.foldl_nil]
  omega

/-- Three bytes are four full groups of six bits. -/
theorem base64_rfc4648_cons (a b c : Nat) (rest : List Nat) (ha : a < 256) (hb : b < 256)
    (hc : c < 256) :
    base64_rfc4648 (a :: b :: c :: rest)
      = base64_digit (a / 4) :: base64_digit (a % 4 * 16 + b / 16)
          :: base64_digit (b % 16 * 4 + c / 64) :: base64_digit (c % 64)
          :: base64_rfc4648 rest := by
  have h0 : 32 * (a / 128 % 2) + 16 * (a / 64 % 2) + 8 * (a / 32 % 2) + 4 * (a / 16 % 2)
      + 2 * (a / 8 % 2) + a / 4 % 2 = a / 4 := by omega
  have h1 : 32 * (a / 2 % 2) + 16 * (a % 2) + 8 * (b / 128 % 2) + 4 * (b / 64 % 2)
      + 2 * (b / 32 % 2) + b / 16 % 2 = a % 4 * 16 + b / 16 := by omega
  have h2 : 32 * (b / 8 % 2) + 16 * (b / 4 % 2) + 8 * (b / 2 % 2) + 4 * (b % 2)
      + 2 * (c / 128 % 2) + c / 64 % 2 = b % 16 * 4 + c / 64 := by omega
  have h3 : 32 * (c / 32 % 2) + 16 * (c / 16 % 2) + 8 * (c / 8 % 2) + 4 * (c / 4 % 2)
      + 2 * (c / 2 % 2) + c % 2 = c % 64 := by omega
  simp only [base64_rfc4648, List.flatMap_cons, byte_bits, List.cons_append, List.nil_append,
    sextets, List.map_cons, List.length_cons, bits_value_six, h0, h1, h2, h3]
  have hmod : ∀ n : Nat, (n + 1 + 1 + 1 + 1) % 4 = n % 4 := by intro n; omega
  rw [hmod]
  rfl

/-- The encoding by byte arithmetic is Base64 as RFC 4648 words it. -/
theorem base64_encode_is_rfc4648 (bytes : List Nat) (hbytes : ∀ x ∈ bytes, x < 256) :
    base64_encode_bytes bytes = base64_rfc4648 bytes := by
  induction bytes using base64_encode_bytes.induct with
  | case1 => rfl
  | case2 a =>
    have ha : a < 256 := hbytes a (by simp)
    have h0 : 32 * (a / 128 % 2) + 16 * (a / 64 % 2) + 8 * (a / 32 % 2) + 4 * (a / 16 % 2)
        + 2 * (a / 8 % 2) + a / 4 % 2 = a / 4 := by omega
    have h1 : 32 * (a / 2 % 2) + 16 * (a % 2) + 8 * 0 + 4 * 0 + 2 * 0 + 0 = a % 4 * 16 := by
      omega
    simp [base64_encode_bytes, base64_rfc4648, byte_bits, sextets, bits_value_six, h0, h1]
  | case3 a b =>
    have ha : a < 256 := hbytes a (by simp)
    have hb : b < 256 := hbytes b (by simp)
    have h0 : 32 * (a / 128 % 2) + 16 * (a / 64 % 2) + 8 * (a / 32 % 2) + 4 * (a / 16 % 2)
        + 2 * (a / 8 % 2) + a / 4 % 2 = a / 4 := by omega
    have h1 : 32 * (a / 2 % 2) + 16 * (a % 2) + 8 * (b / 128 % 2) + 4 * (b / 64 % 2)
        + 2 * (b / 32 % 2) + b / 16 % 2 = a % 4 * 16 + b / 16 := by omega
    have h2 : 32 * (b / 8 % 2) + 16 * (b / 4 % 2) + 8 * (b / 2 % 2) + 4 * (b % 2)
        + 2 * 0 + 0 = b % 16 * 4 := by omega
    simp [base64_encode_bytes, base64_rfc4648, byte_bits, sextets, bits_value_six, h0, h1, h2]
  | case4 a b c rest ih =>
    have ha : a < 256 := hbytes a (by simp)
    have hb : b < 256 := hbytes b (by simp)
    have hc : c < 256 := hbytes c (by simp)
    rw [base64_rfc4648_cons a b c rest ha hb hc, ← ih (fun x hx => hbytes x (by simp [hx]))]
    simp only [base64_encode_bytes]

/-- Every three bytes, and a last group of one or two, give four characters. -/
theorem base64_encode_length (bytes : List Nat) :
    (base64_encode_bytes bytes).length = 4 * ((bytes.length + 2) / 3) := by
  induction bytes using base64_encode_bytes.induct with
  | case1 => rfl
  | case2 a => simp [base64_encode_bytes]
  | case3 a b => simp [base64_encode_bytes]
  | case4 a b c rest ih =>
    simp only [base64_encode_bytes, List.length_cons, ih]
    omega

/-- The Base64 text of a byte sequence holds only digits of the alphabet and the
padding character. -/
theorem base64_encode_digits (bytes : List Nat) (hbytes : ∀ x ∈ bytes, x < 256) :
    ∀ digit ∈ base64_encode_bytes bytes, digit ∈ base64_alphabet ∨ digit = '=' := by
  induction bytes using base64_encode_bytes.induct with
  | case1 => intro digit h; simp [base64_encode_bytes] at h
  | case2 a =>
    have ha : a < 256 := hbytes a (by simp)
    intro digit h
    simp only [base64_encode_bytes, List.mem_cons, List.mem_singleton, List.not_mem_nil,
      or_false] at h
    rcases h with h | h | h | h
    · exact Or.inl (h ▸ base64_digit_mem _ (by omega))
    · exact Or.inl (h ▸ base64_digit_mem _ (by omega))
    · exact Or.inr h
    · exact Or.inr h
  | case3 a b =>
    have ha : a < 256 := hbytes a (by simp)
    have hb : b < 256 := hbytes b (by simp)
    intro digit h
    simp only [base64_encode_bytes, List.mem_cons, List.mem_singleton, List.not_mem_nil,
      or_false] at h
    rcases h with h | h | h | h
    · exact Or.inl (h ▸ base64_digit_mem _ (by omega))
    · exact Or.inl (h ▸ base64_digit_mem _ (by omega))
    · exact Or.inl (h ▸ base64_digit_mem _ (by omega))
    · exact Or.inr h
  | case4 a b c rest ih =>
    have ha : a < 256 := hbytes a (by simp)
    have hb : b < 256 := hbytes b (by simp)
    have hc : c < 256 := hbytes c (by simp)
    intro digit h
    simp only [base64_encode_bytes, List.mem_cons] at h
    rcases h with h | h | h | h | h
    · exact Or.inl (h ▸ base64_digit_mem _ (by omega))
    · exact Or.inl (h ▸ base64_digit_mem _ (by omega))
    · exact Or.inl (h ▸ base64_digit_mem _ (by omega))
    · exact Or.inl (h ▸ base64_digit_mem _ (by omega))
    · exact ih (fun x hx => hbytes x (by simp [hx])) digit h

/-- The bytes of a string are bytes. -/
theorem utf8_bytes_lt (text : String) : ∀ x ∈ utf8_bytes text, x < 256 := by
  intro x hx
  simp only [utf8_bytes, List.mem_map] at hx
  obtain ⟨byte, _, hbyte⟩ := hx
  rw [← hbyte]
  exact UInt8.toNat_lt byte

/-- The text of a target opens with the five characters of its kind. -/
theorem encode_tag (target : LinkTarget) :
    target.encode.toList.take 5 = target.tag.toList := by
  cases target with
  | node node_id anchor =>
    cases anchor with
    | none => simp [LinkTarget.encode, LinkTarget.tag, String.toList]
    | some anchor => simp [LinkTarget.encode, LinkTarget.tag, String.toList]
  | webs uri => simp [LinkTarget.encode, LinkTarget.tag, String.toList]
  | fold path => simp [LinkTarget.encode, LinkTarget.tag, String.toList]
  | file path => simp [LinkTarget.encode, LinkTarget.tag, String.toList]

/-- What follows the five characters of the kind in a folder or file target
decodes to the bytes of the path. -/
theorem encode_path_decodes (path : String) :
    base64_decode_chars ((LinkTarget.fold path).encode.toList.drop 5) = some (utf8_bytes path)
    ∧ base64_decode_chars ((LinkTarget.file path).encode.toList.drop 5)
        = some (utf8_bytes path) := by
  have h := base64_decode_encode (utf8_bytes path) (utf8_bytes_lt path)
  constructor
  · simpa [LinkTarget.encode, base64_encode, String.toList] using h
  · simpa [LinkTarget.encode, base64_encode, String.toList] using h

/-- Claim C17 (link target encoding): every link target is written in one of
the four forms `node <id>[ <anchor>]`, `webs <uri>`, `fold <base64 path>`,
`file <base64 path>`, and its first five characters name its kind, so that
targets of two kinds never have the same text.  A folder or file link to path
`p` is the prefix `fold ` or `file ` followed by the standard Base64 of `p`:
what follows the prefix is the Base64 of the bytes of `p` as RFC 4648 words it
and decodes to those bytes, so that two paths with the same target have the
same bytes; the Base64 text of `n` bytes has `4 * ⌈n / 3⌉` characters, all
digits of the alphabet or `=`, and decodes to the bytes; the test vectors of
RFC 4648 come out as the RFC gives them.
`/etc` gives `fold L2V0Yw==` and `/etc/fstab` gives `file L2V0Yy9mc3RhYg==`,
the values the read/write test expects.  An internal link is `node ` followed
by the decimal node id and, when an anchor is given, a space and the anchor
name, again as the test expects. -/
theorem link_target_forms :
    (∀ target : LinkTarget,
        (∃ node_id, target.encode = "node " ++ toString (node_id : Int))
        ∨ (∃ node_id anchor, target.encode = "node " ++ toString (node_id : Int) ++ " " ++ anchor)
        ∨ (∃ uri, target.encode = "webs " ++ uri)
        ∨ (∃ path, target.encode = "fold " ++ base64_encode path)
        ∨ (∃ path, target.encode = "file " ++ base64_encode path))
    ∧ (∀ target : LinkTarget, target.encode.toList.take 5 = target.tag.toList)
    ∧ (∀ target1 target2 : LinkTarget, target1.encode = target2.encode →
        target1.tag = target2.tag)
    ∧ (∀ path, (LinkTarget.fold path).encode = "fold " ++ base64_encode path
        ∧ (LinkTarget.fold path).encode.toList.drop 5 = base64_rfc4648 (utf8_bytes path)
        ∧ base64_decode_chars ((LinkTarget.fold path).encode.toList.drop 5)
            = some (utf8_bytes path))
    ∧ (∀ path, (LinkTarget.file path).encode = "file " ++ base64_encode path
        ∧ (LinkTarget.file path).encode.toList.drop 5 = base64_rfc4648 (utf8_bytes path)
        ∧ base64_decode_chars ((LinkTarget.file path).encode.toList.drop 5)
            = some (utf8_bytes path))
    ∧ (∀ path1 path2, (LinkTarget.fold path1).encode = (LinkTarget.fold path2).encode →
        utf8_bytes path1 = utf8_bytes path2)
    ∧ (∀ path1 path2, (LinkTarget.file path1).encode = (LinkTarget.file path2).encode →
        utf8_bytes path1 = utf8_bytes path2)
    ∧ (∀ bytes : List Nat, (∀ x ∈ bytes, x < 256) →
        base64_encode_bytes bytes = base64_rfc4648 bytes
        ∧ base64_decode_chars (base64_encode_bytes bytes) = some bytes
        ∧ (base64_encode_bytes bytes).length = 4 * ((bytes.length + 2) / 3)
        ∧ (∀ digit ∈ base64_encode_bytes bytes, digit ∈ base64_alphabet ∨ digit = '='))
    ∧ (base64_encode "" = "" ∧ base64_encode "f" = "Zg==" ∧ base64_encode "fo" = "Zm8="
        ∧ base64_encode "foo" = "Zm9v" ∧ base64_encode "foob" = "Zm9vYg=="
        ∧ base64_encode "fooba" = "Zm9vYmE=" ∧ base64_encode "foobar" = "Zm9vYmFy")
    ∧ base64_encode "/etc" = "L2V0Yw=="
    ∧ base64_encode "/etc/fstab" = "L2V0Yy9mc3RhYg=="
    ∧ (LinkTarget.fold "/etc").encode = "fold L2V0Yw=="
    ∧ (LinkTarget.fold "/etc").encode = expected_link_fold
    ∧ (LinkTarget.file "/etc/fstab").encode = "file L2V0Yy9mc3RhYg=="
    ∧ (LinkTarget.file "/etc/fstab").encode = expected_link_file
    ∧ (∀ node_id, (LinkTarget.node node_id none).encode = "node " ++ toString node_id)
    ∧ (∀ node_id, (LinkTarget.node node_id none).encode = expected_link_node node_id)
    ∧ (∀ node_id anchor,
        (LinkTarget.node node_id (some anchor)).encode
          = "node " ++ toString node_id ++ " " ++ anchor)
    ∧ (∀ node_id,
        (LinkTarget.node node_id (some "йцукенгшщз")).encode = expected_link_node_anchor node_id)
    ∧ (LinkTarget.node 42 none).encode = "node 42"
    ∧ (LinkTarget.node 42 (some "chapter")).encode = "node 42 chapter"
    ∧ (LinkTarget.webs "http://www.ansa.it").encode = expected_link_web := by
  have hdrop_fold : ∀ path, (LinkTarget.fold path).encode.toList.drop 5
      = base64_rfc4648 (utf8_bytes path) := by
    intro path
    rw [← base64_encode_is_rfc4648 (utf8_bytes path) (utf8_bytes_lt path)]
    simp [LinkTarget.encode, base64_encode, String.toList]
  have hdrop_file : ∀ path, (LinkTarget.file path).encode.toList.drop 5
      = base64_rfc4648 (utf8_bytes path) := by
    intro path
    rw [← base64_encode_is_rfc4648 (utf8_bytes path) (utf8_bytes_lt path)]
    simp [LinkTarget.encode, base64_encode, String.toList]
  refine ⟨?_, encode_tag, ?_, fun path => ⟨rfl, hdrop_fold path, (encode_path_decodes path).1⟩,
    fun path => ⟨rfl, hdrop_file path, (encode_path_decodes path).2⟩, ?_, ?_, ?_,
    ⟨by decide, by decide, by decide, by decide, by decide, by decide, by decide⟩,
    by decide, by decide, by decide, by decide, by decide,
    by decide, fun _ => rfl, fun _ => rfl, fun _ _ => rfl, ?_, by decide, by decide,
    by decide⟩
  · intro target
    cases target with
    | node node_id anchor =>
      cases anchor with
      | none => exact Or.inl ⟨node_id, rfl⟩
      | some anchor => exact Or.inr (Or.inl ⟨node_id, anchor, rfl⟩)
    | webs uri => exact Or.inr (Or.inr (Or.inl ⟨uri, rfl⟩))
    | fold path => exact Or.inr (Or.inr (Or.inr (Or.inl ⟨path, rfl⟩)))
    | file path => exact Or.inr (Or.inr (Or.inr (Or.inr ⟨path, rfl⟩)))
  · intro target1 target2 h
    apply String.ext
    have h1 := encode_tag target1
    have h2 := encode_tag target2
    rw [h] at h1
    exact h1.symm.trans h2
  · intro path1 path2 h
    have h1 := (encode_path_decodes path1).1
    have h2 := (encode_path_decodes path2).1
    rw [h] at h1
    exact Option.some.inj (h1.symm.trans h2)
  · intro path1 path2 h
    have h1 := (encode_path_decodes path1).2
    have h2 := (encode_path_decodes path2).2
    rw [h] at h1
    exact Option.some.inj (h1.symm.trans h2)
  · intro bytes hbytes
    exact ⟨base64_encode_is_rfc4648 bytes hbytes, base64_decode_encode bytes hbytes,
      base64_encode_length bytes, base64_encode_digits bytes hbytes⟩
  · intro node_id
    simp only [LinkTarget.encode, expected_link_node_anchor]
    rw [String.append_assoc, String.append_assoc]
    rfl

/-! ## Conservation of every unit's content -/

theorem draw_is_page_break (u : CtPrintable) (n : Nat) :
    (u.draw n).1.is_page_break = u.is_page_break := by
  cases u <;> rfl

theorem row_pieces_create_new_with (p : CtPrintTableProxy) (k : Nat) :
    (p.create_new_with ((k : Int) + 1)).row_pieces
      = (List.range k).map
          (fun (i : Nat) => Piece.row p.get_table (p.matrix_row ((i : Int) + 1))) := by
  simp only [CtPrintTableProxy.row_pieces, CtPrintTableProxy.get_row_num,
    CtPrintTableProxy.create_new_with]
  have hk : ((k : Int) + 1 - 1).toNat = k := by omega
  rw [hk]
  rfl

theorem row_pieces_remove_first_rows (p : CtPrintTableProxy) (k : Nat) :
    (p.remove_first_rows (k : Int)).row_pieces
      = (List.range ((p.get_row_num - 1).toNat - k)).map
          (fun (i : Nat) => Piece.row p.get_table (p.matrix_row (((k + i : Nat) : Int) + 1))) := by
  simp only [CtPrintTableProxy.row_pieces]
  have hlen : ((p.remove_first_rows (k : Int)).get_row_num - 1).toNat
      = (p.get_row_num - 1).toNat - k := by
    simp only [CtPrintTableProxy.get_row_num, CtPrintTableProxy.remove_first_rows]
    omega
  rw [hlen]
  apply List.map_congr_left
  intro i _
  have hrow : (p.remove_first_rows (k : Int)).matrix_row ((i : Int) + 1)
      = p.matrix_row (((k + i : Nat) : Int) + 1) := by
    simp only [CtPrintTableProxy.matrix_row, CtPrintTableProxy.remove_first_rows]
    rw [if_neg (by omega), if_neg (by omega)]
    push_cast
    ring
  rw [hrow]
  rfl

theorem table_draw_pieces (t : CtWidgetTablePrintable) (n : Nat) :
    (t.draw n).2.row_pieces ++ (t.draw n).1._widget_proxy.row_pieces
      = t._widget_proxy.row_pieces := by
  simp only [CtWidgetTablePrintable.draw]
  rw [row_pieces_create_new_with, row_pieces_remove_first_rows]
  have hlen := table_pending_rows_length t
  rw [hlen]
  have hsplit : (t._widget_proxy.get_row_num - 1).toNat
      = min n (t._widget_proxy.get_row_num - 1).toNat
        + ((t._widget_proxy.get_row_num - 1).toNat
            - min n (t._widget_proxy.get_row_num - 1).toNat) := by omega
  conv_rhs => rw [CtPrintTableProxy.row_pieces, hsplit, List.range_add, List.map_append,
    List.map_map]
  rfl

/-- A draw of a unit splits its pieces into the pieces drawn and the pieces
still to draw; a draw of everything pending draws all the pieces. -/
theorem draw_pieces (u : CtPrintable) (n : Nat) :
    (u.pending ≤ n → (u.draw n).2.2.pieces = u.pieces)
    ∧ (n < u.pending → (u.draw n).2.2.pieces ++ (u.draw n).1.pieces = u.pieces) := by
  have hlines : ∀ (ls : List LayoutLine),
      (ls.length ≤ n → (ls.take n).map Piece.line = ls.map Piece.line)
      ∧ ((ls.take n).map Piece.line ++ (ls.drop n).map Piece.line = ls.map Piece.line) := by
    intro ls
    constructor
    · intro h; rw [List.take_of_length_le h]
    · rw [← List.map_append, List.take_append_drop]
  cases u with
  | text t =>
    refine ⟨(hlines t.pending_lines).1, fun _ => ?_⟩
    simp only [CtPrintable.draw, CtPrintable.pieces, Drawn.pieces, text_draw_pending]
    exact (hlines t.pending_lines).2
  | link l =>
    refine ⟨(hlines l.toCtTextPrintable.pending_lines).1, fun _ => ?_⟩
    simp only [CtPrintable.draw, CtPrintable.pieces, Drawn.pieces, text_draw_pending]
    exact (hlines l.toCtTextPrintable.pending_lines).2
  | dest d => exact ⟨fun _ => rfl, fun h => absurd h (Nat.not_lt_zero _)⟩
  | page_break b => exact ⟨fun _ => rfl, fun h => absurd h (Nat.not_lt_zero _)⟩
  | image i => exact ⟨fun _ => rfl, fun h => absurd h (Nat.not_lt_zero _)⟩
  | table t =>
    have hsplit := table_draw_pieces t n
    constructor
    · intro hall
      have hrest : (t.draw n).1._widget_proxy.row_pieces = [] := by
        have hlen : (t.draw n).1._widget_proxy.row_pieces.length = 0 := by
          have h1 := table_draw_pending_length t n
          have h2 := table_pending_rows_length (t.draw n).1
          simp only [CtPrintable.pending] at hall
          simp only [CtPrintTableProxy.row_pieces, List.length_map, List.length_range]
          omega
        exact List.eq_nil_of_length_eq_zero hlen
      rw [hrest, List.append_nil] at hsplit
      exact hsplit
    · intro _
      exact hsplit
  | codebox c =>
    refine ⟨(hlines c.pending_lines).1, fun _ => ?_⟩
    simp only [CtPrintable.draw, CtPrintable.pieces, Drawn.pieces, codebox_draw_pending]
    exact (hlines c.pending_lines).2

theorem pieces_drawn_append (s s' : PaginatorState) (d : DrawInstruction)
    (h : s'.instructions = s.instructions ++ [d]) (j : Nat) :
    s'.pieces_drawn j
      = s.pieces_drawn j ++ (if d.printable_i = j then d.drawn.pieces else []) := by
  simp only [PaginatorState.pieces_drawn, slices_of_append s s' d h j, List.map_append,
    List.flatten_append]
  by_cases hj : d.printable_i = j
  · simp [hj]
  · simp [hj]

/-- One visit keeps the content of unit `j` whole: once the paginator is past
the unit its pieces drawn are the original ones, and until then the pieces
drawn followed by the pieces still to draw are. -/
theorem step_pieces_conserved (print_info : PrintInfo) (s : PaginatorState) (j : Nat)
    (original : List Piece)
    (hinv : (j < s.curr_printable_i → s.pieces_drawn j = original)
      ∧ (s.curr_printable_i ≤ j →
          ∃ v, s.printables[j]? = some v ∧ s.pieces_drawn j ++ v.pieces = original)) :
    (j < (s.step print_info).curr_printable_i → (s.step print_info).pieces_drawn j = original)
    ∧ ((s.step print_info).curr_printable_i ≤ j →
        ∃ v, (s.step print_info).printables[j]? = some v
          ∧ (s.step print_info).pieces_drawn j ++ v.pieces = original) := by
  by_cases h : s.finished = true
  · rw [step_finished print_info s h]; exact hinv
  · obtain ⟨hpast, hahead⟩ := hinv
    obtain ⟨u, hu, hlt, hcase⟩ := step_effect print_info s h
    rcases hcase with ⟨n, hall, hp, hc, hins, _⟩ | ⟨n, _, hpart, hp, hc, hins, _⟩
      | ⟨hp, hc, hins, _⟩
    · rw [hc, pieces_drawn_append s _ _ hins j, hp]
      constructor
      · intro hj
        by_cases hjc : s.curr_printable_i = j
        · obtain ⟨v, hv, hpieces⟩ := hahead (Nat.le_of_eq hjc)
          subst hjc
          have huv : u = v := Option.some.inj (hu.symm.trans hv)
          subst huv
          rw [if_pos rfl]
          simp only []
          rw [(draw_pieces u n).1 hall]
          exact hpieces
        · rw [if_neg hjc, List.append_nil]
          exact hpast (by omega)
      · intro hj
        have hjc : ¬ s.curr_printable_i = j := by omega
        obtain ⟨v, hv, hpieces⟩ := hahead (by omega)
        refine ⟨v, ?_, ?_⟩
        · rw [List.getElem?_set_ne hjc]; exact hv
        · rw [if_neg hjc, List.append_nil]; exact hpieces
    · rw [hc, pieces_drawn_append s _ _ hins j, hp]
      constructor
      · intro hj
        have hjc : ¬ s.curr_printable_i = j := by omega
        rw [if_neg hjc, List.append_nil]
        exact hpast hj
      · intro hj
        obtain ⟨v, hv, hpieces⟩ := hahead hj
        by_cases hjc : s.curr_printable_i = j
        · subst hjc
          have huv : u = v := Option.some.inj (hu.symm.trans hv)
          subst huv
          refine ⟨(u.draw n).1, ?_, ?_⟩
          · rw [List.getElem?_set, if_pos rfl, if_pos hlt]
          · rw [if_pos rfl, List.append_assoc]
            simp only []
            rw [(draw_pieces u n).2 hpart]
            exact hpieces
        · refine ⟨v, ?_, ?_⟩
          · rw [List.getElem?_set_ne hjc]; exact hv
          · rw [if_neg hjc, List.append_nil]; exact hpieces
    · have hsame : (s.step print_info).pieces_drawn j = s.pieces_drawn j := by
        simp only [PaginatorState.pieces_drawn, PaginatorState.slices_of, hins]
      rw [hc, hsame, hp]
      exact ⟨hpast, hahead⟩

/-- The paginator's result conserves the content of every unit: the pieces
drawn for unit `j`, in draw order, are exactly the pieces the unit had to
draw, each once. -/
theorem paginate_pieces_conserved (print_info : PrintInfo) (printables : CtPrintableVector)
    (s : PaginatorState) (hs : paginate print_info printables = some s)
    (j : Nat) (u0 : CtPrintable) (hj : printables[j]? = some u0) :
    s.pieces_drawn j = u0.pieces := by
  have hinv := run_invariant print_info
    (fun s => s.printables.length = printables.length
      ∧ ((j < s.curr_printable_i → s.pieces_drawn j = u0.pieces)
        ∧ (s.curr_printable_i ≤ j →
            ∃ v, s.printables[j]? = some v ∧ s.pieces_drawn j ++ v.pieces = u0.pieces)))
    (fun s _ hP =>
      ⟨(step_length print_info s).trans hP.1, step_pieces_conserved print_info s j _ hP.2⟩)
    _ _ s hs
    ⟨rfl, fun h => absurd h (Nat.not_lt_zero _),
      fun _ => ⟨u0, hj, by simp [PaginatorState.pieces_drawn, PaginatorState.slices_of,
        PaginatorState.start]⟩⟩
  obtain ⟨⟨hlen, hpast, _⟩, hfin⟩ := hinv
  have hcur : s.printables.length ≤ s.curr_printable_i := by
    simpa [PaginatorState.finished] using hfin
  have hjlt : j < printables.length := (List.getElem?_eq_some.mp hj).1
  exact hpast (by omega)

/-! ## Explicit page breaks -/

theorem step_kind (print_info : PrintInfo) (s : PaginatorState) (kind : Nat → Bool)
    (hinv : ∀ j v, s.printables[j]? = some v → v.is_page_break = kind j) :
    ∀ j v, (s.step print_info).printables[j]? = some v → v.is_page_break = kind j := by
  by_cases h : s.finished = true
  · rw [step_finished print_info s h]; exact hinv
  · obtain ⟨u, hu, hlt, hcase⟩ := step_effect print_info s h
    have hset : ∀ n j v, (s.printables.set s.curr_printable_i (u.draw n).1)[j]? = some v →
        v.is_page_break = kind j := by
      intro n j v hv
      by_cases hjc : s.curr_printable_i = j
      · subst hjc
        rw [List.getElem?_set, if_pos rfl, if_pos hlt] at hv
        rw [← Option.some.inj hv, draw_is_page_break]
        exact hinv _ u hu
      · rw [List.getElem?_set_ne hjc] at hv
        exact hinv j v hv
    intro j v hv
    rcases hcase with ⟨n, _, hp, _⟩ | ⟨n, _, _, hp, _⟩ | ⟨hp, _⟩
    · rw [hp] at hv; exact hset n j v hv
    · rw [hp] at hv; exact hset n j v hv
    · rw [hp] at hv; exact hinv j v hv

theorem after_kind (print_info : PrintInfo) (printables : CtPrintableVector) (n : Nat) :
    ∀ (j : Nat) (v u0 : CtPrintable), printables[j]? = some u0 →
      (PaginatorState.after print_info printables n).printables[j]? = some v →
      v.is_page_break = u0.is_page_break := by
  have key : ∀ (j : Nat) (v : CtPrintable),
      (PaginatorState.after print_info printables n).printables[j]? = some v →
      v.is_page_break = ((printables[j]?).map CtPrintable.is_page_break).getD false := by
    induction n with
    | zero =>
      intro j v hv
      have hv' : printables[j]? = some v := hv
      rw [hv']
      rfl
    | succ n ih =>
      rw [after_succ]
      exact step_kind print_info _ _ ih
  intro j v u0 hu0 hv
  rw [key j v hv, hu0]
  rfl

/-- Every instruction issued so far is for a unit up to the current one, and
one for the current unit means that unit is not a page break. -/
theorem step_index_bound (print_info : PrintInfo) (s : PaginatorState)
    (hinv : ∀ d ∈ s.instructions, d.printable_i ≤ s.curr_printable_i
      ∧ (d.printable_i = s.curr_printable_i →
          ∃ v, s.printables[s.curr_printable_i]? = some v ∧ v.is_page_break = false)) :
    ∀ d ∈ (s.step print_info).instructions,
      d.printable_i ≤ (s.step print_info).curr_printable_i
      ∧ (d.printable_i = (s.step print_info).curr_printable_i →
          ∃ v, (s.step print_info).printables[(s.step print_info).curr_printable_i]? = some v
            ∧ v.is_page_break = false) := by
  by_cases h : s.finished = true
  · rw [step_finished print_info s h]; exact hinv
  · obtain ⟨u, hu, hlt, hcase⟩ := step_effect print_info s h
    rcases hcase with ⟨n, _, _, hc, hins, _⟩ | ⟨n, _, hpart, hp, hc, hins, _⟩ | ⟨hp, hc, hins, _⟩
    · intro d hd
      rw [hins, List.mem_append, List.mem_singleton] at hd
      rw [hc]
      rcases hd with hd | hd
      · have := (hinv d hd).1
        exact ⟨by omega, fun heq => by omega⟩
      · rw [hd]
        exact ⟨Nat.le_succ _, fun heq => absurd heq (Nat.ne_of_lt (Nat.lt_succ_self _))⟩
    · have hnotbreak : u.is_page_break = false := by
        cases u <;> simp_all [CtPrintable.is_page_break, CtPrintable.pending]
      have hunit : ∃ v, (s.printables.set s.curr_printable_i (u.draw n).1)[
          s.curr_printable_i]? = some v ∧ v.is_page_break = false :=
        ⟨(u.draw n).1, by rw [List.getElem?_set, if_pos rfl, if_pos hlt],
          by rw [draw_is_page_break]; exact hnotbreak⟩
      intro d hd
      rw [hins, List.mem_append, List.mem_singleton] at hd
      rw [hc, hp]
      rcases hd with hd | hd
      · exact ⟨(hinv d hd).1, fun _ => hunit⟩
      · rw [hd]
        exact ⟨Nat.le_refl _, fun _ => hunit⟩
    · intro d hd
      rw [hins] at hd
      rw [hc, hp]
      exact hinv d hd

theorem after_index_bound (print_info : PrintInfo) (printables : CtPrintableVector) (n : Nat) :
    ∀ d ∈ (PaginatorState.after print_info printables n).instructions,
      d.printable_i ≤ (PaginatorState.after print_info printables n).curr_printable_i
      ∧ (d.printable_i = (PaginatorState.after print_info printables n).curr_printable_i →
          ∃ v, (PaginatorState.after print_info printables n).printables[
              (PaginatorState.after print_info printables n).curr_printable_i]? = some v
            ∧ v.is_page_break = false) := by
  induction n with
  | zero =>
    intro d hd
    simp [PaginatorState.after, PaginatorState.start] at hd
  | succ n ih =>
    rw [after_succ]
    exact step_index_bound print_info _ ih

theorem step_instructions_prefix (print_info : PrintInfo) (s : PaginatorState) :
    ∃ more, (s.step print_info).instructions = s.instructions ++ more := by
  by_cases h : s.finished = true
  · rw [step_finished print_info s h]; exact ⟨[], (List.append_nil _).symm⟩
  · obtain ⟨u, _, _, hcase⟩ := step_effect print_info s h
    rcases hcase with ⟨n, _, _, _, hins, _⟩ | ⟨n, _, _, _, _, hins, _⟩ | ⟨_, _, hins, _⟩
    · exact ⟨_, hins⟩
    · exact ⟨_, hins⟩
    · exact ⟨[], by rw [hins, List.append_nil]⟩

theorem after_instructions_prefix (print_info : PrintInfo) (printables : CtPrintableVector)
    (n m : Nat) (h : n ≤ m) :
    ∃ more, (PaginatorState.after print_info printables m).instructions
      = (PaginatorState.after print_info printables n).instructions ++ more := by
  induction m with
  | zero =>
    have : n = 0 := Nat.le_zero.mp h
    rw [this]
    exact ⟨[], (List.append_nil _).symm⟩
  | succ m ih =>
    rcases Nat.lt_or_ge n (m + 1) with hlt | hge
    · obtain ⟨more, hmore⟩ := ih (Nat.lt_succ_iff.mp hlt)
      obtain ⟨more2, hmore2⟩ := step_instructions_prefix print_info
        (PaginatorState.after print_info printables m)
      rw [after_succ, hmore2, hmore, List.append_assoc]
      exact ⟨_, rfl⟩
    · have : n = m + 1 := Nat.le_antisymm h hge
      rw [this]
      exact ⟨[], (List.append_nil _).symm⟩

theorem after_finished_stays (print_info : PrintInfo) (printables : CtPrintableVector)
    (n : Nat) (hfin : (PaginatorState.after print_info printables n).finished = true) :
    ∀ m, n ≤ m → PaginatorState.after print_info printables m
      = PaginatorState.after print_info printables n := by
  intro m hm
  induction m with
  | zero =>
    have : n = 0 := Nat.le_zero.mp hm
    rw [this]
  | succ m ih =>
    rcases Nat.lt_or_ge n (m + 1) with hlt | hge
    · rw [after_succ, ih (Nat.lt_succ_iff.mp hlt), step_finished print_info _ hfin]
    · have : n = m + 1 := Nat.le_antisymm hm hge
      rw [this]

theorem step_page_break (print_info : PrintInfo) (s : PaginatorState) (v : CtPrintable)
    (hv : s.printables[s.curr_printable_i]? = some v) (hbreak : v.is_page_break = true) :
    (s.step print_info).instructions = s.instructions ++
        [{ page_nr := s.page_nr, printable_i := s.curr_printable_i, position := s.position,
           drawn := Drawn.page_break }]
    ∧ (s.step print_info).curr_printable_i = s.curr_printable_i + 1
    ∧ (s.step print_info).page_nr = s.page_nr + 1
    ∧ (s.step print_info).position = { x := 0, y := 0 } := by
  have hstep : s.step print_info = (s.emit print_info v).next_printable.new_page := by
    simp [PaginatorState.step, hv, hbreak]
  rw [hstep]
  cases v with
  | page_break b => exact ⟨rfl, rfl, rfl, rfl⟩
  | text t => simp [CtPrintable.is_page_break] at hbreak
  | link l => simp [CtPrintable.is_page_break] at hbreak
  | dest d => simp [CtPrintable.is_page_break] at hbreak
  | image i => simp [CtPrintable.is_page_break] at hbreak
  | table t => simp [CtPrintable.is_page_break] at hbreak
  | codebox c => simp [CtPrintable.is_page_break] at hbreak

theorem step_at_top_emits (print_info : PrintInfo) (s : PaginatorState)
    (hnot : ¬ s.finished = true) (htop : s.position.y = 0) :
    ∃ drawn, (s.step print_info).instructions = s.instructions ++
      [{ page_nr := s.page_nr, printable_i := s.curr_printable_i, position := s.position,
         drawn := drawn }] := by
  obtain ⟨u, hu⟩ := current_of_not_finished s hnot
  rcases step_cases print_info s u hu with ⟨_, hst | hst⟩ | ⟨_, _, hst⟩ | ⟨hne, _⟩
  · exact ⟨_, by rw [hst]; rfl⟩
  · exact ⟨_, by rw [hst]; rfl⟩
  · exact ⟨_, by rw [hst]; rfl⟩
  · exact absurd htop hne

/-- In a job whose unit `k` is a page break followed by another unit, the
break is drawn once, ends its page at once, and the first slice of the next
unit is drawn right after it, at the top of the next page. -/
theorem page_break_boundary (print_info : PrintInfo) (printables : CtPrintableVector)
    (k : Nat) (v u : CtPrintable) (hk : printables[k]? = some v)
    (hbreak : v.is_page_break = true) (hnext : printables[k + 1]? = some u)
    (s' : PaginatorState) (hs' : paginate print_info printables = some s') :
    ∃ earlier d_break d_next later,
      s'.instructions = earlier ++ d_break :: d_next :: later
      ∧ (∀ d ∈ earlier, d.printable_i < k)
      ∧ d_break.printable_i = k
      ∧ d_break.drawn = Drawn.page_break
      ∧ d_next.printable_i = k + 1
      ∧ d_next.page_nr = d_break.page_nr + 1
      ∧ d_next.position = { x := 0, y := 0 } := by
  have hklen : k + 1 < printables.length := (List.getElem?_eq_some.mp hnext).1
  -- the visit that takes the paginator past the break
  have hpast : ∃ n, k < (PaginatorState.after print_info printables n).curr_printable_i := by
    refine ⟨(PaginatorState.start printables).work, ?_⟩
    have hfin := iterate_finished print_info _ (PaginatorState.start printables) (Nat.le_refl _)
    have hlen := after_length print_info printables (PaginatorState.start printables).work
    simp only [PaginatorState.after] at hlen ⊢
    simp only [PaginatorState.finished, decide_eq_true_eq] at hfin
    omega
  have hfirst := Nat.find_spec hpast
  have hmin := fun m => Nat.find_min (H := hpast) (m := m)
  have hpos : 0 < Nat.find hpast := by
    rcases Nat.eq_zero_or_pos (Nat.find hpast) with h0 | h0
    · rw [h0] at hfirst
      exact absurd hfirst (Nat.not_lt_zero _)
    · exact h0
  obtain ⟨t, ht⟩ : ∃ t, Nat.find hpast = t + 1 := ⟨Nat.find hpast - 1, by omega⟩
  rw [ht] at hfirst
  have hbefore : ¬ k < (PaginatorState.after print_info printables t).curr_printable_i :=
    hmin t (by omega)
  have hcurr : (PaginatorState.after print_info printables t).curr_printable_i = k := by
    have hstep := step_curr print_info (PaginatorState.after print_info printables t)
    rw [← after_succ] at hstep
    rcases hstep with hc | ⟨hc, _⟩ <;> omega
  -- the unit visited there is the break
  have hlenA := after_length print_info printables t
  have hunitA : ∃ w, (PaginatorState.after print_info printables t).printables[
      (PaginatorState.after print_info printables t).curr_printable_i]? = some w
      ∧ w.is_page_break = true := by
    rw [hcurr]
    have hlt : k < (PaginatorState.after print_info printables t).printables.length := by omega
    refine ⟨_, List.getElem?_eq_getElem hlt, ?_⟩
    rw [after_kind print_info printables t k _ v hk (List.getElem?_eq_getElem hlt)]
    exact hbreak
  obtain ⟨w, hw, hwbreak⟩ := hunitA
  obtain ⟨hinsB, hcurrB, hpageB, hposB⟩ :=
    step_page_break print_info (PaginatorState.after print_info printables t) w hw hwbreak
  rw [← after_succ, hcurr] at hinsB hcurrB
  rw [← after_succ] at hpageB hposB
  -- the next visit draws the next unit at the top of the new page
  have hnotfin : ¬ (PaginatorState.after print_info printables (t + 1)).finished = true := by
    have hlenB := after_length print_info printables (t + 1)
    simp only [PaginatorState.finished, decide_eq_true_eq]
    omega
  obtain ⟨drawn, hinsC⟩ := step_at_top_emits print_info
    (PaginatorState.after print_info printables (t + 1)) hnotfin (by rw [hposB])
  rw [← after_succ, hinsB, hcurrB, hpageB, hposB, List.append_assoc] at hinsC
  -- the job ends after these two visits
  obtain ⟨N, hN⟩ := paginate_eq_after print_info printables
  have hsN : s' = PaginatorState.after print_info printables N :=
    Option.some.inj (hs'.symm.trans hN)
  have hfinN : (PaginatorState.after print_info printables N).finished = true := by
    have hrun : PaginatorState.run print_info (PaginatorState.start printables).work
        (PaginatorState.start printables) = some s' := hs'
    have := (run_invariant print_info (fun _ => True) (fun _ _ _ => trivial) _ _ _ hrun
      trivial).2
    rw [hsN] at this
    exact this
  have hN2 : t + 2 ≤ N := by
    by_contra hlt
    have hle : N ≤ t + 1 := by omega
    have := after_finished_stays print_info printables N hfinN (t + 1) hle
    rw [this] at hnotfin
    exact hnotfin hfinN
  obtain ⟨later, hlater⟩ := after_instructions_prefix print_info printables (t + 2) N hN2
  refine ⟨(PaginatorState.after print_info printables t).instructions,
    { page_nr := (PaginatorState.after print_info printables t).page_nr, printable_i := k,
      position := (PaginatorState.after print_info printables t).position,
      drawn := Drawn.page_break },
    { page_nr := (PaginatorState.after print_info printables t).page_nr + 1,
      printable_i := k + 1, position := { x := 0, y := 0 }, drawn := drawn },
    later, ?_, ?_, rfl, rfl, rfl, rfl, rfl⟩
  · rw [hsN, hlater, hinsC, List.append_assoc]
    rfl
  · intro d hd
    obtain ⟨hle, hkind⟩ := after_index_bound print_info printables t d hd
    rw [hcurr] at hle hkind
    rcases Nat.lt_or_ge d.printable_i k with hlt | hge
    · exact hlt
    · have heq : d.printable_i = k := Nat.le_antisymm hle hge
      obtain ⟨w', hw', hw'not⟩ := hkind heq
      rw [hcurr] at hw
      have : w = w' := Option.some.inj (hw.symm.trans hw')
      rw [this, hw'not] at hwbreak
      exact absurd hwbreak (by simp)

/-- Claim C12: an explicit page break only forces a page boundary.  Insert a
page break immediately before a unit `u` of any content-unit sequence.  Then the
break ends its page at once, whatever space remains: the first slice of `u` is
the draw instruction right after the break's, on the next page, at the top.
And the content drawn for `u` and for every other unit is what it is without
the break, namely all the pieces of the unit, each once.  With 90 of 100
left, a break followed by a one-line text run puts the line at the top of
page 2, where without the break it follows on page 1. -/
theorem page_break_only_breaks (print_info : PrintInfo) (before : CtPrintableVector)
    (u : CtPrintable) (rest : CtPrintableVector) (b : CtPageBreakPrintable) :
    ∃ s s', paginate print_info (before ++ u :: rest) = some s
      ∧ paginate print_info (before ++ CtPrintable.page_break b :: u :: rest) = some s'
      ∧ (∀ (j : Nat) (v : CtPrintable), (before ++ u :: rest)[j]? = some v →
          s.pieces_drawn j = v.pieces
          ∧ s'.pieces_drawn (if j < before.length then j else j + 1) = v.pieces)
      ∧ s'.pieces_drawn before.length = [Piece.page_break]
      ∧ (∃ earlier d_break d_u later,
          s'.instructions = earlier ++ d_break :: d_u :: later
          ∧ (∀ d ∈ earlier, d.printable_i < before.length)
          ∧ d_break.printable_i = before.length
          ∧ d_break.drawn = Drawn.page_break
          ∧ d_u.printable_i = before.length + 1
          ∧ d_u.page_nr = d_break.page_nr + 1
          ∧ d_u.position = { x := 0, y := 0 })
      ∧ (paginate sample_print_info
            [CtPrintable.image sample_small_image,
             CtPrintable.page_break CtPageBreakPrintable.new,
             CtPrintable.text sample_one_line]).map
          (fun res => (res.nb_pages, res.instructions))
          = some (2,
              [{ page_nr := 0, printable_i := 0, position := { x := 0, y := 0 },
                 drawn := Drawn.image sample_small_image._widget_proxy.get_image },
               { page_nr := 0, printable_i := 1, position := { x := 0, y := 10 },
                 drawn := Drawn.page_break },
               { page_nr := 1, printable_i := 2, position := { x := 0, y := 0 },
                 drawn := Drawn.lines sample_one_line._layout }])
      ∧ (paginate sample_print_info
            [CtPrintable.image sample_small_image, CtPrintable.text sample_one_line]).map
          (fun res => (res.nb_pages, res.instructions))
          = some (1,
              [{ page_nr := 0, printable_i := 0, position := { x := 0, y := 0 },
                 drawn := Drawn.image sample_small_image._widget_proxy.get_image },
               { page_nr := 0, printable_i := 1, position := { x := 0, y := 10 },
                 drawn := Drawn.lines sample_one_line._layout }]) := by
  obtain ⟨s, hs⟩ := run_terminates print_info
    (PaginatorState.start (before ++ u :: rest)).work
    (PaginatorState.start (before ++ u :: rest)) (Nat.le_refl _)
  obtain ⟨s', hs'⟩ := run_terminates print_info
    (PaginatorState.start (before ++ CtPrintable.page_break b :: u :: rest)).work
    (PaginatorState.start (before ++ CtPrintable.page_break b :: u :: rest)) (Nat.le_refl _)
  have hbreak_at : (before ++ CtPrintable.page_break b :: u :: rest)[before.length]?
      = some (CtPrintable.page_break b) := by
    rw [List.getElem?_append_right (Nat.le_refl _)]
    simp
  have hu_at : (before ++ CtPrintable.page_break b :: u :: rest)[before.length + 1]?
      = some u := by
    rw [List.getElem?_append_right (Nat.le_succ _)]
    simp
  refine ⟨s, s', hs, hs', ?_, ?_, ?_, by decide!, by decide!⟩
  · intro j v hv
    refine ⟨paginate_pieces_conserved print_info _ s hs j v hv, ?_⟩
    apply paginate_pieces_conserved print_info _ s' hs'
    by_cases hj : j < before.length
    · rw [if_pos hj, List.getElem?_append_left hj]
      rw [List.getElem?_append_left hj] at hv
      exact hv
    · have hge : before.length ≤ j := Nat.le_of_not_lt hj
      rw [if_neg hj, List.getElem?_append_right (by omega)]
      rw [List.getElem?_append_right hge] at hv
      have hidx : j + 1 - before.length = (j - before.length) + 1 := by omega
      rw [hidx, List.getElem?_cons_succ]
      exact hv
  · exact paginate_pieces_conserved print_info _ s' hs' before.length _ hbreak_at
  · exact page_break_boundary print_info _ before.length _ u hbreak_at rfl hu_at s' hs'


/-! ## Column count of the continuations of a table (C21) -/

/-- Neither `create_new_with` nor `remove_first_rows` changes the table a proxy
refers to, so a proxy reached by any sequence of calls is over the same table. -/
theorem calls_table (cs : List CtPrintTableProxy.Call) :
    ∀ p : CtPrintTableProxy, (p.calls cs)._table = p._table := by
  induction cs with
  | nil => intro p; rfl
  | cons c cs ih =>
    intro p
    have h := ih (p.call c)
    simp only [CtPrintTableProxy.calls, List.foldl_cons] at h ⊢
    rw [h]
    cases c <;> rfl

/-- The column count reads only the table: two proxies over the same table have
the same `get_col_num()`. -/
theorem get_col_num_of_table (p q : CtPrintTableProxy) (h : p._table = q._table) :
    p.get_col_num = q.get_col_num := by
  simp only [CtPrintTableProxy.get_col_num, h]

/-- C21: for a table whose matrix has a first (header) row, `get_col_num()` of every
proxy over it, whatever its start row and row count, is the number of cells of
that header row; the proxy returned by `create_new_with`, the proxy after
`remove_first_rows`, and the proxy reached by any sequence of these calls, have
the same column count as the original. -/
theorem col_num_shared_by_continuations (table : CtTable) (header : CtTableRow)
    (rest : CtTableMatrix) (hmatrix : table.get_table_matrix = header :: rest) :
    (∀ startRow rowNum : Int,
        CtPrintTableProxy.get_col_num
          { _table := table, _startRow := startRow, _rowNum := rowNum } = some header.length)
    ∧ (∀ p : CtPrintTableProxy, p.get_table = table →
        p.get_col_num = some header.length
        ∧ (∀ row_num : Int, (p.create_new_with row_num).get_col_num = p.get_col_num)
        ∧ (∀ remove_row_num : Int,
            (p.remove_first_rows remove_row_num).get_col_num = p.get_col_num)
        ∧ (∀ cs : List CtPrintTableProxy.Call, (p.calls cs).get_col_num = p.get_col_num)) := by
  refine ⟨?_, ?_⟩
  · intro startRow rowNum
    simp only [CtPrintTableProxy.get_col_num, hmatrix, List.head?_cons, Option.map_some']
  · intro p hp
    refine ⟨?_, ?_, ?_, ?_⟩
    · simp only [CtPrintTableProxy.get_table] at hp
      simp only [CtPrintTableProxy.get_col_num, hp, hmatrix, List.head?_cons, Option.map_some']
    · intro row_num
      exact get_col_num_of_table _ _ rfl
    · intro remove_row_num
      exact get_col_num_of_table _ _ rfl
    · intro cs
      exact get_col_num_of_table _ _ (calls_table cs p)

/-- The sample table has a one-cell header: the whole-table proxy, its head slice
and the proxy advanced by two rows all report one column. -/
theorem col_num_shared_by_continuations_witness :
    sample_table.get_table_matrix = [⟨"h"⟩] :: [[⟨"a"⟩], [⟨"b"⟩], [⟨"c"⟩]]
    ∧ sample_proxy.get_col_num = some 1
    ∧ (sample_proxy.create_new_with 2).get_col_num = sample_proxy.get_col_num
    ∧ (sample_proxy.remove_first_rows 2).get_col_num = sample_proxy.get_col_num
    ∧ (sample_proxy.calls [.remove_first_rows 1, .create_new_with 2, .remove_first_rows 1]).get_col_num
        = sample_proxy.get_col_num :=
  ⟨rfl,
   ((col_num_shared_by_continuations sample_table [⟨"h"⟩] [[⟨"a"⟩], [⟨"b"⟩], [⟨"c"⟩]] rfl).2
      sample_proxy rfl).1,
   ((col_num_shared_by_continuations sample_table [⟨"h"⟩] [[⟨"a"⟩], [⟨"b"⟩], [⟨"c"⟩]] rfl).2
      sample_proxy rfl).2.1 2,
   ((col_num_shared_by_continuations sample_table [⟨"h"⟩] [[⟨"a"⟩], [⟨"b"⟩], [⟨"c"⟩]] rfl).2
      sample_proxy rfl).2.2.1 2,
   ((col_num_shared_by_continuations sample_table [⟨"h"⟩] [[⟨"a"⟩], [⟨"b"⟩], [⟨"c"⟩]] rfl).2
      sample_proxy rfl).2.2.2 _⟩

/-! ## Substituted text of a code-box proxy (C22) -/

/-- No call clears `_use_proxy_text`: a proxy with a substituted text has one
after any sequence of calls. -/
theorem calls_use_proxy_text (cs : List CtPrintCodeboxProxy.Call) :
    ∀ p : CtPrintCodeboxProxy, p._use_proxy_text = true → (p.calls cs)._use_proxy_text = true := by
  induction cs with
  | nil => intro p h; exact h
  | cons c cs ih =>
    intro p h
    have hc : (p.call c)._use_proxy_text = true := by
      cases c <;> first | exact h | rfl
    exact ih (p.call c) hc

/-- No call changes the codebox a proxy refers to. -/
theorem calls_codebox (cs : List CtPrintCodeboxProxy.Call) :
    ∀ p : CtPrintCodeboxProxy, (p.calls cs)._codebox = p._codebox := by
  induction cs with
  | nil => intro p; rfl
  | cons c cs ih =>
    intro p
    have h := ih (p.call c)
    simp only [CtPrintCodeboxProxy.calls, List.foldl_cons] at h ⊢
    rw [h]
    cases c <;> rfl

/-- After any sequence of calls `_proxy_text` is the text the proxy had or the
text of one of the `set_proxy_content` calls of the sequence. -/
theorem calls_proxy_text (cs : List CtPrintCodeboxProxy.Call) :
    ∀ p : CtPrintCodeboxProxy,
      (p.calls cs)._proxy_text = p._proxy_text
      ∨ CtPrintCodeboxProxy.Call.set_proxy_content (p.calls cs)._proxy_text ∈ cs := by
  induction cs with
  | nil => intro p; exact Or.inl rfl
  | cons c cs ih =>
    intro p
    have h := ih (p.call c)
    simp only [CtPrintCodeboxProxy.calls, List.foldl_cons, List.mem_cons] at h ⊢
    rcases h with h | h
    · cases c with
      | set_proxy_content proxy_text =>
        right; left
        rw [h]; rfl
      | get_codebox => left; exact h
      | get_width_in_pixels => left; exact h
      | get_frame_width => left; exact h
      | get_text_content => left; exact h
      | pango_from_code_buffer codebox => left; exact h
    · exact Or.inr (Or.inr h)

/-- C22: text substitution on a code-box proxy is irreversible.  A proxy constructed
with a text, or after `set_proxy_content`, has a substituted text; from a proxy
with a substituted text, after any sequence of calls of its member functions,
`get_text_content()` returns a substituted text (the one it had or the one of a
`set_proxy_content` call of the sequence) and does not read the code buffer: the
result is the same whatever `pango_from_code_buffer` returns and whatever the
codebox holds.  `set_proxy_content("")` makes `get_text_content()` return the empty
string, and no call changes the codebox referred to, `get_frame_width()` or
`get_width_in_pixels()`. -/
theorem text_substitution_irreversible (p : CtPrintCodeboxProxy)
    (hsub : p._use_proxy_text = true) (cs : List CtPrintCodeboxProxy.Call) :
    (∀ (codebox : CtCodebox) (text : String),
        (CtPrintCodeboxProxy.new_with_text codebox text)._use_proxy_text = true)
    ∧ (∀ (q : CtPrintCodeboxProxy) (text : String),
        (q.set_proxy_content text)._use_proxy_text = true)
    ∧ (p.calls cs)._use_proxy_text = true
    ∧ (∀ pango : CtCodebox → String,
        CtPrintCodeboxProxy.get_text_content pango (p.calls cs) = p._proxy_text
        ∨ CtPrintCodeboxProxy.Call.set_proxy_content
            (CtPrintCodeboxProxy.get_text_content pango (p.calls cs)) ∈ cs)
    ∧ (∀ pango1 pango2 : CtCodebox → String,
        CtPrintCodeboxProxy.get_text_content pango1 (p.calls cs)
          = CtPrintCodeboxProxy.get_text_content pango2 (p.calls cs))
    ∧ (∀ (pango : CtCodebox → String) (codebox : CtCodebox),
        CtPrintCodeboxProxy.get_text_content pango { p.calls cs with _codebox := codebox }
          = CtPrintCodeboxProxy.get_text_content pango (p.calls cs))
    ∧ (∀ (q : CtPrintCodeboxProxy) (pango : CtCodebox → String),
        CtPrintCodeboxProxy.get_text_content pango (q.set_proxy_content "") = "")
    ∧ (∀ (q : CtPrintCodeboxProxy) (text : String),
        (q.set_proxy_content text).get_codebox = q.get_codebox
        ∧ (q.set_proxy_content text).get_frame_width = q.get_frame_width
        ∧ (q.set_proxy_content text).get_width_in_pixels = q.get_width_in_pixels)
    ∧ (p.calls cs).get_codebox = p.get_codebox
    ∧ (p.calls cs).get_frame_width = p.get_frame_width
    ∧ (p.calls cs).get_width_in_pixels = p.get_width_in_pixels := by
  have huse := calls_use_proxy_text cs p hsub
  have hbox := calls_codebox cs p
  have hget : ∀ pango : CtCodebox → String,
      CtPrintCodeboxProxy.get_text_content pango (p.calls cs) = (p.calls cs)._proxy_text := by
    intro pango
    simp only [CtPrintCodeboxProxy.get_text_content, huse, if_true]
  refine ⟨fun _ _ => rfl, fun _ _ => rfl, huse, ?_, ?_, ?_, fun _ _ => rfl,
    fun _ _ => ⟨rfl, rfl, rfl⟩, ?_, ?_, ?_⟩
  · intro pango
    rw [hget pango]
    exact calls_proxy_text cs p
  · intro pango1 pango2
    rw [hget pango1, hget pango2]
  · intro pango codebox
    rw [hget pango]
    simp only [CtPrintCodeboxProxy.get_text_content, huse, if_true]
  · simp only [CtPrintCodeboxProxy.get_codebox, hbox]
  · simp only [CtPrintCodeboxProxy.get_frame_width, hbox]
  · simp only [CtPrintCodeboxProxy.get_width_in_pixels, hbox]

/-- The proxy constructed with the text `"x = 1"` over the sample code box: after
reading the text, substituting the empty string and reading the frame width,
`get_text_content()` is the empty string whatever the live text is, and the
codebox and frame width are those of the sample. -/
theorem text_substitution_irreversible_witness :
    sample_codebox_slice._use_proxy_text = true
    ∧ (sample_codebox_slice.calls
        [.get_text_content, .set_proxy_content "", .get_frame_width])._use_proxy_text = true
    ∧ CtPrintCodeboxProxy.get_text_content sample_pango
        (sample_codebox_slice.calls [.get_text_content, .set_proxy_content "", .get_frame_width])
        = CtPrintCodeboxProxy.get_text_content (fun _ => "other")
            (sample_codebox_slice.calls
              [.get_text_content, .set_proxy_content "", .get_frame_width])
    ∧ (sample_codebox_slice.calls
        [.get_text_content, .set_proxy_content "", .get_frame_width]).get_codebox
        = sample_codebox_slice.get_codebox
    ∧ CtPrintCodeboxProxy.get_text_content sample_pango
        (sample_codebox_slice.set_proxy_content "") = ""
    ∧ sample_pango sample_codebox_slice.get_codebox = "x = 1\ny = 2" :=
  ⟨rfl,
   (text_substitution_irreversible sample_codebox_slice rfl
      [.get_text_content, .set_proxy_content "", .get_frame_width]).2.2.1,
   (text_substitution_irreversible sample_codebox_slice rfl
      [.get_text_content, .set_proxy_content "", .get_frame_width]).2.2.2.2.1 _ _,
   (text_substitution_irreversible sample_codebox_slice rfl
      [.get_text_content, .set_proxy_content "", .get_frame_width]).2.2.2.2.2.2.2.2.1,
   (text_substitution_irreversible sample_codebox_slice rfl
      [.get_text_content, .set_proxy_content "", .get_frame_width]).2.2.2.2.2.2.1 _ _,
   rfl⟩

end Cherrytree
